import Mathlib

/-!
# SSD1306 OLED driver (STM32F103): shallow embedding and verified properties

The embedding follows `Core/Src/ssd1306_oled.c`.

* Machine integers are `Nat` / `Int` with the C conversions written out
  (`u8`, `u16`, `i8`, `i16`).
* The driver state is the memory reachable through the global pointer
  `p_ram`, the pointer itself (as an offset from `ssd1306_ram`), and the
  trace of I2C bus events issued so far.
* The I2C primitives are embedded at the level of the bus events they
  produce when the peer acknowledges (all status waits are satisfied).
-/

namespace SSD1306

/-! ## Machine integers -/

/-- Conversion of a C `int` value to `uint8_t`. -/
def u8 (n : Int) : Nat := (n % 256).toNat

/-- Conversion of a C `int` value to `uint16_t`. -/
def u16 (n : Int) : Nat := (n % 65536).toNat

/-- Conversion of a C `int` value to `int8_t` (two's complement wrap). -/
def i8 (n : Int) : Int := (n + 128) % 256 - 128

/-- Conversion of a C `int` value to `int16_t` (two's complement wrap). -/
def i16 (n : Int) : Int := (n + 32768) % 65536 - 32768

/-! ## Constants of `ssd1306_oled.h` -/

/-- Display width in pixels. -/
def SSD1306_WIDTH : Nat := 128

/-- Display height in pixels. -/
def SSD1306_HEIGHT : Nat := 64

/-- Seven-bit slave address of the display. -/
def SSD1306_SLAVE_ADDR : Nat := 0x3C

/-- Write address: the slave address shifted left by one. -/
def SSD1306_SLAVE_ADDR_W : Nat := SSD1306_SLAVE_ADDR <<< 1

/-- Control byte announcing command bytes. -/
def CMD_CTRL_BYTE : Nat := 0x00

/-- Control byte announcing display data bytes. -/
def DATA_CTRL_BYTE : Nat := 0x40

/-! ## Driver state and bus primitives -/

/-- One event on the I2C bus, as issued by the four primitives of `i2c.c`
that the display driver calls. -/
inductive BusEvent where
  | start : BusEvent
  | request : Nat → BusEvent
  | write : Nat → BusEvent
  | stop : BusEvent
  deriving DecidableEq, Repr

/-- State of the driver.

* `mem i` is the byte stored `i` bytes after `&ssd1306_ram[0]`; cells
  `0 .. 1023` are the shadow buffer `ssd1306_ram`, larger indices lie past
  its end.
* `p_ram` is the offset of the global pointer `p_ram` from `ssd1306_ram`
  (its initialiser is `ssd1306_ram`, offset 0).
* `bus` is the trace of bus events issued so far, oldest first. -/
structure Driver where
  mem : Nat → Nat
  p_ram : Nat
  bus : List BusEvent

/-- Memory with cell `k` replaced by `v`. -/
def store (m : Nat → Nat) (k v : Nat) : Nat → Nat :=
  fun i => if i = k then v else m i

/-- The primitive `i2c_start`: issue a start (or repeated start) condition. -/
def i2c_start (s : Driver) : Driver :=
  { s with bus := s.bus ++ [BusEvent.start] }

/-- The primitive `i2c_stop`: issue a stop condition. -/
def i2c_stop (s : Driver) : Driver :=
  { s with bus := s.bus ++ [BusEvent.stop] }

/-- The primitive `i2c_request`: send the address byte. -/
def i2c_request (s : Driver) (slave_addr_rw : Nat) : Driver :=
  { s with bus := s.bus ++ [BusEvent.request slave_addr_rw] }

/-- The primitive `i2c_write`: transmit one byte. -/
def i2c_write (s : Driver) (data : Nat) : Driver :=
  { s with bus := s.bus ++ [BusEvent.write data] }

/-! ## Cursor and pixel operations -/

/-- The C function `ssd1306_displayMoveCursor(col, row)`. -/
def ssd1306_displayMoveCursor (s : Driver) (col row : Nat) : Driver :=
  let s := i2c_start s
  let s := i2c_request s SSD1306_SLAVE_ADDR_W
  let s := i2c_write s 0x00
  let s := i2c_write s 0x21
  let s := i2c_write s col
  let s := i2c_write s 0x7F
  let s := i2c_write s 0x22
  let s := i2c_write s row
  let s := i2c_write s 0x07
  i2c_stop s

/-- The C function `ssd1306_drawPixel(x_pos, y_pos)`; the arguments are `uint8_t` values. -/
def ssd1306_drawPixel (s : Driver) (x_pos y_pos : Nat) : Driver :=
  let s := ssd1306_displayMoveCursor s x_pos (y_pos / 8)
  let byte_pos := u16 (x_pos + 128 * (y_pos / 8))
  let s := i2c_start s
  let s := i2c_request s SSD1306_SLAVE_ADDR_W
  let s := i2c_write s DATA_CTRL_BYTE
  let v := (s.mem (s.p_ram + byte_pos) ||| (0x01 <<< (y_pos % 8))) % 256
  let s := { s with mem := store s.mem (s.p_ram + byte_pos) v }
  let s := i2c_write s v
  i2c_stop s

/-- The C function `ssd1306_displayClearPixel(x_pos, y_pos)`; the arguments are `uint8_t`
values. The assigned value is `0x00 << (y_pos % 8)`. -/
def ssd1306_displayClearPixel (s : Driver) (x_pos y_pos : Nat) : Driver :=
  let s := ssd1306_displayMoveCursor s x_pos (y_pos / 8)
  let byte_pos := u16 (x_pos + 128 * (y_pos / 8))
  let s := i2c_start s
  let s := i2c_request s SSD1306_SLAVE_ADDR_W
  let s := i2c_write s DATA_CTRL_BYTE
  let v := (0x00 <<< (y_pos % 8)) % 256
  let s := { s with mem := store s.mem (s.p_ram + byte_pos) v }
  let s := i2c_write s v
  i2c_stop s

/-! ## RAM operations -/

/-- The C function `ssd1306_ramUpdateByte(byte_pos, byte_val)`; `byte_pos` is a `uint16_t`
value and `byte_val` a `uint8_t` value. -/
def ssd1306_ramUpdateByte (s : Driver) (byte_pos byte_val : Nat) : Driver :=
  let y_pos := u8 (byte_pos / 128)
  let x_pos := u8 ((byte_pos : Int) - 128 * y_pos)
  let s := ssd1306_displayMoveCursor s x_pos y_pos
  let s := i2c_start s
  let s := i2c_request s SSD1306_SLAVE_ADDR_W
  let s := i2c_write s DATA_CTRL_BYTE
  let v := (s.mem (s.p_ram + byte_pos) ||| byte_val) % 256
  let s := { s with mem := store s.mem (s.p_ram + byte_pos) v }
  let s := i2c_write s v
  i2c_stop s

/-- The C function `ssd1306_ramWrite(byte_pos, byte_val)`. -/
def ssd1306_ramWrite (s : Driver) (byte_pos byte_val : Nat) : Driver :=
  { s with mem := store s.mem (s.p_ram + byte_pos)
                    ((s.mem (s.p_ram + byte_pos) ||| byte_val) % 256) }

/-- One iteration of the loop of `ssd1306_ramUpdateFull`: a data write of
`*p_ram`, after which `p_ram` is incremented. -/
def ramUpdateFull_body (s : Driver) : Driver :=
  let s := i2c_start s
  let s := i2c_request s SSD1306_SLAVE_ADDR_W
  let s := i2c_write s DATA_CTRL_BYTE
  let s := i2c_write s (s.mem s.p_ram)
  { s with p_ram := s.p_ram + 1 }

/-- The `for` loop of `ssd1306_ramUpdateFull`, with `n` iterations left. -/
def ramUpdateFull_loop : Nat → Driver → Driver
  | 0, s => s
  | n + 1, s => ramUpdateFull_loop n (ramUpdateFull_body s)

/-- The C function `ssd1306_ramUpdateFull()`. -/
def ssd1306_ramUpdateFull (s : Driver) : Driver :=
  i2c_stop (ramUpdateFull_loop 1024 s)

/-- The `for` loop of `ssd1306_ramClear`, with `n` iterations left:
`*p_ram++ = 0x00`. -/
def ramClear_loop : Nat → Driver → Driver
  | 0, s => s
  | n + 1, s =>
      ramClear_loop n { s with mem := store s.mem s.p_ram 0x00, p_ram := s.p_ram + 1 }

/-- The C function `ssd1306_ramClear()`. -/
def ssd1306_ramClear (s : Driver) : Driver :=
  ramClear_loop 1024 (ssd1306_displayMoveCursor s 0 0)

/-! ## Simulated display

A model of the SSD1306 side of the bus in horizontal addressing mode (the
mode `ssd1306_init` selects): the column-range (0x21) and page-range (0x22)
commands set the address window and move the cursor to its start; each data
byte is stored at the cursor, which then advances through the window. -/

/-- What the next written byte of the current bus transaction means. -/
inductive Phase where
  | idle : Phase
  | addressing : Phase
  | control : Phase
  | command : Phase
  | data : Phase
  deriving DecidableEq, Repr

/-- State of the simulated display: graphic memory (`gddram i` is column
`i % 128` of page `i / 128`), the address window, the cursor, and the state
of the bus interface (`pending` holds the bytes of a command whose arguments
are still arriving). -/
structure Display where
  gddram : Nat → Nat
  col_start : Nat
  col_end : Nat
  page_start : Nat
  page_end : Nat
  col : Nat
  page : Nat
  phase : Phase
  pending : List Nat

/-- Number of argument bytes that follow a command byte. -/
def Display.argCount (cmd : Nat) : Nat :=
  if cmd = 0x21 ∨ cmd = 0x22 ∨ cmd = 0xA3 then 2
  else if cmd = 0x26 ∨ cmd = 0x27 then 6
  else if cmd = 0x29 ∨ cmd = 0x2A then 5
  else if cmd = 0x20 ∨ cmd = 0x81 ∨ cmd = 0x8D ∨ cmd = 0xA8 ∨ cmd = 0xD3 ∨ cmd = 0xD5
      ∨ cmd = 0xD9 ∨ cmd = 0xDA ∨ cmd = 0xDB then 1
  else 0

/-- Effect of a complete command (command byte followed by its arguments). -/
def Display.execute (d : Display) (bytes : List Nat) : Display :=
  match bytes with
  | [0x21, a, b] => { d with col_start := a % 128, col_end := b % 128, col := a % 128 }
  | [0x22, a, b] => { d with page_start := a % 8, page_end := b % 8, page := a % 8 }
  | _ => d

/-- Reception of one command byte. -/
def Display.command (d : Display) (b : Nat) : Display :=
  let bytes := d.pending ++ [b]
  match bytes.head? with
  | some cmd =>
      if bytes.length = Display.argCount cmd + 1 then
        { Display.execute d bytes with pending := [] }
      else { d with pending := bytes }
  | none => d

/-- Reception of one data byte: store it at the cursor and advance the cursor
within the address window. -/
def Display.data (d : Display) (b : Nat) : Display :=
  let g := store d.gddram (128 * d.page + d.col) b
  if d.col = d.col_end then
    { d with gddram := g, col := d.col_start,
             page := if d.page = d.page_end then d.page_start else (d.page + 1) % 8 }
  else
    { d with gddram := g, col := (d.col + 1) % 128 }

/-- Reaction of the simulated display to one bus event. -/
def Display.step (d : Display) (e : BusEvent) : Display :=
  match e with
  | BusEvent.start => { d with phase := Phase.addressing, pending := [] }
  | BusEvent.stop => { d with phase := Phase.idle, pending := [] }
  | BusEvent.request a =>
      if d.phase = Phase.addressing ∧ a = SSD1306_SLAVE_ADDR_W then
        { d with phase := Phase.control }
      else { d with phase := Phase.idle }
  | BusEvent.write b =>
      match d.phase with
      | Phase.control =>
          if b = CMD_CTRL_BYTE then { d with phase := Phase.command }
          else if b = DATA_CTRL_BYTE then { d with phase := Phase.data }
          else { d with phase := Phase.idle }
      | Phase.command => Display.command d b
      | Phase.data => Display.data d b
      | _ => d

/-- Reaction of the simulated display to a sequence of bus events. -/
def Display.run (d : Display) (es : List BusEvent) : Display :=
  es.foldl Display.step d

/-! ## Sequences of driver calls -/

/-- A call of one of the byte-level drawing operations. -/
inductive Call where
  | drawPixel : Nat → Nat → Call
  | clearPixel : Nat → Nat → Call
  | ramUpdateByte : Nat → Nat → Call
  deriving DecidableEq, Repr

/-- The arguments of a call are in range: `x ≤ 127`, `y ≤ 63`,
`byte_pos < 1024`. -/
def Call.inRange : Call → Prop
  | Call.drawPixel x y => x ≤ 127 ∧ y ≤ 63
  | Call.clearPixel x y => x ≤ 127 ∧ y ≤ 63
  | Call.ramUpdateByte p _ => p < 1024

/-- Execute one call on the driver. -/
def Call.exec (s : Driver) : Call → Driver
  | Call.drawPixel x y => ssd1306_drawPixel s x y
  | Call.clearPixel x y => ssd1306_displayClearPixel s x y
  | Call.ramUpdateByte p v => ssd1306_ramUpdateByte s p v

/-- Execute a sequence of calls, first call first. -/
def execCalls (s : Driver) (cs : List Call) : Driver :=
  cs.foldl Call.exec s

/-- The bus events a driver run issued after the point at which the trace
was `before` events long. -/
def emitted (before : Driver) (after : Driver) : List BusEvent :=
  after.bus.drop before.bus.length

/-- Every memory cell holds a byte. -/
def Driver.bytes (s : Driver) : Prop := ∀ i, s.mem i < 256

/-- Shadow buffer and simulated display memory agree byte for byte. -/
def Lockstep (s : Driver) (d : Display) : Prop :=
  ∀ i, i < 1024 → d.gddram i = s.mem i

/-- The bus events of `ssd1306_displayMoveCursor(col, row)` followed by one
data write of `v`. -/
def cursorDataEvents (col row v : Nat) : List BusEvent :=
  [BusEvent.start, BusEvent.request SSD1306_SLAVE_ADDR_W, BusEvent.write 0x00,
   BusEvent.write 0x21, BusEvent.write col, BusEvent.write 0x7F,
   BusEvent.write 0x22, BusEvent.write row, BusEvent.write 0x07, BusEvent.stop,
   BusEvent.start, BusEvent.request SSD1306_SLAVE_ADDR_W, BusEvent.write DATA_CTRL_BYTE,
   BusEvent.write v, BusEvent.stop]

/-! ## Line drawing -/

/-- The first `while` loop of `ssd1306_drawLine` (x is the driving axis).
Returns the pixels passed to `ssd1306_drawPixel` inside the loop, in call
order, and the values of `x_pos1`, `y_pos1` on exit; `none` when the fuel is
used up before the loop exits. -/
def drawLine_loopX : Nat → Nat → Nat → Int → Nat → Int → Int → Int → Int →
    Option (List (Nat × Nat) × Nat × Nat)
  | 0, _, _, _, _, _, _, _, _ => none
  | fuel + 1, x_pos1, y_pos1, pk, x_pos2, dx_sym, dy_sym, dx2, dy2 =>
    if x_pos1 ≠ x_pos2 then
      let x_next := u8 ((x_pos1 : Int) + dx_sym)
      let rest :=
        if pk < 0 then
          drawLine_loopX fuel x_next y_pos1 (i16 (pk + dy2)) x_pos2 dx_sym dy_sym dx2 dy2
        else
          drawLine_loopX fuel x_next (u8 ((y_pos1 : Int) + dy_sym)) (i16 (pk + dy2 - dx2))
            x_pos2 dx_sym dy_sym dx2 dy2
      rest.map (fun r => ((x_pos1, y_pos1) :: r.1, r.2))
    else some ([], x_pos1, y_pos1)

/-- The second `while` loop of `ssd1306_drawLine` (y is the driving axis);
same conventions as `drawLine_loopX`. -/
def drawLine_loopY : Nat → Nat → Nat → Int → Nat → Int → Int → Int → Int →
    Option (List (Nat × Nat) × Nat × Nat)
  | 0, _, _, _, _, _, _, _, _ => none
  | fuel + 1, x_pos1, y_pos1, pk, y_pos2, dx_sym, dy_sym, dx2, dy2 =>
    if y_pos1 ≠ y_pos2 then
      let y_next := u8 ((y_pos1 : Int) + dy_sym)
      let rest :=
        if pk < 0 then
          drawLine_loopY fuel x_pos1 y_next (i16 (pk + dx2)) y_pos2 dx_sym dy_sym dx2 dy2
        else
          drawLine_loopY fuel (u8 ((x_pos1 : Int) + dx_sym)) y_next (i16 (pk + dx2 - dy2))
            y_pos2 dx_sym dy_sym dx2 dy2
      rest.map (fun r => ((x_pos1, y_pos1) :: r.1, r.2))
    else some ([], x_pos1, y_pos1)

/-- The sequence of pixels `ssd1306_drawLine(x_pos1, y_pos1, x_pos2, y_pos2)`
passes to `ssd1306_drawPixel`, in call order (the arguments are `uint8_t`
values). Each loop changes its driving coordinate by one modulo 256 per
iteration, so it exits within 255 iterations; the fuel is 256. -/
def drawLine_pixels (x_pos1 y_pos1 x_pos2 y_pos2 : Nat) : Option (List (Nat × Nat)) :=
  let dx := i8 ((x_pos2 : Int) - x_pos1)
  let dy := i8 ((y_pos2 : Int) - y_pos1)
  let dx_sym : Int := if dx > 0 then 1 else -1
  let dy_sym : Int := if dy > 0 then 1 else -1
  let dx := i8 (dx * dx_sym)
  let dy := i8 (dy * dy_sym)
  let dx2 := i16 (2 * dx)
  let dy2 := i16 (2 * dy)
  let walk :=
    if dx ≥ dy then
      drawLine_loopX 256 x_pos1 y_pos1 (i16 (dy2 - dx)) x_pos2 dx_sym dy_sym dx2 dy2
    else
      drawLine_loopY 256 x_pos1 y_pos1 (i16 (dx2 - dy)) y_pos2 dx_sym dy_sym dx2 dy2
  walk.map (fun r => r.1 ++ [(r.2.1, r.2.2)])

/-- Apply `ssd1306_drawPixel` to a sequence of pixels, first pixel first. -/
def drawPixels (s : Driver) (ps : List (Nat × Nat)) : Driver :=
  ps.foldl (fun s p => ssd1306_drawPixel s p.1 p.2) s

/-- The C function `ssd1306_drawLine(x_pos1, y_pos1, x_pos2, y_pos2)`: the
driver state after the calls of `ssd1306_drawPixel` listed by
`drawLine_pixels`; `none` when the walk does not finish. -/
def ssd1306_drawLine (s : Driver) (x_pos1 y_pos1 x_pos2 y_pos2 : Nat) : Option Driver :=
  (drawLine_pixels x_pos1 y_pos1 x_pos2 y_pos2).map (drawPixels s)

/-- Two pixels are 8-connected: distinct, and at most one apart in each
coordinate. -/
def Adjacent8 (p q : Nat × Nat) : Prop :=
  p ≠ q ∧ p.1 ≤ q.1 + 1 ∧ q.1 ≤ p.1 + 1 ∧ p.2 ≤ q.2 + 1 ∧ q.2 ≤ p.2 + 1

/-- Bit `b` of byte `v` is set. -/
def bitSet (v b : Nat) : Prop := Nat.testBit v b = true

/-! ## Circle drawing -/

/-- The eight guarded calls of `ssd1306_drawPixel` in one iteration of the
loop of `ssd1306_drawCircle`, octant 1 to octant 8, for the current `x0`,
`y0`. The guards are evaluated in `int`; the arguments of `ssd1306_drawPixel`
are converted to `uint8_t`. -/
def drawCircle_octants (x_cen y_cen : Nat) (x0 y0 : Int) : List (Nat × Nat) :=
  (if (x_cen : Int) + y0 ≤ 127 ∧ (y_cen : Int) - x0 ≥ 0 then
    [(u8 ((x_cen : Int) + y0), u8 ((y_cen : Int) - x0))] else []) ++
  (if (x_cen : Int) + x0 ≤ 127 ∧ (y_cen : Int) - y0 ≥ 0 then
    [(u8 ((x_cen : Int) + x0), u8 ((y_cen : Int) - y0))] else []) ++
  (if (x_cen : Int) - x0 ≥ 0 ∧ (y_cen : Int) - y0 ≥ 0 then
    [(u8 ((x_cen : Int) - x0), u8 ((y_cen : Int) - y0))] else []) ++
  (if (x_cen : Int) - y0 ≥ 0 ∧ (y_cen : Int) - x0 ≥ 0 then
    [(u8 ((x_cen : Int) - y0), u8 ((y_cen : Int) - x0))] else []) ++
  (if (x_cen : Int) - y0 ≥ 0 ∧ (y_cen : Int) + x0 ≤ 63 then
    [(u8 ((x_cen : Int) - y0), u8 ((y_cen : Int) + x0))] else []) ++
  (if (x_cen : Int) - x0 ≥ 0 ∧ (y_cen : Int) + y0 ≤ 63 then
    [(u8 ((x_cen : Int) - x0), u8 ((y_cen : Int) + y0))] else []) ++
  (if (x_cen : Int) + x0 ≤ 127 ∧ (y_cen : Int) + y0 ≤ 63 then
    [(u8 ((x_cen : Int) + x0), u8 ((y_cen : Int) + y0))] else []) ++
  (if (x_cen : Int) + y0 ≤ 127 ∧ (y_cen : Int) + x0 ≤ 63 then
    [(u8 ((x_cen : Int) + y0), u8 ((y_cen : Int) + x0))] else [])

/-- The `while (x0 < y0)` loop of `ssd1306_drawCircle`; `x0`, `y0`, `d0` are
`int8_t` values. Returns the pixels passed to `ssd1306_drawPixel`, in call
order; `none` when the fuel is used up before the loop exits. -/
def drawCircle_loop : Nat → Nat → Nat → Int → Int → Int → Option (List (Nat × Nat))
  | 0, _, _, _, _, _ => none
  | fuel + 1, x_cen, y_cen, x0, y0, d0 =>
    if x0 < y0 then
      let x0 := i8 (x0 + 1)
      let y0' := if d0 < 0 then y0 else i8 (y0 - 1)
      let d0' := if d0 < 0 then i8 (d0 + 2 * x0 + 1) else i8 (d0 + 2 * (x0 - y0') + 1)
      (drawCircle_loop fuel x_cen y_cen x0 y0' d0').map
        (fun r => drawCircle_octants x_cen y_cen x0 y0' ++ r)
    else some []

/-- The four guarded calls of `ssd1306_drawPixel` after the loop of
`ssd1306_drawCircle` (0, 180, 90 and 270 degrees in source order). -/
def drawCircle_axes (x_cen y_cen radius : Nat) : List (Nat × Nat) :=
  let display_width := u8 ((SSD1306_WIDTH : Int) - 1)
  let display_height := u8 ((SSD1306_HEIGHT : Int) - 1)
  (if (x_cen : Int) + radius ≤ display_width then
    [(u8 ((x_cen : Int) + radius), y_cen)] else []) ++
  (if (x_cen : Int) - radius ≥ 0 then
    [(u8 ((x_cen : Int) - radius), y_cen)] else []) ++
  (if (y_cen : Int) + radius ≤ display_height then
    [(x_cen, u8 ((y_cen : Int) + radius))] else []) ++
  (if (y_cen : Int) - radius ≥ 0 then
    [(x_cen, u8 ((y_cen : Int) - radius))] else [])

/-- The sequence of pixels `ssd1306_drawCircle(x_cen, y_cen, radius)` passes
to `ssd1306_drawPixel`, in call order (the arguments are `uint8_t` values).
The loop increments `x0` from 0 while it is below `y0 ≤ 127`, so it exits
within 127 iterations; the fuel is 128. -/
def drawCircle_pixels (x_cen y_cen radius : Nat) : Option (List (Nat × Nat)) :=
  let x0 : Int := 0
  let y0 := i8 radius
  let d0 := i8 (1 - (radius : Int))
  (drawCircle_loop 128 x_cen y_cen x0 y0 d0).map
    (fun r => r ++ drawCircle_axes x_cen y_cen radius)

/-- The C function `ssd1306_drawCircle(x_cen, y_cen, radius)`: the driver
state after the calls of `ssd1306_drawPixel` listed by `drawCircle_pixels`;
`none` when the walk does not finish. -/
def ssd1306_drawCircle (s : Driver) (x_cen y_cen radius : Nat) : Option Driver :=
  (drawCircle_pixels x_cen y_cen radius).map (drawPixels s)

/-- The offset `(a, b)` is one of the eight images of `(x0, y0)` under the
reflections of the circle. -/
def InOrbit (x0 y0 a b : Int) : Prop :=
  ((a = x0 ∨ a = -x0) ∧ (b = y0 ∨ b = -y0)) ∨ ((a = y0 ∨ a = -y0) ∧ (b = x0 ∨ b = -x0))

/-- Every pixel of the list `ps`, taken as an offset from the centre
`(cx, cy)`, lies in the orbit of some point all of whose eight images are
offsets of pixels of `ps`. -/
def Covered (cx cy : Nat) (ps : List (Nat × Nat)) : Prop :=
  ∀ p ∈ ps, ∃ x0 y0 : Int, InOrbit x0 y0 ((p.1 : Int) - cx) ((p.2 : Int) - cy) ∧
    ∀ a b : Int, InOrbit x0 y0 a b → ∃ q ∈ ps, (q.1 : Int) - cx = a ∧ (q.2 : Int) - cy = b

/-- The bus events of one data write of the byte `v`: a (repeated) start,
the write address, the data control byte, and the payload. -/
def dataWriteEvents (v : Nat) : List BusEvent :=
  [BusEvent.start, BusEvent.request SSD1306_SLAVE_ADDR_W, BusEvent.write DATA_CTRL_BYTE,
   BusEvent.write v]

/-- Apply `ssd1306_ramWrite` to a sequence of `(byte_pos, byte_val)` pairs,
first pair first. -/
def ramWrites (s : Driver) (ws : List (Nat × Nat)) : Driver :=
  ws.foldl (fun s w => ssd1306_ramWrite s w.1 w.2) s

/-- Properties of a finished walk: the pixel list of a loop followed by the
pixel drawn after the loop. -/
def WalkSpec (x1 y1 x2 y2 n : Nat) (l : List (Nat × Nat)) : Prop :=
  l.length = n + 1 ∧
  (∀ p ∈ l, (min x1 x2 ≤ p.1 ∧ p.1 ≤ max x1 x2) ∧ (min y1 y2 ≤ p.2 ∧ p.2 ≤ max y1 y2)) ∧
  List.Chain' Adjacent8 l ∧ l.head? = some (x1, y1) ∧ l.getLast? = some (x2, y2)

/-! ## Whole-display operations, scrolling and initialisation -/

/-- The bus events of `ssd1306_displayMoveCursor(col, row)`. -/
def cursorEvents (col row : Nat) : List BusEvent :=
  [BusEvent.start, BusEvent.request SSD1306_SLAVE_ADDR_W, BusEvent.write 0x00,
   BusEvent.write 0x21, BusEvent.write col, BusEvent.write 0x7F,
   BusEvent.write 0x22, BusEvent.write row, BusEvent.write 0x07, BusEvent.stop]

/-- The `for` loop of `ssd1306_drawBitmap`, with `n` iterations left and loop
counter `i`; `bitmap k` is the byte `bitmap[k]`. -/
def drawBitmap_loop : Nat → Nat → (Nat → Nat) → Driver → Driver
  | 0, _, _, s => s
  | n + 1, i, bitmap, s =>
    let s := i2c_start s
    let s := i2c_request s SSD1306_SLAVE_ADDR_W
    let s := i2c_write s DATA_CTRL_BYTE
    let s := i2c_write s (bitmap i)
    drawBitmap_loop n (i + 1) bitmap s

/-- The C function `ssd1306_drawBitmap(bitmap)`. -/
def ssd1306_drawBitmap (s : Driver) (bitmap : Nat → Nat) : Driver :=
  let s := ssd1306_displayMoveCursor s 0 0
  i2c_stop (drawBitmap_loop 1024 0 bitmap s)

/-- The `for` loop of `ssd1306_displayClear`, with `n` iterations left. -/
def displayClear_loop : Nat → Driver → Driver
  | 0, s => s
  | n + 1, s =>
    let s := i2c_start s
    let s := i2c_request s SSD1306_SLAVE_ADDR_W
    let s := i2c_write s DATA_CTRL_BYTE
    let s := i2c_write s 0x00
    displayClear_loop n s

/-- The C function `ssd1306_displayClear()`. -/
def ssd1306_displayClear (s : Driver) : Driver :=
  let s := ssd1306_displayMoveCursor s 0 0
  i2c_stop (displayClear_loop 1024 s)

/-- Scroll direction `RIGHT` of `SSD1306_ScrollDir_t`. -/
def RIGHT : Nat := 0

/-- Scroll direction `LEFT` of `SSD1306_ScrollDir_t` (`!RIGHT`). -/
def LEFT : Nat := 1

/-- Frame frequency `FRAME_25`, the seventh enumerator of
`SSD1306_FrameFreq_t` (`FRAME_5 = 0`, then `FRAME_64`, `FRAME_128`,
`FRAME_256`, `FRAME_3`, `FRAME_4`, `FRAME_25`, `FRAME_2`). -/
def FRAME_25 : Nat := 6

/-- Page number `PAGE0` of `SSD1306_PageNum_t`. -/
def PAGE0 : Nat := 0

/-- Page number `PAGE7` of `SSD1306_PageNum_t`. -/
def PAGE7 : Nat := 7

/-- The C function `ssd1306_displayScrollHorizontal(dir, freq, page_start,
page_end)`; the arguments are enumeration values, converted to `uint8_t` by
`i2c_write`. -/
def ssd1306_displayScrollHorizontal (s : Driver) (dir freq page_start page_end : Nat) :
    Driver :=
  let s := i2c_start s
  let s := i2c_request s SSD1306_SLAVE_ADDR_W
  let s := i2c_write s CMD_CTRL_BYTE
  let s := i2c_write s ((0x26 ||| dir) % 256)
  let s := i2c_write s 0x00
  let s := i2c_write s (page_start % 256)
  let s := i2c_write s (freq % 256)
  let s := i2c_write s (page_end % 256)
  let s := i2c_write s 0x00
  let s := i2c_write s 0xFF
  i2c_stop s

/-- The command bytes `ssd1306_init` sends after the command control byte,
in source order. -/
def initCommandBytes : List Nat :=
  [0xAE, 0xD5, 0xF0, 0xD9, 0xF1, 0xDB, 0x20, 0x8D, 0x14, 0x20, 0x00, 0x40, 0xA1, 0xA8,
   SSD1306_HEIGHT - 1, 0xC8, 0xD3, 0x00, 0xDA, 0x12, 0x81, 0x80, 0xA4, 0xA6, 0x2E, 0xAF]

/-- The C function `ssd1306_init()`: one command transaction carrying
`initCommandBytes`, then `ssd1306_displayClear()`. The initial delay loop has
no effect on the state. -/
def ssd1306_init (s : Driver) : Driver :=
  let s := i2c_start s
  let s := i2c_request s SSD1306_SLAVE_ADDR_W
  let s := i2c_write s CMD_CTRL_BYTE
  let s := initCommandBytes.foldl i2c_write s
  let s := i2c_stop s
  ssd1306_displayClear s

/-- The bus events of the command transaction of `ssd1306_init`. -/
def initEvents : List BusEvent :=
  [BusEvent.start, BusEvent.request SSD1306_SLAVE_ADDR_W, BusEvent.write CMD_CTRL_BYTE] ++
    initCommandBytes.map BusEvent.write ++ [BusEvent.stop]

/-- The address window of the display covers the whole memory and the cursor
is at column 0, page 0. -/
def Display.atOrigin (d : Display) : Prop :=
  d.col_start = 0 ∧ d.col_end = 127 ∧ d.page_start = 0 ∧ d.page_end = 7 ∧
  d.col = 0 ∧ d.page = 0

/-- The address window of the display is the single cell `(c, p)`, where the
cursor then stays. -/
def Display.pinned (d : Display) (c p : Nat) : Prop :=
  d.col_start = c ∧ d.col_end = c ∧ d.col = c ∧
  d.page_start = p ∧ d.page_end = p ∧ d.page = p

/-- A driver at reset: zeroed memory, `p_ram` at the buffer base, no bus
traffic yet. -/
def blankDriver : Driver := ⟨fun _ => 0, 0, []⟩

/-- A simulated display with zeroed memory, full address window and the
cursor at the origin. -/
def blankDisplay : Display := ⟨fun _ => 0, 0, 127, 0, 7, 0, 0, Phase.idle, []⟩

/-- A driver whose memory holds 0xFF in every byte, with `p_ram` at the
buffer base and no bus traffic yet. -/
def filledDriver : Driver := ⟨fun _ => 0xFF, 0, []⟩

/-! ## I2C peripheral at register level (`i2c.c`)

The functions of `i2c.c` are embedded over the register accesses they make.
The hardware is an environment that answers the successive reads of the status
register `SR1` and of the data register `DR`; status polls are bounded by a
budget of reads, and a call that has not returned is reported as such. -/

/-- Modelled from the spec: bit masks of `stm32f10x.h`, which is not in the
source tree. Stop-generation bit of control register 1. -/
def I2C_CR1_STOP : Nat := 0x0200

/-- Modelled from the spec: bit masks of `stm32f10x.h`, which is not in the
source tree. Acknowledge-generation bit of control register 1. -/
def I2C_CR1_ACK : Nat := 0x0400

/-- Modelled from the spec: bit masks of `stm32f10x.h`, which is not in the
source tree. Buffer-position bit of control register 1. -/
def I2C_CR1_POS : Nat := 0x0800

/-- Modelled from the spec: bit masks of `stm32f10x.h`, which is not in the
source tree. Address-matched flag of status register 1. -/
def I2C_SR1_ADDR : Nat := 0x0002

/-- Modelled from the spec: bit masks of `stm32f10x.h`, which is not in the
source tree. Byte-transfer-finished flag of status register 1. -/
def I2C_SR1_BTF : Nat := 0x0004

/-- Modelled from the spec: bit masks of `stm32f10x.h`, which is not in the
source tree. Peer-issued-stop flag of status register 1. -/
def I2C_SR1_STOPF : Nat := 0x0010

/-- Modelled from the spec: bit masks of `stm32f10x.h`, which is not in the
source tree. Receive-buffer-not-empty flag of status register 1. -/
def I2C_SR1_RXNE : Nat := 0x0040

/-- Modelled from the spec: bit masks of `stm32f10x.h`, which is not in the
source tree. Transmit-buffer-empty flag of status register 1. -/
def I2C_SR1_TXE : Nat := 0x0080

/-- Modelled from the spec: bit masks of `stm32f10x.h`, which is not in the
source tree. Fast-mode flag of the clock-control register, the bit that
`I2C_FASTMODE_ENABLE` sets. -/
def I2C_CCR_FS : Nat := 0x8000

/-- Modelled from the spec: bit masks of `stm32f10x.h`, which is not in the
source tree. Duty-cycle flag of the clock-control register, the bit that
`I2C_DUTY_16_9` sets. -/
def I2C_CCR_DUTY : Nat := 0x4000

/-- Acknowledge selector `NACK` of `i2cAckBit_t`. -/
def NACK : Nat := 0

/-- Acknowledge selector `ACK` of `i2cAckBit_t` (`!NACK`). -/
def ACK : Nat := 1

/-- Transfer role `SLAVE` of `i2cMode_t`. -/
def SLAVE : Nat := 0

/-- Transfer role `MASTER` of `i2cMode_t` (`!SLAVE`). -/
def MASTER : Nat := 1

/-- One register access of the I2C driver. -/
inductive RegEvent where
  | readSR1 : Nat → RegEvent
  | clearADDR : RegEvent
  | setCR1 : Nat → RegEvent
  | clearCR1 : Nat → RegEvent
  | rewriteCR1 : RegEvent
  | readDR : Nat → RegEvent
  | writeDR : Nat → RegEvent
  deriving DecidableEq, Repr

/-- State of the I2C peripheral, its environment and the caller's buffer.

* `sr1 k` and `dr k` are the values the hardware presents at the `k`-th read
  of `SR1` and of `DR`; `sr1_reads` and `dr_reads` count the reads made so far.
* `log` is the trace of register accesses, oldest first: `readSR1 v` and
  `readDR v` are reads returning `v`, `writeDR v` a write of `v` to `DR`,
  `setCR1 m` is `CR1 |= m`, `clearCR1 m` is `CR1 &= ~m`, `rewriteCR1` is
  `CR1 = CR1`, `clearADDR` is `SR2 = SR2`.
* `buf j` is the byte `data_buffer[j]` of the caller. -/
structure I2C where
  sr1 : Nat → Nat
  dr : Nat → Nat
  sr1_reads : Nat
  dr_reads : Nat
  log : List RegEvent
  buf : Nat → Nat

/-- How a call ended: it returned (`done`), it entered a loop without exit
(`hang`), or a status poll used up its budget of reads (`timeout`); each
carries the state reached. -/
inductive Outcome (σ : Type) where
  | done : σ → Outcome σ
  | hang : σ → Outcome σ
  | timeout : σ → Outcome σ

/-- Sequencing: continue with `f` when the first part returned. -/
def Outcome.andThen {σ τ : Type} (o : Outcome σ) (stuck : σ → τ) (f : σ → Outcome τ) :
    Outcome τ :=
  match o with
  | Outcome.done s => f s
  | Outcome.hang s => Outcome.hang (stuck s)
  | Outcome.timeout s => Outcome.timeout (stuck s)

/-- Append one register access to the trace. -/
def I2C.emit (s : I2C) (e : RegEvent) : I2C := { s with log := s.log ++ [e] }

/-- One read of `I2Cx->SR1`. -/
def I2C.readSR1 (s : I2C) : Nat × I2C :=
  (s.sr1 s.sr1_reads,
    { s with sr1_reads := s.sr1_reads + 1,
             log := s.log ++ [RegEvent.readSR1 (s.sr1 s.sr1_reads)] })

/-- One read of `I2Cx->DR`. -/
def I2C.readDR (s : I2C) : Nat × I2C :=
  (s.dr s.dr_reads,
    { s with dr_reads := s.dr_reads + 1,
             log := s.log ++ [RegEvent.readDR (s.dr s.dr_reads)] })

/-- The assignment `*(data_buffer + j) = I2Cx->DR`: one read of `DR`, stored
as a byte. -/
def I2C.storeDR (s : I2C) (j : Nat) : I2C :=
  let r := s.readDR
  { r.2 with buf := store r.2.buf j (r.1 % 256) }

/-- The poll `while( !(I2Cx->SR1 & mask) );` with a budget of `polls` reads. -/
def waitFlag : Nat → Nat → I2C → Outcome I2C
  | 0, _, s => Outcome.timeout s
  | polls + 1, mask, s =>
    let r := s.readSR1
    if r.1 &&& mask ≠ 0 then Outcome.done r.2 else waitFlag polls mask r.2

/-- Register-level `i2c_stop`: `CR1 |= I2C_CR1_STOP`. -/
def Reg.i2c_stop (s : I2C) : I2C := s.emit (RegEvent.setCR1 I2C_CR1_STOP)

/-- Register-level `i2c_ack_bit(ack_bit)`. -/
def Reg.i2c_ack_bit (s : I2C) (ack_bit : Nat) : I2C :=
  if ack_bit ≠ 0 then s.emit (RegEvent.setCR1 I2C_CR1_ACK)
  else s.emit (RegEvent.clearCR1 I2C_CR1_ACK)

/-- Register-level `i2c_read`: the single-byte receive; returns the byte read
from `DR`. -/
def Reg.i2c_read (polls : Nat) (s : I2C) : Outcome (I2C × Nat) :=
  let s := Reg.i2c_ack_bit s NACK
  let s := s.emit RegEvent.clearADDR
  let s := Reg.i2c_stop s
  (waitFlag polls I2C_SR1_RXNE s).andThen (fun s => (s, 0))
    (fun s => Outcome.done (s.readDR.2, s.readDR.1 % 256))

/-- The `for(uint8_t i = data_bytes; i != 3; i--)` loop of `i2c_read_burst`,
with the loop counter `i` and the buffer index `j` (both `uint8_t`). The
counter takes at most 256 values, bounded by the first argument. -/
def read_burst_loop (polls : Nat) : Nat → Nat → Nat → I2C → Outcome (I2C × Nat)
  | 0, _, j, s => Outcome.timeout (s, j)
  | fuel + 1, i, j, s =>
    if i ≠ 3 then
      (waitFlag polls I2C_SR1_RXNE s).andThen (fun s => (s, j))
        (fun s => read_burst_loop polls fuel ((i + 255) % 256) ((j + 1) % 256) (s.storeDR j))
    else Outcome.done (s, j)

/-- The inner loop `while( (I2Cx->SR1 & I2C_SR1_RXNE) )` of the responder
branch of `i2c_read_burst`. -/
def read_burst_slave_inner : Nat → Nat → I2C → Outcome (I2C × Nat)
  | 0, j, s => Outcome.timeout (s, j)
  | polls + 1, j, s =>
    let r := s.readSR1
    if r.1 &&& I2C_SR1_RXNE ≠ 0 then
      read_burst_slave_inner polls ((j + 1) % 256) (r.2.storeDR j)
    else Outcome.done (r.2, j)

/-- The outer loop `while( !(I2Cx->SR1 & I2C_SR1_STOPF) )` of the responder
branch of `i2c_read_burst`. -/
def read_burst_slave_outer (polls : Nat) : Nat → Nat → I2C → Outcome (I2C × Nat)
  | 0, j, s => Outcome.timeout (s, j)
  | fuel + 1, j, s =>
    let r := s.readSR1
    if r.1 &&& I2C_SR1_STOPF ≠ 0 then Outcome.done (r.2, j)
    else
      (read_burst_slave_inner polls j r.2).andThen id
        (fun q => read_burst_slave_outer polls fuel q.2 q.1)

/-- Register-level `i2c_read_burst(I2Cx, mode, data_bytes, data_buffer)`;
`data_bytes` is a `uint8_t` value. Every status poll may read the status
register up to `polls` times. -/
def Reg.i2c_read_burst (polls : Nat) (mode data_bytes : Nat) (s : I2C) : Outcome I2C :=
  if mode ≠ 0 then
    if data_bytes = 2 then
      let s := s.emit (RegEvent.setCR1 I2C_CR1_POS)
      let s := Reg.i2c_ack_bit s ACK
      let s := s.emit RegEvent.clearADDR
      let s := Reg.i2c_ack_bit s NACK
      (waitFlag polls I2C_SR1_BTF s).andThen id (fun s =>
        let s := Reg.i2c_stop s
        let s := s.storeDR 0
        let s := s.storeDR 1
        Outcome.done s)
    else if data_bytes > 2 then
      let s := Reg.i2c_ack_bit s ACK
      let s := s.emit RegEvent.clearADDR
      (read_burst_loop polls 256 data_bytes 0 s).andThen (fun q => q.1) (fun q =>
        (waitFlag polls I2C_SR1_BTF q.1).andThen id (fun s =>
          let j := q.2
          let s := Reg.i2c_ack_bit s NACK
          let s := s.storeDR j
          let j := (j + 1) % 256
          let s := Reg.i2c_stop s
          (waitFlag polls I2C_SR1_BTF s).andThen id (fun s =>
            let s := s.storeDR j
            let j := (j + 1) % 256
            let s := s.storeDR j
            Outcome.done s)))
    else Outcome.hang s
  else
    let s := Reg.i2c_ack_bit s ACK
    (waitFlag polls I2C_SR1_ADDR s).andThen id (fun s =>
      let s := s.emit RegEvent.clearADDR
      (read_burst_slave_outer polls polls 0 s).andThen (fun q => q.1) (fun q =>
        Outcome.done (q.1.emit RegEvent.rewriteCR1)))

/-- Reference for the burst read: `n` sequential single-byte reads
(`i2c_read`), the `k`-th result stored in `data_buffer[j + k]`. -/
def sequentialReads (polls : Nat) : Nat → Nat → I2C → Outcome I2C
  | 0, _, s => Outcome.done s
  | n + 1, j, s =>
    (Reg.i2c_read polls s).andThen (fun q => q.1) (fun q =>
      sequentialReads polls n (j + 1) { q.1 with buf := store q.1.buf j q.2 })

/-- After `j` reads of `DR` since state `s0`: the environment is the same,
and the first `j` bytes of the buffer are the values read, in order. -/
def Received (s0 s : I2C) (j : Nat) : Prop :=
  s.sr1 = s0.sr1 ∧ s.dr = s0.dr ∧ s.dr_reads = s0.dr_reads + j ∧
  ∀ i, s.buf i = if i < j then s0.dr (s0.dr_reads + i) else s0.buf i

/-- Every status poll is satisfied within the budget: from every read index
on, `SR1` shows the flags of `mask` within `polls` reads. -/
def Ready (s : I2C) (polls mask : Nat) : Prop :=
  ∀ k, ∃ j, j < polls ∧ s.sr1 (k + j) &&& mask ≠ 0

/-- The configuration structure `I2C_Init_t` of `i2c.h`. -/
structure I2C_Init_t where
  I2C_MODE : Nat
  I2C_CLOCK_SPEED : Nat
  I2C_FASTMODE : Nat
  I2C_DUTY_CYCLE : Nat
  I2C_CLOCK_STRETCHING : Nat
  I2C_ADDRESSING_MODE : Nat
  I2C_DUAL_ADDRESSING_MODE : Nat
  I2C_OWN_ADDRESS1 : Nat
  I2C_OWN_ADDRESS2 : Nat
  I2C_GENERAL_CALL : Nat
  I2C_PEC : Nat
  I2C_ARP : Nat
  I2C_DMA_TRANSFER : Nat

/-- Configuration value `I2C_FASTMODE_ENABLE`. -/
def I2C_FASTMODE_ENABLE : Nat := 0x8000

/-- Configuration value `I2C_FASTMODE_DISABLE`. -/
def I2C_FASTMODE_DISABLE : Nat := 0x0000

/-- Configuration value `I2C_DUTY_2`. -/
def I2C_DUTY_2 : Nat := 0x0000

/-- Configuration value `I2C_DUTY_16_9`. -/
def I2C_DUTY_16_9 : Nat := 0x4000

/-- The value of `I2Cx->CCR` after `I2Cx->CCR |= (I2C_FASTMODE | I2C_DUTY_CYCLE)`
in `i2c_init`; `ccr` is the register value before (0 after the peripheral
reset that `i2c_init` performs). The register is 16 bits wide. -/
def i2c_init_ccr_flags (conf : I2C_Init_t) (ccr : Nat) : Nat :=
  (ccr ||| (conf.I2C_FASTMODE ||| conf.I2C_DUTY_CYCLE)) % 65536

/-- The value of the local `tmp` of `i2c_init` when it is ORed into
`I2Cx->CCR`: the quotient `SystemCoreClock / (4 * I2C_CLOCK_SPEED)` computed
in `uint32_t`, converted to `uint16_t`, and replaced by 1 or 4 when below 4.
`ccr` is the register value before `i2c_init` sets the mode flags. (A zero
divisor is outside the embedding: the quotient is then taken as 0.) -/
def i2c_init_tmp (SystemCoreClock : Nat) (conf : I2C_Init_t) (ccr : Nat) : Nat :=
  let ccr := i2c_init_ccr_flags conf ccr
  let tmp := (SystemCoreClock % 4294967296 / ((4 * conf.I2C_CLOCK_SPEED) % 4294967296)) % 65536
  if tmp < 0x04 then
    if ccr &&& I2C_CCR_FS ≠ 0 ∧ ccr &&& I2C_CCR_DUTY ≠ 0 then 0x01 else 0x04
  else tmp

/-- A peripheral whose status register shows every flag on every read and
whose data register yields 10, 11, 12, ...; nothing read or logged yet, the
buffer zeroed. -/
def readyPeer : I2C := ⟨fun _ => 0xFF, fun k => (k + 10) % 256, 0, 0, [], fun _ => 0⟩

/-- The configuration with the fields `I2C_CLOCK_SPEED`, `I2C_FASTMODE` and
`I2C_DUTY_CYCLE` set as given and every other field zero. -/
def clockConf (speed fastmode duty : Nat) : I2C_Init_t :=
  ⟨0, speed, fastmode, duty, 0, 0, 0, 0, 0, 0, 0, 0, 0⟩

/-! ## Axis-parallel lines, text and configuration defaults -/

/-- The loop `for(uint8_t i = 0; i <= dist; i++) ssd1306_drawPixel(...)` that
`ssd1306_drawVerticalLine` and `ssd1306_drawHorizontalLine` each contain
twice: `pixel i` is the pixel drawn for the counter `i`, the last argument is
the counter. Returns the pixels passed to `ssd1306_drawPixel`, in call order;
`none` when the fuel is used up before the loop exits. -/
def axisLine_loop (pixel : Nat → Nat × Nat) (dist : Nat) : Nat → Nat →
    Option (List (Nat × Nat))
  | 0, _ => none
  | fuel + 1, i =>
    if i ≤ dist then
      (axisLine_loop pixel dist fuel ((i + 1) % 256)).map (fun r => pixel i :: r)
    else some []

/-- The sequence of pixels `ssd1306_drawVerticalLine(x_pos, y_pos1, y_pos2)`
passes to `ssd1306_drawPixel`, in call order (the arguments are `uint8_t`
values). A loop that exits does so within 256 iterations; the fuel is 257. -/
def drawVerticalLine_pixels (x_pos y_pos1 y_pos2 : Nat) : Option (List (Nat × Nat)) :=
  if y_pos2 > y_pos1 then
    let y_dist := i8 ((y_pos2 : Int) - y_pos1)
    axisLine_loop (fun i => (x_pos, u8 ((y_pos1 : Int) + i))) (u8 y_dist) 257 0
  else
    let y_dist := i8 ((y_pos1 : Int) - y_pos2)
    axisLine_loop (fun i => (x_pos, u8 ((y_pos1 : Int) - i))) (u8 y_dist) 257 0

/-- The C function `ssd1306_drawVerticalLine(x_pos, y_pos1, y_pos2)`: the
driver state after the calls listed by `drawVerticalLine_pixels`; `none` when
the loop does not exit. -/
def ssd1306_drawVerticalLine (s : Driver) (x_pos y_pos1 y_pos2 : Nat) : Option Driver :=
  (drawVerticalLine_pixels x_pos y_pos1 y_pos2).map (drawPixels s)

/-- The sequence of pixels `ssd1306_drawHorizontalLine(y_pos, x_pos1, x_pos2)`
passes to `ssd1306_drawPixel`, in call order (the arguments are `uint8_t`
values). A loop that exits does so within 256 iterations; the fuel is 257. -/
def drawHorizontalLine_pixels (y_pos x_pos1 x_pos2 : Nat) : Option (List (Nat × Nat)) :=
  if x_pos2 > x_pos1 then
    let x_dist := i8 ((x_pos2 : Int) - x_pos1)
    axisLine_loop (fun i => (u8 ((x_pos1 : Int) + i), y_pos)) (u8 x_dist) 257 0
  else
    let x_dist := i8 ((x_pos1 : Int) - x_pos2)
    axisLine_loop (fun i => (u8 ((x_pos1 : Int) - i), y_pos)) (u8 x_dist) 257 0

/-- The C function `ssd1306_drawHorizontalLine(y_pos, x_pos1, x_pos2)`: the
driver state after the calls listed by `drawHorizontalLine_pixels`; `none`
when the loop does not exit. -/
def ssd1306_drawHorizontalLine (s : Driver) (y_pos x_pos1 x_pos2 : Nat) : Option Driver :=
  (drawHorizontalLine_pixels y_pos x_pos1 x_pos2).map (drawPixels s)

/-- The inner loop `for(bitmap = 0; bitmap < 5; bitmap++)` of
`ssd1306_drawChar` for the character code `c`, with `n` iterations left and
loop counter `bitmap`. `font i k` is the table entry `font[i][k]` of
`ssd1306_font.h`, which is not part of the source tree. -/
def drawChar_columns (font : Int → Nat → Nat) (c : Nat) : Nat → Nat → Driver → Driver
  | 0, _, s => s
  | n + 1, bitmap, s =>
    let s := i2c_start s
    let s := i2c_request s SSD1306_SLAVE_ADDR_W
    let s := i2c_write s DATA_CTRL_BYTE
    let s := i2c_write s (font ((c : Int) - 0x20) bitmap)
    drawChar_columns font c n (bitmap + 1) s

/-- The C function `ssd1306_drawChar(ch)`. The list `ch` holds the character
codes of the string before its terminating `'\0'`, so `len` is its length and
the outer loop visits its elements in order. -/
def ssd1306_drawChar (font : Int → Nat → Nat) (s : Driver) (ch : List Nat) : Driver :=
  i2c_stop (ch.foldl (fun s c => drawChar_columns font c 5 0 s) s)

/-- The C function `i2c_structInit(i2c_conf)`: every member is assigned; the
values are those of the macros of `i2c.h`. -/
def i2c_structInit (i2c_conf : I2C_Init_t) : I2C_Init_t :=
  { i2c_conf with
    I2C_MODE := 0x0000
    I2C_CLOCK_SPEED := 400000
    I2C_FASTMODE := I2C_FASTMODE_ENABLE
    I2C_DUTY_CYCLE := I2C_DUTY_2
    I2C_CLOCK_STRETCHING := 0x0000
    I2C_ADDRESSING_MODE := 0x0000
    I2C_DUAL_ADDRESSING_MODE := 0x0000
    I2C_OWN_ADDRESS1 := 0x7C
    I2C_OWN_ADDRESS2 := 0x7A
    I2C_GENERAL_CALL := 0x0000
    I2C_PEC := 0x0000
    I2C_ARP := 0x0000
    I2C_DMA_TRANSFER := 0x0000 }

/-- A driver whose shadow buffer holds 0x11 in every byte and whose memory
after the buffer holds 0x22, with `p_ram` at the buffer base and no bus
traffic yet. -/
def markedDriver : Driver := ⟨fun i => if i < 1024 then 0x11 else 0x22, 0, []⟩

/-! ## Byte transmit, frequency register and event-order predicates -/

/-- The final poll of `i2c_write`,
`while( (!(I2Cx->SR1 & I2C_SR1_BTF)) && (!(I2Cx->SR1 & I2C_SR1_TXE)) );`
with a budget of `polls` evaluations of the condition. The status register is
read once for the left operand and, only when that read shows BTF clear, once
more for the right operand. -/
def write_final_wait : Nat → I2C → Outcome I2C
  | 0, s => Outcome.timeout s
  | polls + 1, s =>
    let r1 := s.readSR1
    if r1.1 &&& I2C_SR1_BTF = 0 then
      let r2 := r1.2.readSR1
      if r2.1 &&& I2C_SR1_TXE = 0 then write_final_wait polls r2.2
      else Outcome.done r2.2
    else Outcome.done r1.2

/-- Register-level `i2c_write(I2Cx, data)`; `data` is a `uint8_t` value. -/
def Reg.i2c_write (polls : Nat) (data : Nat) (s : I2C) : Outcome I2C :=
  let s := s.emit RegEvent.clearADDR
  (waitFlag polls I2C_SR1_TXE s).andThen id (fun s =>
    let s := s.emit (RegEvent.writeDR data)
    write_final_wait polls s)

/-- A peripheral whose status register shows the transmit-buffer-empty flag,
and only that flag, on every read. -/
def txeOnlyPeer : I2C := ⟨fun _ => 0x80, fun _ => 0, 0, 0, [], fun _ => 0⟩

/-- The value of `I2Cx->CR2` after the `switch(apb1_prescaler)` of `i2c_init`:
`cfgr` is the value read from `RCC->CFGR`, `cr2` the register value before
(0 after the peripheral reset that `i2c_init` performs). The register is 16
bits wide. `case 7` has no `break` and continues into `default`. -/
def i2c_init_CR2 (SystemCoreClock cfgr cr2 : Nat) : Nat :=
  let apb1_prescaler := (cfgr &&& 0x700) >>> 8
  if apb1_prescaler = 4 then (cr2 ||| SystemCoreClock / 2000000) % 65536
  else if apb1_prescaler = 5 then (cr2 ||| SystemCoreClock / 4000000) % 65536
  else if apb1_prescaler = 6 then (cr2 ||| SystemCoreClock / 8000000) % 65536
  else if apb1_prescaler = 7 then
    let cr2 := (cr2 ||| SystemCoreClock / 16000000) % 65536
    (cr2 ||| SystemCoreClock) % 65536
  else (cr2 ||| SystemCoreClock) % 65536

/-- The register access is a read of the data register. -/
def RegEvent.isReadDR : RegEvent → Bool
  | RegEvent.readDR _ => true
  | _ => false

/-- The register access writes control register 1. -/
def RegEvent.isCR1Write : RegEvent → Bool
  | RegEvent.setCR1 _ => true
  | RegEvent.clearCR1 _ => true
  | RegEvent.rewriteCR1 => true
  | _ => false

/-- The trace of one completed status poll for `mask`: reads of `SR1` only,
the last one, and no earlier one, showing the flag. -/
def IsWait (mask : Nat) (w : List RegEvent) : Prop :=
  ∃ (vs : List Nat) (v : Nat), w = vs.map RegEvent.readSR1 ++ [RegEvent.readSR1 v] ∧
    v &&& mask ≠ 0 ∧
    ∀ u ∈ vs, u &&& mask = 0

/-- The trace of `k` iterations of the receive loop: each a completed poll for
receive-not-empty followed by one read of the data register, which returns the
next value of the stream `dr` (from index `start` on). -/
def IsReceive (dr : Nat → Nat) : Nat → Nat → List RegEvent → Prop
  | _, 0, l => l = []
  | start, k + 1, l =>
    ∃ w rest, IsWait I2C_SR1_RXNE w ∧ l = w ++ [RegEvent.readDR (dr start)] ++ rest ∧
      IsReceive dr (start + 1) k rest

/-- The values, as C `int` before the conversion to `int8_t`, that the loop of
`ssd1306_drawCircle` assigns to `d0`, in order; same walk as
`drawCircle_loop`. -/
def drawCircle_d0_assigned : Nat → Int → Int → Int → List Int
  | 0, _, _, _ => []
  | fuel + 1, x0, y0, d0 =>
    if x0 < y0 then
      let x0 := i8 (x0 + 1)
      let y0' := if d0 < 0 then y0 else i8 (y0 - 1)
      let raw := if d0 < 0 then d0 + 2 * x0 + 1 else d0 + 2 * (x0 - y0') + 1
      raw :: drawCircle_d0_assigned fuel x0 y0' (i8 raw)
    else []

/-- All values, as C `int` before the conversion to `int8_t`, assigned to `d0`
by `ssd1306_drawCircle(x_cen, y_cen, radius)`: the initialiser `1 - radius`,
then the assignments of the loop. -/
def drawCircle_d0_values (radius : Nat) : List Int :=
  (1 - (radius : Int)) ::
    drawCircle_d0_assigned 128 0 (i8 radius) (i8 (1 - (radius : Int)))

/-- After `j` reads of `DR` since state `s0` the environment streams are the
same and the read counter has advanced by `j`. -/
def SameEnv (s0 s : I2C) (j : Nat) : Prop :=
  s.sr1 = s0.sr1 ∧ s.dr = s0.dr ∧ s.dr_reads = s0.dr_reads + j

/-! ## Basic lemmas -/

theorem u8_of_lt {n : Int} (h0 : 0 ≤ n) (h1 : n < 256) : (u8 n : Int) = n := by
  unfold u8
  omega

theorem i8_of_range {n : Int} (h0 : -128 ≤ n) (h1 : n ≤ 127) : i8 n = n := by
  unfold i8
  omega

theorem i16_of_range {n : Int} (h0 : -32768 ≤ n) (h1 : n ≤ 32767) : i16 n = n := by
  unfold i16
  omega

theorem store_same (m : Nat → Nat) (k v : Nat) : store m k v k = v := by
  simp [store]

theorem store_other (m : Nat → Nat) (k v i : Nat) (h : i ≠ k) : store m k v i = m i := by
  simp [store, h]

theorem or_bit_lt {a k : Nat} (ha : a < 256) (hk : k < 8) : a ||| (1 <<< k) < 256 := by
  have h1 : (1 : Nat) <<< k < 2 ^ 8 := by
    interval_cases k <;> decide
  exact Nat.or_lt_two_pow (n := 8) ha h1

theorem or_byte_lt {a b : Nat} (ha : a < 256) (hb : b < 256) : a ||| b < 256 :=
  Nat.or_lt_two_pow (n := 8) ha hb

theorem pixel_index_lt {x y : Nat} (hx : x ≤ 127) (hy : y ≤ 63) :
    x + 128 * (y / 8) < 1024 := by
  omega

theorem pixel_index_u16 {x y : Nat} (hx : x ≤ 255) (hy : y ≤ 255) :
    u16 ((x : Int) + 128 * ((y : Int) / 8)) = x + 128 * (y / 8) := by
  unfold u16
  omega

/-! ## Pixel operations on the shadow buffer -/

theorem drawPixel_mem (s : Driver) (x y : Nat) (hx : x ≤ 255) (hy : y ≤ 255) :
    (ssd1306_drawPixel s x y).mem =
      store s.mem (s.p_ram + (x + 128 * (y / 8)))
        ((s.mem (s.p_ram + (x + 128 * (y / 8))) ||| (1 <<< (y % 8))) % 256) := by
  simp [ssd1306_drawPixel, ssd1306_displayMoveCursor, i2c_start, i2c_stop, i2c_request,
    i2c_write, pixel_index_u16 hx hy]

theorem drawPixel_p_ram (s : Driver) (x y : Nat) :
    (ssd1306_drawPixel s x y).p_ram = s.p_ram := by
  simp [ssd1306_drawPixel, ssd1306_displayMoveCursor, i2c_start, i2c_stop, i2c_request,
    i2c_write]

theorem clearPixel_mem (s : Driver) (x y : Nat) (hx : x ≤ 255) (hy : y ≤ 255) :
    (ssd1306_displayClearPixel s x y).mem =
      store s.mem (s.p_ram + (x + 128 * (y / 8))) 0 := by
  simp [ssd1306_displayClearPixel, ssd1306_displayMoveCursor, i2c_start, i2c_stop,
    i2c_request, i2c_write, pixel_index_u16 hx hy]

theorem clearPixel_p_ram (s : Driver) (x y : Nat) :
    (ssd1306_displayClearPixel s x y).p_ram = s.p_ram := by
  simp [ssd1306_displayClearPixel, ssd1306_displayMoveCursor, i2c_start, i2c_stop,
    i2c_request, i2c_write]

/-- C1: for `x ≤ 127`, `y ≤ 63` and every shadow-buffer content (with `p_ram`
at the buffer base), `drawPixel(x,y)` changes only the byte at index
`x + 128*(y/8)`, which is below 1024 and becomes `old ||| (1 <<< (y % 8))`;
every other byte is unchanged. -/
theorem drawPixel_sets_one_bit (s : Driver) (x y : Nat) (hx : x ≤ 127) (hy : y ≤ 63)
    (hp : s.p_ram = 0) (hb : s.bytes) :
    x + 128 * (y / 8) < 1024 ∧
    (ssd1306_drawPixel s x y).mem (x + 128 * (y / 8))
      = s.mem (x + 128 * (y / 8)) ||| (1 <<< (y % 8)) ∧
    ∀ i, i ≠ x + 128 * (y / 8) → (ssd1306_drawPixel s x y).mem i = s.mem i := by
  refine ⟨pixel_index_lt hx hy, ?_, ?_⟩
  · rw [drawPixel_mem s x y (by omega) (by omega), hp, Nat.zero_add, store_same]
    exact Nat.mod_eq_of_lt (or_bit_lt (hb _) (Nat.mod_lt _ (by decide)))
  · intro i hi
    rw [drawPixel_mem s x y (by omega) (by omega), hp, Nat.zero_add, store_other _ _ _ _ hi]

/-- Witness for C1: pixel (3, 10) on a buffer filled with 0x01. -/
theorem drawPixel_sets_one_bit_witness :
    3 + 128 * (10 / 8) < 1024 ∧
    (ssd1306_drawPixel ⟨fun _ => 1, 0, []⟩ 3 10).mem (3 + 128 * (10 / 8))
      = (fun _ => 1 : Nat → Nat) (3 + 128 * (10 / 8)) ||| (1 <<< (10 % 8)) ∧
    ∀ i, i ≠ 3 + 128 * (10 / 8) →
      (ssd1306_drawPixel ⟨fun _ => 1, 0, []⟩ 3 10).mem i = (fun _ => 1 : Nat → Nat) i :=
  drawPixel_sets_one_bit ⟨fun _ => 1, 0, []⟩ 3 10 (by decide) (by decide) rfl
    (fun _ => (by decide : (1 : Nat) < 256))

/-- C2 (the code at the failing input): with shadow byte 0 equal to 0xFF,
`clearPixel(0,0)` leaves 0x00 there, whereas clearing only bit 0 would leave
`0xFF &&& (0xFF ^^^ (1 <<< 0)) = 0xFE`. -/
theorem clearPixel_zeroes_whole_byte :
    (ssd1306_displayClearPixel ⟨fun _ => 0xFF, 0, []⟩ 0 0).mem 0 = 0x00 ∧
    (0xFF &&& (0xFF ^^^ (1 <<< (0 % 8))) : Nat) = 0xFE ∧
    (ssd1306_displayClearPixel ⟨fun _ => 0xFF, 0, []⟩ 0 0).mem 0
      ≠ (0xFF &&& (0xFF ^^^ (1 <<< (0 % 8))) : Nat) := by
  refine ⟨?_, by decide, ?_⟩
  · rw [clearPixel_mem _ 0 0 (by decide) (by decide)]
    simp [store]
  · rw [clearPixel_mem _ 0 0 (by decide) (by decide)]
    simp [store]

/-! ## Lockstep of shadow buffer and simulated display -/

theorem run_cursorDataEvents (d : Display) (col row v : Nat) (hc : col ≤ 127)
    (hr : row ≤ 7) :
    (Display.run d (cursorDataEvents col row v)).gddram
      = store d.gddram (128 * row + col) v := by
  have h1 : col % 128 = col := Nat.mod_eq_of_lt (by omega)
  have h2 : row % 8 = row := Nat.mod_eq_of_lt (by omega)
  simp [cursorDataEvents, Display.run, Display.step, Display.command, Display.execute,
    Display.argCount, Display.data, SSD1306_SLAVE_ADDR_W, SSD1306_SLAVE_ADDR,
    CMD_CTRL_BYTE, DATA_CTRL_BYTE, h1, h2]
  split <;> rfl

theorem drawPixel_bus (s : Driver) (x y : Nat) (hx : x ≤ 255) (hy : y ≤ 255) :
    (ssd1306_drawPixel s x y).bus = s.bus ++ cursorDataEvents x (y / 8)
      ((s.mem (s.p_ram + (x + 128 * (y / 8))) ||| (1 <<< (y % 8))) % 256) := by
  simp [ssd1306_drawPixel, ssd1306_displayMoveCursor, i2c_start, i2c_stop, i2c_request,
    i2c_write, pixel_index_u16 hx hy, cursorDataEvents]

theorem clearPixel_bus (s : Driver) (x y : Nat) :
    (ssd1306_displayClearPixel s x y).bus = s.bus ++ cursorDataEvents x (y / 8) 0 := by
  simp [ssd1306_displayClearPixel, ssd1306_displayMoveCursor, i2c_start, i2c_stop,
    i2c_request, i2c_write, cursorDataEvents]

theorem ramUpdateByte_split {p : Nat} (hp : p < 1024) :
    u8 ((p : Int) / 128) = p / 128 ∧
    u8 ((p : Int) - 128 * ((p : Int) / 128)) = p % 128 := by
  unfold u8
  omega

theorem ramUpdateByte_mem (s : Driver) (p v : Nat) :
    (ssd1306_ramUpdateByte s p v).mem =
      store s.mem (s.p_ram + p) ((s.mem (s.p_ram + p) ||| v) % 256) := by
  simp [ssd1306_ramUpdateByte, ssd1306_displayMoveCursor, i2c_start, i2c_stop,
    i2c_request, i2c_write]

theorem ramUpdateByte_p_ram (s : Driver) (p v : Nat) :
    (ssd1306_ramUpdateByte s p v).p_ram = s.p_ram := by
  simp [ssd1306_ramUpdateByte, ssd1306_displayMoveCursor, i2c_start, i2c_stop,
    i2c_request, i2c_write]

theorem ramUpdateByte_bus (s : Driver) (p v : Nat) (hp : p < 1024) :
    (ssd1306_ramUpdateByte s p v).bus = s.bus ++ cursorDataEvents (p % 128) (p / 128)
      ((s.mem (s.p_ram + p) ||| v) % 256) := by
  obtain ⟨h1, h2⟩ := ramUpdateByte_split hp
  simp [ssd1306_ramUpdateByte, ssd1306_displayMoveCursor, i2c_start, i2c_stop,
    i2c_request, i2c_write, cursorDataEvents, h1, h2]

theorem lockstep_store (s : Driver) (d : Display) (k k' v : Nat) (h : Lockstep s d)
    (hk : k' = k) :
    ∀ i, i < 1024 → store d.gddram k' v i = store s.mem k v i := by
  intro i hi
  subst hk
  unfold store
  split
  · rfl
  · exact h i hi

/-- One in-range call keeps `p_ram` at the base, appends its events to the
trace, and re-establishes lockstep on a display that receives those events. -/
theorem Call.exec_lockstep (s : Driver) (c : Call) (hp : s.p_ram = 0) (hc : c.inRange) :
    (c.exec s).p_ram = 0 ∧
    ∃ es, (c.exec s).bus = s.bus ++ es ∧
      ∀ d, Lockstep s d → Lockstep (c.exec s) (Display.run d es) := by
  cases c with
  | drawPixel x y =>
    obtain ⟨hx, hy⟩ := hc
    refine ⟨by simp [Call.exec, drawPixel_p_ram, hp], _,
      drawPixel_bus s x y (by omega) (by omega), ?_⟩
    intro d h i hi
    simp only [Call.exec]
    rw [run_cursorDataEvents d x (y / 8) _ hx (by omega),
      drawPixel_mem s x y (by omega) (by omega), hp, Nat.zero_add]
    exact lockstep_store s d _ _ _ h (by omega) i hi
  | clearPixel x y =>
    obtain ⟨hx, hy⟩ := hc
    refine ⟨by simp [Call.exec, clearPixel_p_ram, hp], _, clearPixel_bus s x y, ?_⟩
    intro d h i hi
    simp only [Call.exec]
    rw [run_cursorDataEvents d x (y / 8) _ hx (by omega),
      clearPixel_mem s x y (by omega) (by omega), hp, Nat.zero_add]
    exact lockstep_store s d _ _ _ h (by omega) i hi
  | ramUpdateByte p v =>
    have hc' : p < 1024 := hc
    refine ⟨by simp [Call.exec, ramUpdateByte_p_ram, hp], _,
      ramUpdateByte_bus s p v hc', ?_⟩
    intro d h i hi
    simp only [Call.exec]
    rw [run_cursorDataEvents d (p % 128) (p / 128) _ (by omega) (by omega),
      ramUpdateByte_mem, hp, Nat.zero_add]
    exact lockstep_store s d _ _ _ h (by omega) i hi

theorem execCalls_lockstep (cs : List Call) :
    ∀ s : Driver, s.p_ram = 0 → (∀ c ∈ cs, c.inRange) →
    (execCalls s cs).p_ram = 0 ∧
    ∃ es, (execCalls s cs).bus = s.bus ++ es ∧
      ∀ d, Lockstep s d → Lockstep (execCalls s cs) (Display.run d es) := by
  induction cs with
  | nil =>
    intro s hp _
    exact ⟨hp, [], by simp [execCalls], fun d h => by simpa [execCalls, Display.run] using h⟩
  | cons c cs ih =>
    intro s hp hcs
    obtain ⟨hp1, es1, hb1, hl1⟩ := Call.exec_lockstep s c hp (hcs c (List.mem_cons_self _ _))
    obtain ⟨hp2, es2, hb2, hl2⟩ :=
      ih (c.exec s) hp1 (fun c' hc' => hcs c' (List.mem_cons_of_mem _ hc'))
    refine ⟨by simpa [execCalls] using hp2, es1 ++ es2, ?_, ?_⟩
    · simp only [execCalls, List.foldl_cons] at hb2 ⊢
      rw [hb2, hb1, List.append_assoc]
    · intro d h
      have := hl2 _ (hl1 d h)
      simpa [execCalls, Display.run, List.foldl_append] using this

/-- C3 (lockstep invariant): starting from any driver state with `p_ram` at
the buffer base and any simulated-display state whose memory equals the shadow
buffer, after every finite sequence of `drawPixel`, `clearPixel` and
`ramUpdateByte` calls with in-range arguments, the display that received the
emitted bus events again equals the shadow buffer byte for byte. -/
theorem lockstep_invariant (s : Driver) (d : Display) (cs : List Call)
    (hp : s.p_ram = 0) (hcs : ∀ c ∈ cs, c.inRange) (h : Lockstep s d) :
    Lockstep (execCalls s cs) (Display.run d (emitted s (execCalls s cs))) := by
  obtain ⟨_, es, hb, hl⟩ := execCalls_lockstep cs s hp hcs
  have he : emitted s (execCalls s cs) = es := by
    simp [emitted, hb]
  rw [he]
  exact hl d h

/-- Witness for C3: a draw, a clear and a byte update on a blank display. -/
theorem lockstep_invariant_witness :
    Lockstep
      (execCalls ⟨fun _ => 0, 0, []⟩
        [Call.drawPixel 3 10, Call.clearPixel 3 10, Call.ramUpdateByte 5 0xAA])
      (Display.run ⟨fun _ => 0, 0, 127, 0, 7, 0, 0, Phase.idle, []⟩
        (emitted ⟨fun _ => 0, 0, []⟩
          (execCalls ⟨fun _ => 0, 0, []⟩
            [Call.drawPixel 3 10, Call.clearPixel 3 10, Call.ramUpdateByte 5 0xAA]))) :=
  lockstep_invariant ⟨fun _ => 0, 0, []⟩ ⟨fun _ => 0, 0, 127, 0, 7, 0, 0, Phase.idle, []⟩
    [Call.drawPixel 3 10, Call.clearPixel 3 10, Call.ramUpdateByte 5 0xAA] rfl
    (by
      intro c hc
      simp only [List.mem_cons, List.mem_singleton, List.not_mem_nil, or_false] at hc
      rcases hc with rfl | rfl | rfl <;> simp [Call.inRange])
    (fun _ _ => rfl)

/-! ## Line drawing: the walk -/

/-- Specification of the x-driven loop. With `n` steps of the driving axis
and `m` steps of the other axis left, and the error term `pk` within its
Bresenham bounds, the loop exits at `(x2, y2)` after exactly `n` iterations;
the pixels it draws lie between the current position and the end point, and
together with the end point they form an 8-connected chain that starts at the
current position. -/
theorem drawLine_loopX_spec (sx sy adx ady : Int) (x2 y2 : Nat)
    (hsx : sx = 1 ∨ sx = -1) (hsy : sy = 1 ∨ sy = -1)
    (hady : 0 ≤ ady) (hle : ady ≤ adx) (hadx : adx ≤ 127) (hpos : 0 < adx)
    (hx2 : x2 ≤ 255) (hy2 : y2 ≤ 255) :
    ∀ (n fuel x y : Nat) (pk m : Int),
      n < fuel → (x : Int) + sx * n = x2 → (y : Int) + sy * m = y2 → 0 ≤ m →
      x ≤ 255 → y ≤ 255 →
      2 * ady - 2 * adx ≤ pk → pk < 2 * ady →
      2 * (adx * m) = (pk - 2 * ady + adx) + 2 * (ady * n) →
      ∃ ps, drawLine_loopX fuel x y pk x2 sx sy (2 * adx) (2 * ady) = some (ps, x2, y2) ∧
        ps.length = n ∧
        (∀ p ∈ ps, (min x x2 ≤ p.1 ∧ p.1 ≤ max x x2) ∧ (min y y2 ≤ p.2 ∧ p.2 ≤ max y y2)) ∧
        List.Chain' Adjacent8 (ps ++ [(x2, y2)]) ∧
        (ps ++ [(x2, y2)]).head? = some (x, y) := by
  intro n
  induction n with
  | zero =>
    intro fuel x y pk m hf hx hy hm _ _ hlo hhi hrel
    obtain ⟨fuel, rfl⟩ : ∃ f, fuel = f + 1 := ⟨fuel - 1, by omega⟩
    have hxe : x = x2 := by
      have : (x : Int) = x2 := by simpa using hx
      exact_mod_cast this
    have hm0 : m = 0 := by
      by_contra hne
      have h1 : 1 ≤ m := by omega
      have h2 : adx * 1 ≤ adx * m := mul_le_mul_of_nonneg_left h1 hpos.le
      simp only [Nat.cast_zero, mul_zero, add_zero, mul_one] at hrel h2
      omega
    have hye : y = y2 := by
      have : (y : Int) = y2 := by simpa [hm0] using hy
      exact_mod_cast this
    subst hxe hye
    refine ⟨[], by simp [drawLine_loopX], rfl, by simp, by simp, by simp⟩
  | succ n ih =>
    intro fuel x y pk m hf hx hy hm hxb hyb hlo hhi hrel
    obtain ⟨fuel, rfl⟩ : ∃ f, fuel = f + 1 := ⟨fuel - 1, by omega⟩
    have hne : x ≠ x2 := by
      intro h
      subst h
      rcases hsx with h | h <;> subst h <;> push_cast at hx <;> omega
    have hxn : (u8 ((x : Int) + sx) : Int) = x + sx := by
      apply u8_of_lt
      · rcases hsx with h | h <;> subst h <;> push_cast at hx <;> omega
      · rcases hsx with h | h <;> subst h <;> push_cast at hx <;> omega
    have hx' : ((u8 ((x : Int) + sx) : Nat) : Int) + sx * n = x2 := by
      rw [hxn]
      push_cast at hx
      linarith
    have hxb' : u8 ((x : Int) + sx) ≤ 255 := by
      have : ((u8 ((x : Int) + sx) : Nat) : Int) ≤ 255 := by
        rw [hxn]
        rcases hsx with h | h <;> subst h <;> push_cast at hx <;> omega
      exact_mod_cast this
    have hrel' : ady * ((n : Int) + 1) = ady * n + ady := by ring
    push_cast at hrel
    rw [hrel'] at hrel
    by_cases hpk : pk < 0
    · have hpk16 : i16 (pk + 2 * ady) = pk + 2 * ady :=
        i16_of_range (by omega) (by omega)
      obtain ⟨ps, hrun, hlen, hbox, hchain, hhead⟩ :=
        ih fuel (u8 ((x : Int) + sx)) y (pk + 2 * ady) m (by omega) hx' hy hm hxb' hyb
          (by omega) (by omega) (by linarith)
      refine ⟨(x, y) :: ps, ?_, by simp [hlen], ?_, ?_, by simp⟩
      · simp [drawLine_loopX, hne, hpk, hpk16, hrun]
      · intro p hp
        rcases List.mem_cons.mp hp with rfl | hp
        · simp
        · have := hbox p hp
          have hxn' := hxn
          rcases hsx with h | h <;> subst h <;> push_cast at hx <;> omega
      · rw [List.cons_append, List.chain'_cons']
        refine ⟨?_, hchain⟩
        intro q hq
        rw [hhead] at hq
        cases hq
        refine ⟨?_, ?_⟩
        · intro h
          have h1 := congrArg Prod.fst h
          simp only at h1
          have hxn' := hxn
          rw [← h1] at hxn'
          rcases hsx with h | h <;> subst h <;> omega
        · have hxn' := hxn
          simp only
          rcases hsx with h | h <;> subst h <;> omega
    · have hpk16 : i16 (pk + 2 * ady - 2 * adx) = pk + 2 * ady - 2 * adx :=
        i16_of_range (by omega) (by omega)
      have hm1 : 1 ≤ m := by
        by_contra hlt
        have hm0 : m = 0 := by omega
        subst hm0
        have hn : 0 ≤ ady * (n : Int) := mul_nonneg hady (by positivity)
        simp only [mul_zero] at hrel
        omega
      have hyn : (u8 ((y : Int) + sy) : Int) = y + sy := by
        apply u8_of_lt
        · rcases hsy with h | h <;> subst h <;> omega
        · rcases hsy with h | h <;> subst h <;> omega
      have hy' : ((u8 ((y : Int) + sy) : Nat) : Int) + sy * (m - 1) = y2 := by
        rw [hyn]
        linarith
      have hyb' : u8 ((y : Int) + sy) ≤ 255 := by
        have : ((u8 ((y : Int) + sy) : Nat) : Int) ≤ 255 := by
          rw [hyn]
          rcases hsy with h | h <;> subst h <;> omega
        exact_mod_cast this
      obtain ⟨ps, hrun, hlen, hbox, hchain, hhead⟩ :=
        ih fuel (u8 ((x : Int) + sx)) (u8 ((y : Int) + sy)) (pk + 2 * ady - 2 * adx) (m - 1)
          (by omega) hx' hy' (by omega) hxb' hyb' (by omega) (by omega)
          (by
            have : adx * (m - 1) = adx * m - adx := by ring
            rw [this]
            linarith)
      refine ⟨(x, y) :: ps, ?_, by simp [hlen], ?_, ?_, by simp⟩
      · simp [drawLine_loopX, hne, hpk, hpk16, hrun]
      · intro p hp
        rcases List.mem_cons.mp hp with rfl | hp
        · simp
        · have := hbox p hp
          have hxn' := hxn
          have hyn' := hyn
          rcases hsx with h | h <;> rcases hsy with h' | h' <;> subst h <;> subst h' <;>
            push_cast at hx <;> omega
      · rw [List.cons_append, List.chain'_cons']
        refine ⟨?_, hchain⟩
        intro q hq
        rw [hhead] at hq
        cases hq
        refine ⟨?_, ?_⟩
        · intro h
          have h1 := congrArg Prod.fst h
          simp only at h1
          have hxn' := hxn
          rw [← h1] at hxn'
          rcases hsx with h | h <;> subst h <;> omega
        · have hxn' := hxn
          have hyn' := hyn
          simp only
          rcases hsx with h | h <;> rcases hsy with h' | h' <;> subst h <;> subst h' <;> omega

/-- The y-driven loop is the x-driven loop with the two axes exchanged. -/
theorem drawLine_loopY_eq_swap (fuel : Nat) :
    ∀ (x y : Nat) (pk : Int) (y2 : Nat) (sx sy dx2 dy2 : Int),
      drawLine_loopY fuel x y pk y2 sx sy dx2 dy2 =
        (drawLine_loopX fuel y x pk y2 sy sx dy2 dx2).map
          (fun r => (r.1.map Prod.swap, r.2.2, r.2.1)) := by
  induction fuel with
  | zero =>
    intro x y pk y2 sx sy dx2 dy2
    simp [drawLine_loopY, drawLine_loopX]
  | succ fuel ih =>
    intro x y pk y2 sx sy dx2 dy2
    by_cases h : y = y2
    · simp [drawLine_loopY, drawLine_loopX, h]
    · by_cases hpk : pk < 0
      · simp [drawLine_loopY, drawLine_loopX, h, hpk, ih, Option.map_map, Function.comp_def]
      · simp [drawLine_loopY, drawLine_loopX, h, hpk, ih, Option.map_map, Function.comp_def]

theorem Adjacent8_swap (p q : Nat × Nat) :
    Adjacent8 (Prod.swap p) (Prod.swap q) ↔ Adjacent8 p q := by
  obtain ⟨a, b⟩ := p
  obtain ⟨c, d⟩ := q
  simp only [Adjacent8, Prod.swap_prod_mk, ne_eq, Prod.mk.injEq]
  constructor <;> rintro ⟨h1, h2, h3, h4, h5⟩ <;> exact ⟨fun h => h1 ⟨h.2, h.1⟩, h4, h5, h2, h3⟩

/-- Unfolding of `drawLine_pixels` once the signed deltas are known to fit
their types. -/
theorem drawLine_pixels_unfold (x1 y1 x2 y2 : Nat) (hx1 : x1 ≤ 127) (hy1 : y1 ≤ 127)
    (hx2 : x2 ≤ 127) (hy2 : y2 ≤ 127) (sx sy adx ady : Int)
    (hsx : sx = if (x2 : Int) - x1 > 0 then 1 else -1)
    (hsy : sy = if (y2 : Int) - y1 > 0 then 1 else -1)
    (hadx : adx = ((x2 : Int) - x1) * sx) (hady : ady = ((y2 : Int) - y1) * sy) :
    drawLine_pixels x1 y1 x2 y2 =
      (if adx ≥ ady then
        drawLine_loopX 256 x1 y1 (2 * ady - adx) x2 sx sy (2 * adx) (2 * ady)
      else
        drawLine_loopY 256 x1 y1 (2 * adx - ady) y2 sx sy (2 * adx) (2 * ady)).map
        (fun r => r.1 ++ [(r.2.1, r.2.2)]) := by
  have e1 : i8 ((x2 : Int) - x1) = (x2 : Int) - x1 := i8_of_range (by omega) (by omega)
  have e2 : i8 ((y2 : Int) - y1) = (y2 : Int) - y1 := i8_of_range (by omega) (by omega)
  have b1 : 0 ≤ adx ∧ adx ≤ 127 := by
    subst hadx hsx
    split <;> omega
  have b2 : 0 ≤ ady ∧ ady ≤ 127 := by
    subst hady hsy
    split <;> omega
  have e3 : i8 (((x2 : Int) - x1) * sx) = adx := by
    rw [← hadx]
    exact i8_of_range (by omega) (by omega)
  have e4 : i8 (((y2 : Int) - y1) * sy) = ady := by
    rw [← hady]
    exact i8_of_range (by omega) (by omega)
  have e5 : i16 (2 * adx) = 2 * adx := i16_of_range (by omega) (by omega)
  have e6 : i16 (2 * ady) = 2 * ady := i16_of_range (by omega) (by omega)
  have e7 : i16 (2 * ady - adx) = 2 * ady - adx := i16_of_range (by omega) (by omega)
  have e8 : i16 (2 * adx - ady) = 2 * adx - ady := i16_of_range (by omega) (by omega)
  unfold drawLine_pixels
  simp only [e1, e2, ← hsx, ← hsy, e3, e4, e5, e6, e7, e8]

theorem walkSpec_of_loop (x1 y1 x2 y2 n : Nat) (ps : List (Nat × Nat))
    (hlen : ps.length = n)
    (hbox : ∀ p ∈ ps, (min x1 x2 ≤ p.1 ∧ p.1 ≤ max x1 x2) ∧
      (min y1 y2 ≤ p.2 ∧ p.2 ≤ max y1 y2))
    (hchain : List.Chain' Adjacent8 (ps ++ [(x2, y2)]))
    (hhead : (ps ++ [(x2, y2)]).head? = some (x1, y1)) :
    WalkSpec x1 y1 x2 y2 n (ps ++ [(x2, y2)]) := by
  refine ⟨by simp [hlen], ?_, hchain, hhead, by simp⟩
  intro p hp
  rcases List.mem_append.mp hp with hp | hp
  · exact hbox p hp
  · have : p = (x2, y2) := by simpa using hp
    subst this
    simp

theorem walkSpec_of_swapped_loop (x1 y1 x2 y2 n : Nat) (ps : List (Nat × Nat))
    (hlen : ps.length = n)
    (hbox : ∀ p ∈ ps, (min y1 y2 ≤ p.1 ∧ p.1 ≤ max y1 y2) ∧
      (min x1 x2 ≤ p.2 ∧ p.2 ≤ max x1 x2))
    (hchain : List.Chain' Adjacent8 (ps ++ [(y2, x2)]))
    (hhead : (ps ++ [(y2, x2)]).head? = some (y1, x1)) :
    WalkSpec x1 y1 x2 y2 n (ps.map Prod.swap ++ [(x2, y2)]) := by
  have hl : ps.map Prod.swap ++ [(x2, y2)] = (ps ++ [(y2, x2)]).map Prod.swap := by simp
  refine ⟨by simp [hlen], ?_, ?_, ?_, by simp⟩
  · intro p hp
    rcases List.mem_append.mp hp with hp | hp
    · obtain ⟨q, hq, rfl⟩ := List.mem_map.mp hp
      have := hbox q hq
      exact ⟨this.2, this.1⟩
    · have : p = (x2, y2) := by simpa using hp
      subst this
      simp
  · rw [hl, List.chain'_map]
    exact hchain.imp (fun {a b} h => (Adjacent8_swap a b).mpr h)
  · rw [hl, List.head?_map, hhead]
    rfl

/-- Full specification of the pixel sequence of `ssd1306_drawLine` for end
points on the display. -/
theorem drawLine_pixels_spec (x1 y1 x2 y2 : Nat) (hx1 : x1 ≤ 127) (hy1 : y1 ≤ 63)
    (hx2 : x2 ≤ 127) (hy2 : y2 ≤ 63) :
    ∃ l, drawLine_pixels x1 y1 x2 y2 = some l ∧
      WalkSpec x1 y1 x2 y2
        (max (Int.natAbs ((x2 : Int) - x1)) (Int.natAbs ((y2 : Int) - y1))) l := by
  obtain ⟨sx, hsx⟩ : ∃ sx : Int, sx = if (x2 : Int) - x1 > 0 then 1 else -1 := ⟨_, rfl⟩
  obtain ⟨sy, hsy⟩ : ∃ sy : Int, sy = if (y2 : Int) - y1 > 0 then 1 else -1 := ⟨_, rfl⟩
  obtain ⟨adx, hadx⟩ : ∃ adx : Int, adx = ((x2 : Int) - x1) * sx := ⟨_, rfl⟩
  obtain ⟨ady, hady⟩ : ∃ ady : Int, ady = ((y2 : Int) - y1) * sy := ⟨_, rfl⟩
  rw [drawLine_pixels_unfold x1 y1 x2 y2 hx1 (by omega) hx2 (by omega) sx sy adx ady
    hsx hsy hadx hady]
  have hsx' : sx = 1 ∨ sx = -1 := by
    rw [hsx]
    split <;> simp
  have hsy' : sy = 1 ∨ sy = -1 := by
    rw [hsy]
    split <;> simp
  have fx : 0 ≤ adx ∧ adx ≤ 127 ∧ (x1 : Int) + sx * adx = x2 ∧
      adx = Int.natAbs ((x2 : Int) - x1) := by
    subst hadx hsx
    split <;> omega
  have fy : 0 ≤ ady ∧ ady ≤ 127 ∧ (y1 : Int) + sy * ady = y2 ∧
      ady = Int.natAbs ((y2 : Int) - y1) := by
    subst hady hsy
    split <;> omega
  obtain ⟨hx0, hx127, hxe, hxabs⟩ := fx
  obtain ⟨hy0, hy127, hye, hyabs⟩ := fy
  by_cases hge : adx ≥ ady
  · rw [if_pos hge]
    have hmax : max (Int.natAbs ((x2 : Int) - x1)) (Int.natAbs ((y2 : Int) - y1))
        = adx.toNat := by omega
    rw [hmax]
    by_cases h0 : adx = 0
    · have hxx : x1 = x2 := by
        rcases hsx' with h | h <;> subst h <;> omega
      have hyy : y1 = y2 := by
        rcases hsy' with h | h <;> subst h <;> omega
      subst hxx hyy
      refine ⟨[(x1, y1)], by simp [drawLine_loopX], ?_⟩
      simpa [h0] using walkSpec_of_loop x1 y1 x1 y1 0 [] rfl (by simp) (by simp) (by simp)
    · have hcast : ((adx.toNat : Nat) : Int) = adx := Int.toNat_of_nonneg hx0
      obtain ⟨ps, hrun, hlen, hbox, hchain, hhead⟩ :=
        drawLine_loopX_spec sx sy adx ady x2 y2 hsx' hsy' hy0 hge hx127 (by omega)
          (by omega) (by omega) adx.toNat 256 x1 y1 (2 * ady - adx) ady (by omega)
          (by rw [hcast]; exact hxe) hye hy0 (by omega) (by omega) (by omega) (by omega)
          (by rw [hcast]; ring)
      exact ⟨ps ++ [(x2, y2)], by simp [hrun],
        walkSpec_of_loop x1 y1 x2 y2 _ ps hlen hbox hchain hhead⟩
  · rw [if_neg hge, drawLine_loopY_eq_swap]
    have hmax : max (Int.natAbs ((x2 : Int) - x1)) (Int.natAbs ((y2 : Int) - y1))
        = ady.toNat := by omega
    rw [hmax]
    have hcast : ((ady.toNat : Nat) : Int) = ady := Int.toNat_of_nonneg hy0
    obtain ⟨ps, hrun, hlen, hbox, hchain, hhead⟩ :=
      drawLine_loopX_spec sy sx ady adx y2 x2 hsy' hsx' hx0 (by omega) hy127 (by omega)
        (by omega) (by omega) ady.toNat 256 y1 x1 (2 * adx - ady) adx (by omega)
        (by rw [hcast]; exact hye) hxe hx0 (by omega) (by omega) (by omega) (by omega)
        (by rw [hcast]; ring)
    exact ⟨ps.map Prod.swap ++ [(x2, y2)], by simp [hrun],
      walkSpec_of_swapped_loop x1 y1 x2 y2 _ ps hlen hbox hchain hhead⟩

/-! ## Line drawing: effect on the shadow buffer -/

theorem testBit_256 (a b : Nat) (hb : b < 8) : Nat.testBit (a % 256) b = Nat.testBit a b := by
  have h : (256 : Nat) = 2 ^ 8 := by norm_num
  rw [h, Nat.testBit_mod_two_pow]
  simp [hb]

theorem drawPixel_bit_set (s : Driver) (x y : Nat) (hx : x ≤ 255) (hy : y ≤ 255) :
    bitSet ((ssd1306_drawPixel s x y).mem (s.p_ram + (x + 128 * (y / 8)))) (y % 8) := by
  have hk : y % 8 < 8 := Nat.mod_lt _ (by decide)
  rw [drawPixel_mem s x y hx hy, store_same]
  unfold bitSet
  rw [testBit_256 _ _ hk, Nat.testBit_or, Nat.one_shiftLeft, Nat.testBit_two_pow_self]
  simp

theorem drawPixel_bit_kept (s : Driver) (x y i b : Nat) (hx : x ≤ 255) (hy : y ≤ 255)
    (hb : b < 8) (h : bitSet (s.mem i) b) : bitSet ((ssd1306_drawPixel s x y).mem i) b := by
  rw [drawPixel_mem s x y hx hy]
  unfold store
  split
  · next hi =>
    subst hi
    unfold bitSet at h ⊢
    rw [testBit_256 _ _ hb, Nat.testBit_or, h]
    simp
  · exact h

theorem drawPixels_p_ram (l : List (Nat × Nat)) :
    ∀ s : Driver, (drawPixels s l).p_ram = s.p_ram := by
  induction l with
  | nil => intro s; rfl
  | cons p l ih =>
    intro s
    simp only [drawPixels, List.foldl_cons] at ih ⊢
    rw [ih, drawPixel_p_ram]

theorem drawPixels_bit_kept (l : List (Nat × Nat)) :
    ∀ (s : Driver) (i b : Nat), (∀ p ∈ l, p.1 ≤ 255 ∧ p.2 ≤ 255) → b < 8 →
      bitSet (s.mem i) b → bitSet ((drawPixels s l).mem i) b := by
  induction l with
  | nil => intro s i b _ _ h; exact h
  | cons p l ih =>
    intro s i b hl hb h
    have hp := hl p (List.mem_cons_self _ _)
    simp only [drawPixels, List.foldl_cons] at ih ⊢
    exact ih _ i b (fun q hq => hl q (List.mem_cons_of_mem _ hq)) hb
      (drawPixel_bit_kept s p.1 p.2 i b hp.1 hp.2 hb h)

/-- After drawing a list of pixels, the bit of every listed pixel is set. -/
theorem drawPixels_bit_set (l : List (Nat × Nat)) :
    ∀ (s : Driver), (∀ p ∈ l, p.1 ≤ 255 ∧ p.2 ≤ 255) → ∀ q ∈ l,
      bitSet ((drawPixels s l).mem (s.p_ram + (q.1 + 128 * (q.2 / 8)))) (q.2 % 8) := by
  induction l with
  | nil => intro s _ q hq; cases hq
  | cons p l ih =>
    intro s hl q hq
    have hp := hl p (List.mem_cons_self _ _)
    have hl' : ∀ r ∈ l, r.1 ≤ 255 ∧ r.2 ≤ 255 := fun r hr => hl r (List.mem_cons_of_mem _ hr)
    rcases List.mem_cons.mp hq with rfl | hq
    · have h := drawPixel_bit_set s q.1 q.2 hp.1 hp.2
      have := drawPixels_bit_kept l (ssd1306_drawPixel s q.1 q.2) _ _ hl'
        (Nat.mod_lt _ (by decide)) h
      simpa [drawPixels] using this
    · have := ih (ssd1306_drawPixel s p.1 p.2) hl' q hq
      rw [drawPixel_p_ram] at this
      simpa [drawPixels] using this

/-- C4: for end points on the display, `drawLine` terminates, the sequence of
pixels it passes to `drawPixel` starts with `(x1,y1)` and ends with `(x2,y2)`,
and afterwards both end-point bits are set in the shadow buffer. -/
theorem drawLine_draws_endpoints (s : Driver) (x1 y1 x2 y2 : Nat) (hx1 : x1 ≤ 127)
    (hy1 : y1 ≤ 63) (hx2 : x2 ≤ 127) (hy2 : y2 ≤ 63) (hp : s.p_ram = 0) :
    ∃ l s', drawLine_pixels x1 y1 x2 y2 = some l ∧
      ssd1306_drawLine s x1 y1 x2 y2 = some s' ∧
      l.head? = some (x1, y1) ∧ l.getLast? = some (x2, y2) ∧
      bitSet (s'.mem (x1 + 128 * (y1 / 8))) (y1 % 8) ∧
      bitSet (s'.mem (x2 + 128 * (y2 / 8))) (y2 % 8) := by
  obtain ⟨l, hl, _, hbox, _, hhead, hlast⟩ := drawLine_pixels_spec x1 y1 x2 y2 hx1 hy1 hx2 hy2
  have hrange : ∀ p ∈ l, p.1 ≤ 255 ∧ p.2 ≤ 255 := by
    intro p hp
    have := hbox p hp
    omega
  have h1 : (x1, y1) ∈ l := List.mem_of_mem_head? hhead
  have h2 : (x2, y2) ∈ l := List.mem_of_mem_getLast? hlast
  have b1 := drawPixels_bit_set l s hrange _ h1
  have b2 := drawPixels_bit_set l s hrange _ h2
  rw [hp, Nat.zero_add] at b1 b2
  exact ⟨l, drawPixels s l, hl, by simp [ssd1306_drawLine, hl], hhead, hlast, b1, b2⟩

/-- Witness for C4: the line from (0,0) to (5,2) on a blank buffer. -/
theorem drawLine_draws_endpoints_witness :
    ∃ l s', drawLine_pixels 0 0 5 2 = some l ∧
      ssd1306_drawLine ⟨fun _ => 0, 0, []⟩ 0 0 5 2 = some s' ∧
      l.head? = some (0, 0) ∧ l.getLast? = some (5, 2) ∧
      bitSet (s'.mem (0 + 128 * (0 / 8))) (0 % 8) ∧
      bitSet (s'.mem (5 + 128 * (2 / 8))) (2 % 8) :=
  drawLine_draws_endpoints ⟨fun _ => 0, 0, []⟩ 0 0 5 2 (by decide) (by decide) (by decide)
    (by decide) rfl

/-- C5: for end points on the display, any two consecutive pixels in the
sequence `drawLine` passes to `drawPixel` are 8-connected: distinct and at
most one apart in x and in y. -/
theorem drawLine_connected (x1 y1 x2 y2 : Nat) (hx1 : x1 ≤ 127) (hy1 : y1 ≤ 63)
    (hx2 : x2 ≤ 127) (hy2 : y2 ≤ 63) :
    ∃ l, drawLine_pixels x1 y1 x2 y2 = some l ∧ List.Chain' Adjacent8 l := by
  obtain ⟨l, hl, _, _, hchain, _, _⟩ := drawLine_pixels_spec x1 y1 x2 y2 hx1 hy1 hx2 hy2
  exact ⟨l, hl, hchain⟩

/-- Witness for C5: the line from (3,0) to (1,7). -/
theorem drawLine_connected_witness :
    ∃ l, drawLine_pixels 3 0 1 7 = some l ∧ List.Chain' Adjacent8 l :=
  drawLine_connected 3 0 1 7 (by decide) (by decide) (by decide) (by decide)

/-- C6: for end points on the display, every pixel `drawLine` passes to
`drawPixel` lies in the bounding box of the two end points. -/
theorem drawLine_in_bounding_box (x1 y1 x2 y2 : Nat) (hx1 : x1 ≤ 127) (hy1 : y1 ≤ 63)
    (hx2 : x2 ≤ 127) (hy2 : y2 ≤ 63) :
    ∃ l, drawLine_pixels x1 y1 x2 y2 = some l ∧
      ∀ p ∈ l, (min x1 x2 ≤ p.1 ∧ p.1 ≤ max x1 x2) ∧ (min y1 y2 ≤ p.2 ∧ p.2 ≤ max y1 y2) := by
  obtain ⟨l, hl, _, hbox, _, _, _⟩ := drawLine_pixels_spec x1 y1 x2 y2 hx1 hy1 hx2 hy2
  exact ⟨l, hl, hbox⟩

/-- Witness for C6: the line from (127,63) to (0,0). -/
theorem drawLine_in_bounding_box_witness :
    ∃ l, drawLine_pixels 127 63 0 0 = some l ∧
      ∀ p ∈ l, (min 127 0 ≤ p.1 ∧ p.1 ≤ max 127 0) ∧ (min 63 0 ≤ p.2 ∧ p.2 ≤ max 63 0) :=
  drawLine_in_bounding_box 127 63 0 0 (by decide) (by decide) (by decide) (by decide)

/-- C7: for end points on the display, `drawLine` calls `drawPixel` exactly
`max(|x2-x1|, |y2-y1|) + 1` times; a zero-length line `(x,y) → (x,y)` draws
exactly the one pixel `(x,y)`. -/
theorem drawLine_pixel_count (x1 y1 x2 y2 : Nat) (hx1 : x1 ≤ 127) (hy1 : y1 ≤ 63)
    (hx2 : x2 ≤ 127) (hy2 : y2 ≤ 63) :
    (∃ l, drawLine_pixels x1 y1 x2 y2 = some l ∧
      l.length = max (Int.natAbs ((x2 : Int) - x1)) (Int.natAbs ((y2 : Int) - y1)) + 1) ∧
    drawLine_pixels x1 y1 x1 y1 = some [(x1, y1)] := by
  obtain ⟨l, hl, hlen, _, _, _, _⟩ := drawLine_pixels_spec x1 y1 x2 y2 hx1 hy1 hx2 hy2
  refine ⟨⟨l, hl, hlen⟩, ?_⟩
  obtain ⟨l0, hl0, hlen0, _, _, hhead0, _⟩ := drawLine_pixels_spec x1 y1 x1 y1 hx1 hy1 hx1 hy1
  rw [hl0]
  simp only [sub_self, Int.natAbs_zero, max_self, zero_add] at hlen0
  match l0, hlen0, hhead0 with
  | [p], _, hh =>
    simp only [List.head?_cons, Option.some.injEq] at hh
    rw [hh]

/-- Witness for C7: the lines (5,5) → (20,9) and (5,5) → (5,5). -/
theorem drawLine_pixel_count_witness :
    (∃ l, drawLine_pixels 5 5 20 9 = some l ∧
      l.length = max (Int.natAbs (((20 : Nat) : Int) - (5 : Nat)))
        (Int.natAbs (((9 : Nat) : Int) - (5 : Nat))) + 1) ∧
    drawLine_pixels 5 5 5 5 = some [(5, 5)] :=
  drawLine_pixel_count 5 5 20 9 (by decide) (by decide) (by decide) (by decide)

/-! ## Circle drawing: bounds -/

theorem u8_le_of_le {n : Int} {k : Nat} (h0 : 0 ≤ n) (h1 : n ≤ k) (hk : k ≤ 255) :
    u8 n ≤ k := by
  unfold u8
  omega

theorem drawCircle_octants_bound (cx cy : Nat) (x0 y0 : Int) (hcx : cx ≤ 127)
    (hcy : cy ≤ 63) (hx0 : 0 ≤ x0) (hy0 : 0 ≤ y0) :
    ∀ p ∈ drawCircle_octants cx cy x0 y0, p.1 ≤ 127 ∧ p.2 ≤ 63 := by
  intro p hp
  simp only [drawCircle_octants, List.mem_append] at hp
  rcases hp with ((((((hp | hp) | hp) | hp) | hp) | hp) | hp) | hp <;>
    · split at hp
      · next hg =>
        have hpe : p = _ := List.mem_singleton.mp hp
        subst hpe
        exact ⟨u8_le_of_le (by omega) (by omega) (by omega),
          u8_le_of_le (by omega) (by omega) (by omega)⟩
      · cases hp

theorem drawCircle_axes_bound (cx cy r : Nat) (hcx : cx ≤ 127) (hcy : cy ≤ 63) :
    ∀ p ∈ drawCircle_axes cx cy r, p.1 ≤ 127 ∧ p.2 ≤ 63 := by
  intro p hp
  have hw : u8 ((SSD1306_WIDTH : Int) - 1) = 127 := by decide
  have hh : u8 ((SSD1306_HEIGHT : Int) - 1) = 63 := by decide
  simp only [drawCircle_axes, List.mem_append, hw, hh] at hp
  rcases hp with ((hp | hp) | hp) | hp <;>
    · split at hp
      · next hg =>
        have hpe : p = _ := List.mem_singleton.mp hp
        subst hpe
        push_cast at hg
        refine ⟨?_, ?_⟩ <;> dsimp only <;>
          first
            | exact hcx
            | exact hcy
            | exact u8_le_of_le (by omega) (by omega) (by omega)
      · cases hp

/-- The loop of `ssd1306_drawCircle` exits within `y0 - x0` iterations and,
for a centre on the display, passes only display pixels to `drawPixel`. -/
theorem drawCircle_loop_bound (cx cy : Nat) (hcx : cx ≤ 127) (hcy : cy ≤ 63) :
    ∀ (fuel : Nat) (x0 y0 d0 : Int), 0 ≤ x0 → y0 ≤ 127 → y0 - x0 < fuel → 0 < fuel →
      ∃ ps, drawCircle_loop fuel cx cy x0 y0 d0 = some ps ∧
        ∀ p ∈ ps, p.1 ≤ 127 ∧ p.2 ≤ 63 := by
  intro fuel
  induction fuel with
  | zero =>
    intro x0 y0 d0 hx0 hy0 hf hpos
    omega
  | succ fuel ih =>
    intro x0 y0 d0 hx0 hy0 hf _
    by_cases hlt : x0 < y0
    · have ex : i8 (x0 + 1) = x0 + 1 := i8_of_range (by omega) (by omega)
      have ey : i8 (y0 - 1) = y0 - 1 := i8_of_range (by omega) (by omega)
      by_cases hd : d0 < 0
      · obtain ⟨ps, hrun, hps⟩ := ih (x0 + 1) y0 (i8 (d0 + 2 * (x0 + 1) + 1))
          (by omega) hy0 (by omega) (by omega)
        refine ⟨drawCircle_octants cx cy (x0 + 1) y0 ++ ps, ?_, ?_⟩
        · simp [drawCircle_loop, hlt, hd, ex, hrun]
        · intro p hp
          rcases List.mem_append.mp hp with hp | hp
          · exact drawCircle_octants_bound cx cy _ _ hcx hcy (by omega) (by omega) p hp
          · exact hps p hp
      · obtain ⟨ps, hrun, hps⟩ := ih (x0 + 1) (y0 - 1)
          (i8 (d0 + 2 * (x0 + 1 - (y0 - 1)) + 1)) (by omega) (by omega) (by omega) (by omega)
        refine ⟨drawCircle_octants cx cy (x0 + 1) (y0 - 1) ++ ps, ?_, ?_⟩
        · simp [drawCircle_loop, hlt, hd, ex, ey, hrun]
        · intro p hp
          rcases List.mem_append.mp hp with hp | hp
          · exact drawCircle_octants_bound cx cy _ _ hcx hcy (by omega) (by omega) p hp
          · exact hps p hp
    · exact ⟨[], by simp [drawCircle_loop, hlt], by simp⟩

/-- C8 (counterexample): with centre (200, 10) and radius 1 the third-octant
guard `x_cen - x0 >= 0 && y_cen - y0 >= 0` holds and `drawPixel(199, 10)` is
called, a pixel with `x > 127`. -/
theorem drawCircle_offscreen_centre :
    ∃ ps, drawCircle_pixels 200 10 1 = some ps ∧ ∃ p ∈ ps, ¬ (p.1 ≤ 127 ∧ p.2 ≤ 63) := by
  refine ⟨[(199, 10), (200, 9), (200, 11), (199, 10), (199, 10), (200, 11), (200, 9)],
    by decide, (199, 10), by simp, by decide⟩

/-- C8 (amended): for every centre on the display (`cx ≤ 127`, `cy ≤ 63`) and
every 8-bit radius, `drawCircle` terminates and every pixel it passes to
`drawPixel` satisfies `x ≤ 127` and `y ≤ 63`. -/
theorem drawCircle_pixels_on_display (cx cy r : Nat) (hcx : cx ≤ 127) (hcy : cy ≤ 63) :
    ∃ ps, drawCircle_pixels cx cy r = some ps ∧ ∀ p ∈ ps, p.1 ≤ 127 ∧ p.2 ≤ 63 := by
  have hy0 : i8 (r : Int) ≤ 127 := by
    unfold i8
    omega
  obtain ⟨ps, hrun, hps⟩ := drawCircle_loop_bound cx cy hcx hcy 128 0 (i8 r)
    (i8 (1 - (r : Int))) (le_refl _) hy0 (by unfold i8; omega) (by decide)
  refine ⟨ps ++ drawCircle_axes cx cy r, by simp [drawCircle_pixels, hrun], ?_⟩
  intro p hp
  rcases List.mem_append.mp hp with hp | hp
  · exact hps p hp
  · exact drawCircle_axes_bound cx cy r hcx hcy p hp

/-- Witness for C8 (amended): centre (1, 1), radius 3. -/
theorem drawCircle_pixels_on_display_witness :
    ∃ ps, drawCircle_pixels 1 1 3 = some ps ∧ ∀ p ∈ ps, p.1 ≤ 127 ∧ p.2 ≤ 63 :=
  drawCircle_pixels_on_display 1 1 3 (by decide) (by decide)

/-! ## Circle drawing: symmetry -/

theorem Covered.append {cx cy : Nat} {l1 l2 : List (Nat × Nat)} (h1 : Covered cx cy l1)
    (h2 : Covered cx cy l2) : Covered cx cy (l1 ++ l2) := by
  intro p hp
  rcases List.mem_append.mp hp with hp | hp
  · obtain ⟨x0, y0, ho, hall⟩ := h1 p hp
    refine ⟨x0, y0, ho, fun a b hab => ?_⟩
    obtain ⟨q, hq, h⟩ := hall a b hab
    exact ⟨q, List.mem_append_left _ hq, h⟩
  · obtain ⟨x0, y0, ho, hall⟩ := h2 p hp
    refine ⟨x0, y0, ho, fun a b hab => ?_⟩
    obtain ⟨q, hq, h⟩ := hall a b hab
    exact ⟨q, List.mem_append_right _ hq, h⟩

theorem InOrbit.trans {x0 y0 u v a b : Int} (h1 : InOrbit x0 y0 u v) (h2 : InOrbit u v a b) :
    InOrbit x0 y0 a b := by
  unfold InOrbit at *
  omega

/-- When the circle fits in the display, all eight guards hold and the
octant pixels are the eight images of `(x0, y0)`. -/
theorem drawCircle_octants_covered (cx cy r : Nat) (x0 y0 : Int) (h1 : r ≤ cx)
    (h2 : cx + r ≤ 127) (h3 : r ≤ cy) (h4 : cy + r ≤ 63) (hx0 : 0 ≤ x0) (hx0r : x0 ≤ r)
    (hy0 : 0 ≤ y0) (hy0r : y0 ≤ r) :
    Covered cx cy (drawCircle_octants cx cy x0 y0) := by
  have g1 : (cx : Int) + y0 ≤ 127 ∧ (cy : Int) - x0 ≥ 0 := by omega
  have g2 : (cx : Int) + x0 ≤ 127 ∧ (cy : Int) - y0 ≥ 0 := by omega
  have g3 : (cx : Int) - x0 ≥ 0 ∧ (cy : Int) - y0 ≥ 0 := by omega
  have g4 : (cx : Int) - y0 ≥ 0 ∧ (cy : Int) - x0 ≥ 0 := by omega
  have g5 : (cx : Int) - y0 ≥ 0 ∧ (cy : Int) + x0 ≤ 63 := by omega
  have g6 : (cx : Int) - x0 ≥ 0 ∧ (cy : Int) + y0 ≤ 63 := by omega
  have g7 : (cx : Int) + x0 ≤ 127 ∧ (cy : Int) + y0 ≤ 63 := by omega
  have g8 : (cx : Int) + y0 ≤ 127 ∧ (cy : Int) + x0 ≤ 63 := by omega
  have a1 : (u8 ((cx : Int) + y0) : Int) = cx + y0 := u8_of_lt (by omega) (by omega)
  have a2 : (u8 ((cx : Int) + x0) : Int) = cx + x0 := u8_of_lt (by omega) (by omega)
  have a3 : (u8 ((cx : Int) - x0) : Int) = cx - x0 := u8_of_lt (by omega) (by omega)
  have a4 : (u8 ((cx : Int) - y0) : Int) = cx - y0 := u8_of_lt (by omega) (by omega)
  have b1 : (u8 ((cy : Int) + y0) : Int) = cy + y0 := u8_of_lt (by omega) (by omega)
  have b2 : (u8 ((cy : Int) + x0) : Int) = cy + x0 := u8_of_lt (by omega) (by omega)
  have b3 : (u8 ((cy : Int) - x0) : Int) = cy - x0 := u8_of_lt (by omega) (by omega)
  have b4 : (u8 ((cy : Int) - y0) : Int) = cy - y0 := u8_of_lt (by omega) (by omega)
  have hl : drawCircle_octants cx cy x0 y0 =
      [(u8 ((cx : Int) + y0), u8 ((cy : Int) - x0)), (u8 ((cx : Int) + x0), u8 ((cy : Int) - y0)),
       (u8 ((cx : Int) - x0), u8 ((cy : Int) - y0)), (u8 ((cx : Int) - y0), u8 ((cy : Int) - x0)),
       (u8 ((cx : Int) - y0), u8 ((cy : Int) + x0)), (u8 ((cx : Int) - x0), u8 ((cy : Int) + y0)),
       (u8 ((cx : Int) + x0), u8 ((cy : Int) + y0)), (u8 ((cx : Int) + y0), u8 ((cy : Int) + x0))] := by
    unfold drawCircle_octants
    rw [if_pos g1, if_pos g2, if_pos g3, if_pos g4, if_pos g5, if_pos g6, if_pos g7, if_pos g8]
    rfl
  rw [hl]
  intro p hp
  refine ⟨x0, y0, ?_, ?_⟩
  · simp only [List.mem_cons, List.mem_singleton, List.not_mem_nil, or_false] at hp
    unfold InOrbit
    rcases hp with rfl | rfl | rfl | rfl | rfl | rfl | rfl | rfl <;> dsimp only <;> omega
  · intro a b hab
    simp only [List.mem_cons, List.mem_singleton, List.not_mem_nil, or_false,
      exists_eq_or_imp, exists_eq_left]
    unfold InOrbit at hab
    rcases hab with ⟨ha | ha, hb | hb⟩ | ⟨ha | ha, hb | hb⟩ <;> subst ha hb <;>
      first
        | (refine Or.inl ⟨?_, ?_⟩ <;> omega)
        | (refine Or.inr (Or.inl ⟨?_, ?_⟩) <;> omega)
        | (refine Or.inr (Or.inr (Or.inl ⟨?_, ?_⟩)) <;> omega)
        | (refine Or.inr (Or.inr (Or.inr (Or.inl ⟨?_, ?_⟩))) <;> omega)
        | (refine Or.inr (Or.inr (Or.inr (Or.inr (Or.inl ⟨?_, ?_⟩)))) <;> omega)
        | (refine Or.inr (Or.inr (Or.inr (Or.inr (Or.inr (Or.inl ⟨?_, ?_⟩))))) <;> omega)
        | (refine Or.inr (Or.inr (Or.inr (Or.inr (Or.inr (Or.inr (Or.inl ⟨?_, ?_⟩)))))) <;>
            omega)
        | (refine Or.inr (Or.inr (Or.inr (Or.inr (Or.inr (Or.inr (Or.inr ⟨?_, ?_⟩)))))) <;>
            omega)

/-- When the circle fits in the display, the four axis pixels are the images
of `(0, r)`. -/
theorem drawCircle_axes_covered (cx cy r : Nat) (h1 : r ≤ cx) (h2 : cx + r ≤ 127)
    (h3 : r ≤ cy) (h4 : cy + r ≤ 63) :
    Covered cx cy (drawCircle_axes cx cy r) := by
  have hw : u8 ((SSD1306_WIDTH : Int) - 1) = 127 := by decide
  have hh : u8 ((SSD1306_HEIGHT : Int) - 1) = 63 := by decide
  have g1 : (cx : Int) + r ≤ ((127 : Nat) : Int) := by omega
  have g2 : (cx : Int) - r ≥ 0 := by omega
  have g3 : (cy : Int) + r ≤ ((63 : Nat) : Int) := by omega
  have g4 : (cy : Int) - r ≥ 0 := by omega
  have a1 : (u8 ((cx : Int) + r) : Int) = cx + r := u8_of_lt (by omega) (by omega)
  have a2 : (u8 ((cx : Int) - r) : Int) = cx - r := u8_of_lt (by omega) (by omega)
  have b1 : (u8 ((cy : Int) + r) : Int) = cy + r := u8_of_lt (by omega) (by omega)
  have b2 : (u8 ((cy : Int) - r) : Int) = cy - r := u8_of_lt (by omega) (by omega)
  have hl : drawCircle_axes cx cy r =
      [(u8 ((cx : Int) + r), cy), (u8 ((cx : Int) - r), cy),
       (cx, u8 ((cy : Int) + r)), (cx, u8 ((cy : Int) - r))] := by
    unfold drawCircle_axes
    simp only [hw, hh]
    rw [if_pos g1, if_pos g2, if_pos g3, if_pos g4]
    rfl
  rw [hl]
  intro p hp
  refine ⟨0, r, ?_, ?_⟩
  · simp only [List.mem_cons, List.mem_singleton, List.not_mem_nil, or_false] at hp
    unfold InOrbit
    rcases hp with rfl | rfl | rfl | rfl <;> dsimp only <;> omega
  · intro a b hab
    simp only [List.mem_cons, List.mem_singleton, List.not_mem_nil, or_false,
      exists_eq_or_imp, exists_eq_left]
    unfold InOrbit at hab
    rcases hab with ⟨ha | ha, hb | hb⟩ | ⟨ha | ha, hb | hb⟩ <;> subst ha hb <;>
      first
        | (refine Or.inl ⟨?_, ?_⟩ <;> omega)
        | (refine Or.inr (Or.inl ⟨?_, ?_⟩) <;> omega)
        | (refine Or.inr (Or.inr (Or.inl ⟨?_, ?_⟩)) <;> omega)
        | (refine Or.inr (Or.inr (Or.inr ⟨?_, ?_⟩)) <;> omega)

theorem drawCircle_loop_covered (cx cy r : Nat) (h1 : r ≤ cx) (h2 : cx + r ≤ 127)
    (h3 : r ≤ cy) (h4 : cy + r ≤ 63) :
    ∀ (fuel : Nat) (x0 y0 d0 : Int), 0 ≤ x0 → y0 ≤ r → y0 - x0 < fuel → 0 < fuel →
      ∃ ps, drawCircle_loop fuel cx cy x0 y0 d0 = some ps ∧ Covered cx cy ps := by
  intro fuel
  induction fuel with
  | zero =>
    intro x0 y0 d0 hx0 hy0 hf hpos
    omega
  | succ fuel ih =>
    intro x0 y0 d0 hx0 hy0 hf _
    by_cases hlt : x0 < y0
    · have ex : i8 (x0 + 1) = x0 + 1 := i8_of_range (by omega) (by omega)
      have ey : i8 (y0 - 1) = y0 - 1 := i8_of_range (by omega) (by omega)
      by_cases hd : d0 < 0
      · obtain ⟨ps, hrun, hps⟩ := ih (x0 + 1) y0 (i8 (d0 + 2 * (x0 + 1) + 1))
          (by omega) hy0 (by omega) (by omega)
        refine ⟨drawCircle_octants cx cy (x0 + 1) y0 ++ ps, ?_, ?_⟩
        · simp [drawCircle_loop, hlt, hd, ex, hrun]
        · exact (drawCircle_octants_covered cx cy r _ _ h1 h2 h3 h4 (by omega) (by omega)
            (by omega) hy0).append hps
      · obtain ⟨ps, hrun, hps⟩ := ih (x0 + 1) (y0 - 1)
          (i8 (d0 + 2 * (x0 + 1 - (y0 - 1)) + 1)) (by omega) (by omega) (by omega) (by omega)
        refine ⟨drawCircle_octants cx cy (x0 + 1) (y0 - 1) ++ ps, ?_, ?_⟩
        · simp [drawCircle_loop, hlt, hd, ex, ey, hrun]
        · exact (drawCircle_octants_covered cx cy r _ _ h1 h2 h3 h4 (by omega) (by omega)
            (by omega) (by omega)).append hps
    · exact ⟨[], by simp [drawCircle_loop, hlt], fun p hp => by cases hp⟩

/-- C9: for `r ≤ 32` and a circle that fits in the display (`r ≤ cx ≤ 127 - r`,
`r ≤ cy ≤ 63 - r`), the set of pixels `drawCircle` draws, taken as offsets
`(dx, dy)` from the centre, is closed under the eight reflections: with
`(dx, dy)` it contains `(±dx, ±dy)` and `(±dy, ±dx)`. -/
theorem drawCircle_symmetric (cx cy r : Nat) (hr : r ≤ 32) (h1 : r ≤ cx)
    (h2 : cx ≤ 127 - r) (h3 : r ≤ cy) (h4 : cy ≤ 63 - r) :
    ∃ ps, drawCircle_pixels cx cy r = some ps ∧
      ∀ p ∈ ps, ∀ a b : Int, InOrbit ((p.1 : Int) - cx) ((p.2 : Int) - cy) a b →
        ∃ q ∈ ps, (q.1 : Int) - cx = a ∧ (q.2 : Int) - cy = b := by
  have er : i8 (r : Int) = r := i8_of_range (by omega) (by omega)
  obtain ⟨ps, hrun, hps⟩ := drawCircle_loop_covered cx cy r h1 (by omega) h3 (by omega) 128 0
    (i8 r) (i8 (1 - (r : Int))) (le_refl _) (by omega) (by omega) (by decide)
  have hcov : Covered cx cy (ps ++ drawCircle_axes cx cy r) :=
    hps.append (drawCircle_axes_covered cx cy r h1 (by omega) h3 (by omega))
  refine ⟨ps ++ drawCircle_axes cx cy r, by simp [drawCircle_pixels, hrun], ?_⟩
  intro p hp a b hab
  obtain ⟨x0, y0, ho, hall⟩ := hcov p hp
  exact hall a b (ho.trans hab)

/-- Witness for C9: centre (64, 32), radius 31, the largest circle that fits. -/
theorem drawCircle_symmetric_witness :
    ∃ ps, drawCircle_pixels 64 32 31 = some ps ∧
      ∀ p ∈ ps, ∀ a b : Int, InOrbit ((p.1 : Int) - (64 : Nat)) ((p.2 : Int) - (32 : Nat)) a b →
        ∃ q ∈ ps, (q.1 : Int) - (64 : Nat) = a ∧ (q.2 : Int) - (32 : Nat) = b :=
  drawCircle_symmetric 64 32 31 (by decide) (by decide) (by decide) (by decide) (by decide)

/-! ## Full-buffer push -/

theorem ramUpdateFull_loop_spec (n : Nat) :
    ∀ s : Driver,
      (ramUpdateFull_loop n s).bus =
        s.bus ++ (List.range n).flatMap (fun i => dataWriteEvents (s.mem (s.p_ram + i))) ∧
      (ramUpdateFull_loop n s).mem = s.mem ∧
      (ramUpdateFull_loop n s).p_ram = s.p_ram + n := by
  induction n with
  | zero =>
    intro s
    simp [ramUpdateFull_loop]
  | succ n ih =>
    intro s
    obtain ⟨hb, hm, hp⟩ := ih (ramUpdateFull_body s)
    have e1 : (ramUpdateFull_body s).bus = s.bus ++ dataWriteEvents (s.mem s.p_ram) := by
      simp [ramUpdateFull_body, i2c_start, i2c_request, i2c_write, dataWriteEvents]
    have e2 : (ramUpdateFull_body s).mem = s.mem := by
      simp [ramUpdateFull_body, i2c_start, i2c_request, i2c_write]
    have e3 : (ramUpdateFull_body s).p_ram = s.p_ram + 1 := by
      simp [ramUpdateFull_body, i2c_start, i2c_request, i2c_write]
    refine ⟨?_, ?_, ?_⟩
    · rw [ramUpdateFull_loop, hb, e1, e2, e3, List.range_succ_eq_map, List.flatMap_cons,
        List.flatMap_map, List.append_assoc]
      simp only [Nat.add_zero, Nat.succ_eq_add_one]
      congr 2
      apply congrArg
      funext i
      rw [Nat.add_assoc, Nat.add_comm 1 i]
    · rw [ramUpdateFull_loop, hm, e2]
    · rw [ramUpdateFull_loop, hp, e3]
      omega

theorem ramWrite_p_ram (s : Driver) (p v : Nat) : (ssd1306_ramWrite s p v).p_ram = s.p_ram :=
  rfl

theorem ramWrite_bus (s : Driver) (p v : Nat) : (ssd1306_ramWrite s p v).bus = s.bus := by
  simp [ssd1306_ramWrite]

theorem ramWrites_p_ram (ws : List (Nat × Nat)) :
    ∀ s : Driver, (ramWrites s ws).p_ram = s.p_ram := by
  induction ws with
  | nil => intro s; rfl
  | cons w ws ih =>
    intro s
    simp only [ramWrites, List.foldl_cons] at ih ⊢
    rw [ih, ramWrite_p_ram]

/-- C10: on a driver whose state was reached from one with `p_ram` at the
buffer base by `ramWrite` calls with `byte_pos < 1024` (each of which ORs
`byte_val` into `shadow[byte_pos]`, changes no other byte and emits nothing),
`ramUpdateFull` emits exactly 1024 data writes, each introduced by the data
control byte 0x40, with payloads `shadow[0], ..., shadow[1023]` in this order,
followed by one stop. -/
theorem ramUpdateFull_streams_shadow (s0 : Driver) (ws : List (Nat × Nat))
    (hp : s0.p_ram = 0) (_hws : ∀ w ∈ ws, w.1 < 1024) :
    (∀ (t : Driver) (p v : Nat), t.p_ram = 0 → t.mem p < 256 → v < 256 →
      (ssd1306_ramWrite t p v).mem p = t.mem p ||| v ∧
      (∀ i, i ≠ p → (ssd1306_ramWrite t p v).mem i = t.mem i) ∧
      (ssd1306_ramWrite t p v).bus = t.bus) ∧
    (ssd1306_ramUpdateFull (ramWrites s0 ws)).bus =
      (ramWrites s0 ws).bus ++
        (List.range 1024).flatMap (fun i => dataWriteEvents ((ramWrites s0 ws).mem i)) ++
        [BusEvent.stop] := by
  constructor
  · intro t p v ht hm hv
    refine ⟨?_, ?_, rfl⟩
    · simp only [ssd1306_ramWrite, ht, Nat.zero_add, store_same]
      exact Nat.mod_eq_of_lt (or_byte_lt hm hv)
    · intro i hi
      simp only [ssd1306_ramWrite, ht, Nat.zero_add]
      exact store_other _ _ _ _ hi
  · obtain ⟨hb, _, _⟩ := ramUpdateFull_loop_spec 1024 (ramWrites s0 ws)
    have hp' : (ramWrites s0 ws).p_ram = 0 := by rw [ramWrites_p_ram, hp]
    simp only [ssd1306_ramUpdateFull, i2c_stop, hb, hp', Nat.zero_add]

/-- Witness for C10: two writes on a blank buffer, then the full push. -/
theorem ramUpdateFull_streams_shadow_witness :
    (∀ (t : Driver) (p v : Nat), t.p_ram = 0 → t.mem p < 256 → v < 256 →
      (ssd1306_ramWrite t p v).mem p = t.mem p ||| v ∧
      (∀ i, i ≠ p → (ssd1306_ramWrite t p v).mem i = t.mem i) ∧
      (ssd1306_ramWrite t p v).bus = t.bus) ∧
    (ssd1306_ramUpdateFull (ramWrites ⟨fun _ => 0, 0, []⟩ [(0, 0x81), (1023, 0x18)])).bus =
      (ramWrites ⟨fun _ => 0, 0, []⟩ [(0, 0x81), (1023, 0x18)]).bus ++
        (List.range 1024).flatMap (fun i => dataWriteEvents
          ((ramWrites ⟨fun _ => 0, 0, []⟩ [(0, 0x81), (1023, 0x18)]).mem i)) ++
        [BusEvent.stop] :=
  ramUpdateFull_streams_shadow ⟨fun _ => 0, 0, []⟩ [(0, 0x81), (1023, 0x18)] rfl
    (by
      intro w hw
      simp only [List.mem_cons, List.mem_singleton, List.not_mem_nil, or_false] at hw
      rcases hw with rfl | rfl <;> decide)

/-! ## Simulated display: cursor commands and data streams -/

theorem Display.run_append (d : Display) (a b : List BusEvent) :
    Display.run d (a ++ b) = Display.run (Display.run d a) b := by
  simp [Display.run, List.foldl_append]

/-- After the cursor command the window is `[col,127] × [row,7]`, the cursor
is at its start, and display memory is untouched. -/
theorem run_cursorEvents (d : Display) (col row : Nat) (hc : col ≤ 127) (hr : row ≤ 7) :
    (Display.run d (cursorEvents col row)).col_start = col ∧
    (Display.run d (cursorEvents col row)).col_end = 127 ∧
    (Display.run d (cursorEvents col row)).page_start = row ∧
    (Display.run d (cursorEvents col row)).page_end = 7 ∧
    (Display.run d (cursorEvents col row)).col = col ∧
    (Display.run d (cursorEvents col row)).page = row ∧
    (Display.run d (cursorEvents col row)).gddram = d.gddram := by
  have h1 : col % 128 = col := Nat.mod_eq_of_lt (by omega)
  have h2 : row % 8 = row := Nat.mod_eq_of_lt (by omega)
  simp [cursorEvents, Display.run, Display.step, Display.command, Display.execute,
    Display.argCount, SSD1306_SLAVE_ADDR_W, SSD1306_SLAVE_ADDR, CMD_CTRL_BYTE, h1, h2]

theorem run_dataWriteEvents (d : Display) (v : Nat) :
    Display.run d (dataWriteEvents v) =
      Display.data { d with phase := Phase.data, pending := [] } v := by
  simp [dataWriteEvents, Display.run, Display.step, SSD1306_SLAVE_ADDR_W,
    SSD1306_SLAVE_ADDR, CMD_CTRL_BYTE, DATA_CTRL_BYTE]

theorem run_stop (d : Display) :
    (Display.run d [BusEvent.stop]).gddram = d.gddram := by
  simp [Display.run, Display.step]

/-- Streaming `n ≤ 1024` data writes from the origin of a full window stores
the `k`-th payload in cell `k` and leaves the other cells as they were. -/
theorem run_stream_atOrigin (f : Nat → Nat) (d : Display) (h : d.atOrigin) :
    ∀ n, n ≤ 1024 →
      (Display.run d ((List.range n).flatMap (fun k => dataWriteEvents (f k)))).col_start = 0 ∧
      (Display.run d ((List.range n).flatMap (fun k => dataWriteEvents (f k)))).col_end = 127 ∧
      (Display.run d ((List.range n).flatMap (fun k => dataWriteEvents (f k)))).page_start = 0 ∧
      (Display.run d ((List.range n).flatMap (fun k => dataWriteEvents (f k)))).page_end = 7 ∧
      (Display.run d ((List.range n).flatMap (fun k => dataWriteEvents (f k)))).col = n % 128 ∧
      (Display.run d ((List.range n).flatMap (fun k => dataWriteEvents (f k)))).page
        = n / 128 % 8 ∧
      ∀ i, (Display.run d ((List.range n).flatMap (fun k => dataWriteEvents (f k)))).gddram i
        = if i < n then f i else d.gddram i := by
  intro n
  induction n with
  | zero =>
    intro _
    obtain ⟨h1, h2, h3, h4, h5, h6⟩ := h
    simp [Display.run, h1, h2, h3, h4, h5, h6]
  | succ n ih =>
    intro hn
    obtain ⟨i1, i2, i3, i4, i5, i6, i7⟩ := ih (by omega)
    rw [List.range_succ, List.flatMap_append, Display.run_append]
    simp only [List.flatMap_cons, List.flatMap_nil, List.append_nil]
    rw [run_dataWriteEvents]
    generalize Display.run d ((List.range n).flatMap (fun k => dataWriteEvents (f k))) = e
      at i1 i2 i3 i4 i5 i6 i7
    unfold Display.data
    simp only [i1, i2, i3, i4, i5, i6]
    have hcell : 128 * (n / 128 % 8) + n % 128 = n := by omega
    rw [hcell]
    by_cases hc : n % 128 = 127
    · rw [if_pos hc]
      refine ⟨rfl, rfl, rfl, rfl, ?_, ?_, ?_⟩
      · show 0 = (n + 1) % 128
        omega
      · show (if n / 128 % 8 = 7 then 0 else (n / 128 % 8 + 1) % 8) = (n + 1) / 128 % 8
        split <;> omega
      · intro i
        show store e.gddram n (f n) i = _
        unfold store
        rw [i7]
        by_cases hi : i = n
        · simp [hi]
        · have : i < n + 1 ↔ i < n := by omega
          simp [hi, this]
    · rw [if_neg hc]
      refine ⟨rfl, rfl, rfl, rfl, ?_, ?_, ?_⟩
      · show (n % 128 + 1) % 128 = (n + 1) % 128
        omega
      · show n / 128 % 8 = (n + 1) / 128 % 8
        omega
      · intro i
        show store e.gddram n (f n) i = _
        unfold store
        rw [i7]
        by_cases hi : i = n
        · simp [hi]
        · have : i < n + 1 ↔ i < n := by omega
          simp [hi, this]

/-- With a one-cell window every data write lands in that cell: the window
stays pinned and every other cell keeps its value. -/
theorem run_stream_pinned (f : Nat → Nat) (c p : Nat) :
    ∀ (n : Nat) (d : Display), d.pinned c p →
      (Display.run d ((List.range n).flatMap (fun k => dataWriteEvents (f k)))).pinned c p ∧
      ∀ i, i ≠ 128 * p + c →
        (Display.run d ((List.range n).flatMap (fun k => dataWriteEvents (f k)))).gddram i
          = d.gddram i := by
  intro n
  induction n with
  | zero =>
    intro d h
    exact ⟨by simpa [Display.run] using h, fun i _ => by simp [Display.run]⟩
  | succ n ih =>
    intro d h
    obtain ⟨hp, hg⟩ := ih d h
    rw [List.range_succ, List.flatMap_append, Display.run_append]
    simp only [List.flatMap_cons, List.flatMap_nil, List.append_nil]
    rw [run_dataWriteEvents]
    generalize Display.run d ((List.range n).flatMap (fun k => dataWriteEvents (f k))) = e
      at hp hg
    obtain ⟨h1, h2, h3, h4, h5, h6⟩ := hp
    unfold Display.data
    simp only [h1, h2, h3, h4, h5, h6, if_true]
    refine ⟨⟨rfl, rfl, rfl, rfl, rfl, rfl⟩, ?_⟩
    intro i hi
    show store e.gddram (128 * p + c) (f n) i = _
    rw [store_other _ _ _ _ hi]
    exact hg i hi

/-! ## Whole-display operations on the bus -/

theorem moveCursor_bus (s : Driver) (col row : Nat) :
    (ssd1306_displayMoveCursor s col row).bus = s.bus ++ cursorEvents col row := by
  simp [ssd1306_displayMoveCursor, i2c_start, i2c_stop, i2c_request, i2c_write, cursorEvents]

theorem moveCursor_mem (s : Driver) (col row : Nat) :
    (ssd1306_displayMoveCursor s col row).mem = s.mem := by
  simp [ssd1306_displayMoveCursor, i2c_start, i2c_stop, i2c_request, i2c_write]

theorem moveCursor_p_ram (s : Driver) (col row : Nat) :
    (ssd1306_displayMoveCursor s col row).p_ram = s.p_ram := by
  simp [ssd1306_displayMoveCursor, i2c_start, i2c_stop, i2c_request, i2c_write]

theorem drawBitmap_loop_spec (bitmap : Nat → Nat) (n : Nat) :
    ∀ (i : Nat) (s : Driver),
      (drawBitmap_loop n i bitmap s).bus =
        s.bus ++ (List.range n).flatMap (fun k => dataWriteEvents (bitmap (i + k))) ∧
      (drawBitmap_loop n i bitmap s).mem = s.mem ∧
      (drawBitmap_loop n i bitmap s).p_ram = s.p_ram := by
  induction n with
  | zero =>
    intro i s
    simp [drawBitmap_loop]
  | succ n ih =>
    intro i s
    obtain ⟨hb, hm, hp⟩ := ih (i + 1)
      (i2c_write (i2c_write (i2c_request (i2c_start s) SSD1306_SLAVE_ADDR_W) DATA_CTRL_BYTE)
        (bitmap i))
    refine ⟨?_, ?_, ?_⟩
    · rw [drawBitmap_loop, hb, List.range_succ_eq_map, List.flatMap_cons, List.flatMap_map]
      simp only [i2c_start, i2c_request, i2c_write, dataWriteEvents, Nat.add_zero,
        List.append_assoc, List.cons_append, List.nil_append, List.singleton_append,
        Nat.succ_eq_add_one]
      congr 6
      funext k
      rw [Nat.add_assoc, Nat.add_comm 1 k]
    · rw [drawBitmap_loop, hm]
      rfl
    · rw [drawBitmap_loop, hp]
      rfl

theorem displayClear_loop_spec (n : Nat) :
    ∀ (s : Driver),
      (displayClear_loop n s).bus =
        s.bus ++ (List.range n).flatMap (fun _ => dataWriteEvents 0x00) ∧
      (displayClear_loop n s).mem = s.mem ∧
      (displayClear_loop n s).p_ram = s.p_ram := by
  induction n with
  | zero =>
    intro s
    simp [displayClear_loop]
  | succ n ih =>
    intro s
    obtain ⟨hb, hm, hp⟩ := ih
      (i2c_write (i2c_write (i2c_request (i2c_start s) SSD1306_SLAVE_ADDR_W) DATA_CTRL_BYTE)
        0x00)
    refine ⟨?_, ?_, ?_⟩
    · rw [displayClear_loop, hb, List.range_succ_eq_map, List.flatMap_cons, List.flatMap_map]
      simp only [i2c_start, i2c_request, i2c_write, dataWriteEvents,
        List.append_assoc, List.cons_append, List.nil_append, List.singleton_append]
    · rw [displayClear_loop, hm]
      rfl
    · rw [displayClear_loop, hp]
      rfl

theorem cursorEvents_atOrigin (d : Display) : (Display.run d (cursorEvents 0 0)).atOrigin := by
  obtain ⟨h1, h2, h3, h4, h5, h6, _⟩ := run_cursorEvents d 0 0 (by decide) (by decide)
  exact ⟨h1, h2, h3, h4, h5, h6⟩

/-- A cursor command to the origin followed by 1024 data writes and a stop
fills the display memory with the payloads, whatever the display state was. -/
theorem run_origin_stream (d : Display) (f : Nat → Nat) :
    ∀ i, i < 1024 →
      (Display.run d (cursorEvents 0 0 ++
        (List.range 1024).flatMap (fun k => dataWriteEvents (f k)) ++
        [BusEvent.stop])).gddram i = f i := by
  intro i hi
  rw [Display.run_append, Display.run_append, run_stop]
  obtain ⟨_, _, _, _, _, _, hg⟩ :=
    run_stream_atOrigin f (Display.run d (cursorEvents 0 0)) (cursorEvents_atOrigin d) 1024
      (le_refl _)
  rw [hg i, if_pos hi]

/-- C14: for every image, `drawBitmap(image)` first issues the cursor command
for column 0, page 0 (which leaves the column range [0,127] and the page range
[0,7]), then exactly 1024 data writes, each introduced by 0x40, with payloads
`image[0..1023]` in order, then one stop; the shadow buffer (and `p_ram`) is
not modified. On the simulated display the image ends up in display memory. -/
theorem drawBitmap_streams_image (s : Driver) (image : Nat → Nat) :
    (ssd1306_drawBitmap s image).bus =
      s.bus ++ cursorEvents 0 0 ++
        (List.range 1024).flatMap (fun i => dataWriteEvents (image i)) ++ [BusEvent.stop] ∧
    (∀ d : Display, (Display.run d (cursorEvents 0 0)).atOrigin) ∧
    (ssd1306_drawBitmap s image).mem = s.mem ∧
    (ssd1306_drawBitmap s image).p_ram = s.p_ram ∧
    ∀ (d : Display) (i : Nat), i < 1024 →
      (Display.run d (emitted s (ssd1306_drawBitmap s image))).gddram i = image i := by
  obtain ⟨hb, hm, hp⟩ := drawBitmap_loop_spec image 1024 0 (ssd1306_displayMoveCursor s 0 0)
  have hbus : (ssd1306_drawBitmap s image).bus =
      s.bus ++ cursorEvents 0 0 ++
        (List.range 1024).flatMap (fun i => dataWriteEvents (image i)) ++ [BusEvent.stop] := by
    simp only [ssd1306_drawBitmap, i2c_stop, hb, moveCursor_bus, Nat.zero_add]
  refine ⟨hbus, cursorEvents_atOrigin, ?_, ?_, ?_⟩
  · simp only [ssd1306_drawBitmap, i2c_stop, hm, moveCursor_mem]
  · simp only [ssd1306_drawBitmap, i2c_stop, hp, moveCursor_p_ram]
  · intro d i hi
    have he : emitted s (ssd1306_drawBitmap s image) =
        cursorEvents 0 0 ++ (List.range 1024).flatMap (fun i => dataWriteEvents (image i)) ++
          [BusEvent.stop] := by
      simp [emitted, hbus, List.append_assoc]
    rw [he]
    exact run_origin_stream d image i hi

/-- C15: for `dir` in {RIGHT = 0, LEFT = 1} and enumeration values `freq`,
`page_start`, `page_end`, `displayScrollHorizontal` emits one start, the write
address 0x78, the bytes `[0x00, 0x26|dir, 0x00, page_start, freq, page_end,
0x00, 0xFF]` and one stop; for (LEFT, FRAME_25, PAGE0, PAGE7) the bytes are
`[0x00, 0x27, 0x00, 0x00, 0x06, 0x07, 0x00, 0xFF]`. -/
theorem displayScrollHorizontal_bytes (s : Driver) (dir freq page_start page_end : Nat)
    (hd : dir ≤ 1) (hf : freq ≤ 7) (hs : page_start ≤ 7) (he : page_end ≤ 7) :
    (ssd1306_displayScrollHorizontal s dir freq page_start page_end).bus =
      s.bus ++ [BusEvent.start, BusEvent.request 0x78, BusEvent.write 0x00,
        BusEvent.write (0x26 ||| dir), BusEvent.write 0x00, BusEvent.write page_start,
        BusEvent.write freq, BusEvent.write page_end, BusEvent.write 0x00,
        BusEvent.write 0xFF, BusEvent.stop] ∧
    (ssd1306_displayScrollHorizontal s LEFT FRAME_25 PAGE0 PAGE7).bus =
      s.bus ++ [BusEvent.start, BusEvent.request 0x78, BusEvent.write 0x00,
        BusEvent.write 0x27, BusEvent.write 0x00, BusEvent.write 0x00,
        BusEvent.write 0x06, BusEvent.write 0x07, BusEvent.write 0x00,
        BusEvent.write 0xFF, BusEvent.stop] := by
  have h1 : (0x26 ||| dir) % 256 = 0x26 ||| dir := by
    interval_cases dir <;> rfl
  have h2 : freq % 256 = freq := Nat.mod_eq_of_lt (by omega)
  have h3 : page_start % 256 = page_start := Nat.mod_eq_of_lt (by omega)
  have h4 : page_end % 256 = page_end := Nat.mod_eq_of_lt (by omega)
  constructor
  · simp [ssd1306_displayScrollHorizontal, i2c_start, i2c_stop, i2c_request, i2c_write,
      SSD1306_SLAVE_ADDR_W, SSD1306_SLAVE_ADDR, CMD_CTRL_BYTE, h1, h2, h3, h4]
  · simp [ssd1306_displayScrollHorizontal, i2c_start, i2c_stop, i2c_request, i2c_write,
      SSD1306_SLAVE_ADDR_W, SSD1306_SLAVE_ADDR, CMD_CTRL_BYTE, LEFT, FRAME_25, PAGE0, PAGE7]

/-- Witness for C15: scrolling right at `FRAME_25` over pages 2 to 5. -/
theorem displayScrollHorizontal_bytes_witness :
    (ssd1306_displayScrollHorizontal blankDriver RIGHT FRAME_25 2 5).bus =
      blankDriver.bus ++ [BusEvent.start, BusEvent.request 0x78, BusEvent.write 0x00,
        BusEvent.write (0x26 ||| RIGHT), BusEvent.write 0x00, BusEvent.write 2,
        BusEvent.write FRAME_25, BusEvent.write 5, BusEvent.write 0x00,
        BusEvent.write 0xFF, BusEvent.stop] ∧
    (ssd1306_displayScrollHorizontal blankDriver LEFT FRAME_25 PAGE0 PAGE7).bus =
      blankDriver.bus ++ [BusEvent.start, BusEvent.request 0x78, BusEvent.write 0x00,
        BusEvent.write 0x27, BusEvent.write 0x00, BusEvent.write 0x00,
        BusEvent.write 0x06, BusEvent.write 0x07, BusEvent.write 0x00,
        BusEvent.write 0xFF, BusEvent.stop] :=
  displayScrollHorizontal_bytes blankDriver RIGHT FRAME_25 2 5 (by decide) (by decide)
    (by decide) (by decide)

/-! ## Full-buffer push and the address window -/

theorem cursorDataEvents_eq (col row v : Nat) :
    cursorDataEvents col row v = cursorEvents col row ++ dataWriteEvents v ++ [BusEvent.stop] := by
  simp [cursorDataEvents, cursorEvents, dataWriteEvents]

/-- After `drawPixel(127, 63)` the window of the display is the single cell
(127, 7) and only that cell may have changed. -/
theorem run_cursorDataEvents_corner (d : Display) (v : Nat) :
    (Display.run d (cursorDataEvents 127 7 v)).pinned 127 7 ∧
    ∀ i, i ≠ 128 * 7 + 127 → (Display.run d (cursorDataEvents 127 7 v)).gddram i = d.gddram i := by
  obtain ⟨h1, h2, h3, h4, h5, h6, h7⟩ := run_cursorEvents d 127 7 (by decide) (by decide)
  rw [cursorDataEvents_eq, Display.run_append, Display.run_append, run_dataWriteEvents]
  generalize Display.run d (cursorEvents 127 7) = e at h1 h2 h3 h4 h5 h6 h7
  unfold Display.data
  simp only [h1, h2, h3, h4, h5, h6, h7, if_true]
  constructor
  · simp [Display.run, Display.step, Display.pinned]
  · intro i hi
    simp only [Display.run, Display.step, List.foldl_cons, List.foldl_nil]
    exact store_other _ _ _ _ hi

theorem ramUpdateFull_bus (s : Driver) :
    (ssd1306_ramUpdateFull s).bus =
      s.bus ++ (List.range 1024).flatMap (fun k => dataWriteEvents (s.mem (s.p_ram + k))) ++
        [BusEvent.stop] := by
  obtain ⟨hb, _, _⟩ := ramUpdateFull_loop_spec 1024 s
  simp only [ssd1306_ramUpdateFull, i2c_stop, hb]

theorem ramUpdateFull_mem (s : Driver) : (ssd1306_ramUpdateFull s).mem = s.mem := by
  obtain ⟨_, hm, _⟩ := ramUpdateFull_loop_spec 1024 s
  simp only [ssd1306_ramUpdateFull, i2c_stop, hm]

/-- C11 (the code at the failing input): on a blank driver and display,
`drawPixel(127,63)` leaves the address window at the single cell (127,7);
after the shadow-only edit `ramWrite(0, 1)`, `ramUpdateFull` (which issues no
cursor command) sends all 1024 bytes into that one cell: shadow byte 0 is 1
while display byte 0 is still 0. -/
theorem ramUpdateFull_keeps_stale_window :
    (ssd1306_ramWrite (ssd1306_drawPixel blankDriver 127 63) 0 1).p_ram = 0 ∧
    (ssd1306_ramUpdateFull (ssd1306_ramWrite (ssd1306_drawPixel blankDriver 127 63) 0 1)).mem 0
      = 1 ∧
    (Display.run blankDisplay
      (ssd1306_ramUpdateFull
        (ssd1306_ramWrite (ssd1306_drawPixel blankDriver 127 63) 0 1)).bus).gddram 0 = 0 := by
  have hp : (ssd1306_ramWrite (ssd1306_drawPixel blankDriver 127 63) 0 1).p_ram = 0 := by
    rw [ramWrite_p_ram, drawPixel_p_ram]
    rfl
  have hbus : (ssd1306_ramWrite (ssd1306_drawPixel blankDriver 127 63) 0 1).bus =
      cursorDataEvents 127 7 ((blankDriver.mem (blankDriver.p_ram + (127 + 128 * (63 / 8)))
        ||| (1 <<< (63 % 8))) % 256) := by
    show (ssd1306_drawPixel blankDriver 127 63).bus = _
    rw [drawPixel_bus blankDriver 127 63 (by decide) (by decide)]
    rfl
  refine ⟨hp, ?_, ?_⟩
  · rw [ramUpdateFull_mem]
    simp only [ssd1306_ramWrite, drawPixel_p_ram,
      drawPixel_mem blankDriver 127 63 (by decide) (by decide)]
    simp [blankDriver, store]
  · rw [ramUpdateFull_bus, hbus, Display.run_append, Display.run_append, run_stop]
    obtain ⟨hpin, hg⟩ := run_cursorDataEvents_corner blankDisplay
      ((blankDriver.mem (blankDriver.p_ram + (127 + 128 * (63 / 8)))
        ||| (1 <<< (63 % 8))) % 256)
    obtain ⟨_, hg'⟩ := run_stream_pinned
      (fun k => (ssd1306_ramWrite (ssd1306_drawPixel blankDriver 127 63) 0 1).mem
        ((ssd1306_ramWrite (ssd1306_drawPixel blankDriver 127 63) 0 1).p_ram + k))
      127 7 1024 _ hpin
    rw [hg' 0 (by decide), hg 0 (by decide)]
    rfl

/-! ## Shadow-only operations -/

theorem ramClear_loop_spec (n : Nat) :
    ∀ s : Driver,
      (ramClear_loop n s).p_ram = s.p_ram + n ∧
      (ramClear_loop n s).bus = s.bus ∧
      ∀ i, (ramClear_loop n s).mem i =
        if s.p_ram ≤ i ∧ i < s.p_ram + n then 0 else s.mem i := by
  induction n with
  | zero =>
    intro s
    refine ⟨rfl, rfl, fun i => ?_⟩
    have : ¬ (s.p_ram ≤ i ∧ i < s.p_ram) := by omega
    simp [ramClear_loop, this]
  | succ n ih =>
    intro s
    obtain ⟨hp, hb, hm⟩ := ih { s with mem := store s.mem s.p_ram 0x00, p_ram := s.p_ram + 1 }
    refine ⟨?_, ?_, ?_⟩
    · rw [ramClear_loop, hp]
      simp only
      omega
    · rw [ramClear_loop, hb]
    · intro i
      rw [ramClear_loop, hm]
      simp only [store]
      split_ifs <;> first | rfl | (exfalso; omega)

theorem ramClear_bus (s : Driver) : (ssd1306_ramClear s).bus = s.bus ++ cursorEvents 0 0 := by
  obtain ⟨_, hb, _⟩ := ramClear_loop_spec 1024 (ssd1306_displayMoveCursor s 0 0)
  rw [ssd1306_ramClear, hb, moveCursor_bus]

theorem ramClear_p_ram (s : Driver) : (ssd1306_ramClear s).p_ram = s.p_ram + 1024 := by
  obtain ⟨hp, _, _⟩ := ramClear_loop_spec 1024 (ssd1306_displayMoveCursor s 0 0)
  rw [ssd1306_ramClear, hp, moveCursor_p_ram]

theorem ramClear_mem (s : Driver) (i : Nat) :
    (ssd1306_ramClear s).mem i = if s.p_ram ≤ i ∧ i < s.p_ram + 1024 then 0 else s.mem i := by
  obtain ⟨_, _, hm⟩ := ramClear_loop_spec 1024 (ssd1306_displayMoveCursor s 0 0)
  rw [ssd1306_ramClear, hm, moveCursor_p_ram, moveCursor_mem]

/-- C12 (counterexample): on a blank driver `ramClear` emits the ten bus
events of the cursor command `moveCursor(0,0)`. -/
theorem ramClear_emits_cursor_command :
    (ssd1306_ramClear blankDriver).bus = cursorEvents 0 0 ∧
    (ssd1306_ramClear blankDriver).bus ≠ blankDriver.bus := by
  have h : (ssd1306_ramClear blankDriver).bus = cursorEvents 0 0 := by
    rw [ramClear_bus]
    rfl
  refine ⟨h, ?_⟩
  rw [h]
  simp [cursorEvents, blankDriver]

/-- C12 (amended): `ramWrite` emits no bus event; `ramClear` emits exactly the
command transaction of `moveCursor(0,0)` and no data write, so on the display
the memory is left exactly as it was (the address window and cursor are reset
to the origin). -/
theorem ramWrite_ramClear_bus_effect :
    (∀ (s : Driver) (p v : Nat), (ssd1306_ramWrite s p v).bus = s.bus) ∧
    (∀ s : Driver, (ssd1306_ramClear s).bus = s.bus ++ cursorEvents 0 0) ∧
    (∀ d : Display, (Display.run d (cursorEvents 0 0)).gddram = d.gddram ∧
      (Display.run d (cursorEvents 0 0)).atOrigin) := by
  refine ⟨fun _ _ _ => rfl, ramClear_bus, fun d => ⟨?_, cursorEvents_atOrigin d⟩⟩
  exact (run_cursorEvents d 0 0 (by decide) (by decide)).2.2.2.2.2.2

/-- C13 (the code at the failing input): from memory filled with 0xFF and
`p_ram` at the buffer base, `ramClear()` zeroes the shadow buffer and leaves
`p_ram` 1024 bytes further; `ramWrite(0, 1)` then writes to byte 1024, so
shadow byte 0 stays 0, and `ramUpdateFull()` pushes the 1024 bytes that follow
the shadow buffer: every payload is 0xFF instead of `1, 0, 0, ...`. -/
theorem ramClear_ramWrite_ramUpdateFull_past_buffer :
    (ssd1306_ramClear filledDriver).p_ram = 1024 ∧
    (ssd1306_ramWrite (ssd1306_ramClear filledDriver) 0 1).mem 0 = 0 ∧
    (ssd1306_ramUpdateFull (ssd1306_ramWrite (ssd1306_ramClear filledDriver) 0 1)).bus =
      cursorEvents 0 0 ++ (List.range 1024).flatMap (fun _ => dataWriteEvents 0xFF) ++
        [BusEvent.stop] := by
  have hp : (ssd1306_ramClear filledDriver).p_ram = 1024 := by
    rw [ramClear_p_ram]
    rfl
  have hm : ∀ i, (ssd1306_ramWrite (ssd1306_ramClear filledDriver) 0 1).mem i =
      if i < 1024 then 0 else 0xFF := by
    intro i
    simp only [ssd1306_ramWrite, hp, Nat.add_zero, store, ramClear_mem]
    by_cases h : i = 1024
    · subst h
      simp [filledDriver]
    · by_cases h2 : i < 1024
      · simp [filledDriver, h, h2]
      · simp [filledDriver, h, h2]
  refine ⟨hp, ?_, ?_⟩
  · rw [hm 0]
    rfl
  · have hb : (ssd1306_ramWrite (ssd1306_ramClear filledDriver) 0 1).bus = cursorEvents 0 0 := by
      rw [ramWrite_bus, ramClear_bus]
      simp [filledDriver]
    have hf : (fun k => dataWriteEvents
        ((ssd1306_ramWrite (ssd1306_ramClear filledDriver) 0 1).mem (1024 + k))) =
        fun _ => dataWriteEvents 0xFF := by
      funext k
      rw [hm (1024 + k), if_neg (by omega)]
    rw [ramUpdateFull_bus, ramWrite_p_ram, hp, hb, hf]

/-! ## Off-display coordinates -/

/-- C19 (counterexample): `drawPixel` is not a no-op off the display. With
`x = 128` it changes shadow byte 128; with `y = 64` it writes byte 1024, one
past the shadow buffer; and it emits its bus events. -/
theorem drawPixel_off_display_not_noop :
    (ssd1306_drawPixel blankDriver 128 0).mem 128 = 1 ∧ blankDriver.mem 128 = 0 ∧
    (ssd1306_drawPixel blankDriver 0 64).mem 1024 = 1 ∧ blankDriver.mem 1024 = 0 ∧
    (ssd1306_drawPixel blankDriver 0 64).bus ≠ blankDriver.bus := by
  refine ⟨?_, rfl, ?_, rfl, ?_⟩
  · rw [drawPixel_mem blankDriver 128 0 (by decide) (by decide)]
    simp [blankDriver, store]
  · rw [drawPixel_mem blankDriver 0 64 (by decide) (by decide)]
    simp [blankDriver, store]
  · rw [drawPixel_bus blankDriver 0 64 (by decide) (by decide)]
    simp [blankDriver, cursorDataEvents]

/-- C19 (amended): `drawPixel` performs no bounds check. For every 8-bit
`(x, y)`, on or off the display, it emits the cursor command for column `x`,
page `y / 8` and one data write, and ORs bit `y % 8` into the byte at offset
`x + 128*(y/8)` from `p_ram`, leaving every other byte unchanged; that offset
is at least 1024 whenever `y > 63`. -/
theorem drawPixel_unchecked (s : Driver) (x y : Nat) (hx : x ≤ 255) (hy : y ≤ 255) :
    (ssd1306_drawPixel s x y).bus = s.bus ++ cursorDataEvents x (y / 8)
      ((s.mem (s.p_ram + (x + 128 * (y / 8))) ||| (1 <<< (y % 8))) % 256) ∧
    (ssd1306_drawPixel s x y).mem (s.p_ram + (x + 128 * (y / 8)))
      = (s.mem (s.p_ram + (x + 128 * (y / 8))) ||| (1 <<< (y % 8))) % 256 ∧
    (∀ i, i ≠ s.p_ram + (x + 128 * (y / 8)) → (ssd1306_drawPixel s x y).mem i = s.mem i) ∧
    (63 < y → 1024 ≤ x + 128 * (y / 8)) := by
  refine ⟨drawPixel_bus s x y hx hy, ?_, ?_, fun h => by omega⟩
  · rw [drawPixel_mem s x y hx hy, store_same]
  · intro i hi
    rw [drawPixel_mem s x y hx hy, store_other _ _ _ _ hi]

/-- Witness for C19 (amended): the off-display pixel (200, 70). -/
theorem drawPixel_unchecked_witness :
    (ssd1306_drawPixel blankDriver 200 70).bus = blankDriver.bus ++ cursorDataEvents 200 (70 / 8)
      ((blankDriver.mem (blankDriver.p_ram + (200 + 128 * (70 / 8))) ||| (1 <<< (70 % 8))) % 256) ∧
    (ssd1306_drawPixel blankDriver 200 70).mem (blankDriver.p_ram + (200 + 128 * (70 / 8)))
      = (blankDriver.mem (blankDriver.p_ram + (200 + 128 * (70 / 8))) ||| (1 <<< (70 % 8))) % 256 ∧
    (∀ i, i ≠ blankDriver.p_ram + (200 + 128 * (70 / 8)) →
      (ssd1306_drawPixel blankDriver 200 70).mem i = blankDriver.mem i) ∧
    (63 < 70 → 1024 ≤ 200 + 128 * (70 / 8)) :=
  drawPixel_unchecked blankDriver 200 70 (by decide) (by decide)

/-! ## Initialisation -/

theorem foldl_i2c_write (bytes : List Nat) :
    ∀ s : Driver, (bytes.foldl i2c_write s).bus = s.bus ++ bytes.map BusEvent.write ∧
      (bytes.foldl i2c_write s).mem = s.mem ∧ (bytes.foldl i2c_write s).p_ram = s.p_ram := by
  induction bytes with
  | nil =>
    intro s
    simp
  | cons b bs ih =>
    intro s
    obtain ⟨hb, hm, hp⟩ := ih (i2c_write s b)
    refine ⟨?_, ?_, ?_⟩
    · rw [List.foldl_cons, hb]
      simp [i2c_write]
    · rw [List.foldl_cons, hm]
      simp [i2c_write]
    · rw [List.foldl_cons, hp]
      simp [i2c_write]

theorem displayClear_spec (s : Driver) :
    (ssd1306_displayClear s).bus = s.bus ++ cursorEvents 0 0 ++
      (List.range 1024).flatMap (fun _ => dataWriteEvents 0x00) ++ [BusEvent.stop] ∧
    (ssd1306_displayClear s).mem = s.mem ∧ (ssd1306_displayClear s).p_ram = s.p_ram := by
  obtain ⟨hb, hm, hp⟩ := displayClear_loop_spec 1024 (ssd1306_displayMoveCursor s 0 0)
  refine ⟨?_, ?_, ?_⟩
  · simp only [ssd1306_displayClear, i2c_stop, hb, moveCursor_bus]
  · simp only [ssd1306_displayClear, i2c_stop, hm, moveCursor_mem]
  · simp only [ssd1306_displayClear, i2c_stop, hp, moveCursor_p_ram]

theorem init_spec (s : Driver) :
    (ssd1306_init s).bus = s.bus ++ initEvents ++ cursorEvents 0 0 ++
      (List.range 1024).flatMap (fun _ => dataWriteEvents 0x00) ++ [BusEvent.stop] ∧
    (ssd1306_init s).mem = s.mem ∧ (ssd1306_init s).p_ram = s.p_ram := by
  obtain ⟨hb, hm, hp⟩ := foldl_i2c_write initCommandBytes
    (i2c_write (i2c_request (i2c_start s) SSD1306_SLAVE_ADDR_W) CMD_CTRL_BYTE)
  obtain ⟨cb, cm, cp⟩ := displayClear_spec (i2c_stop (initCommandBytes.foldl i2c_write
    (i2c_write (i2c_request (i2c_start s) SSD1306_SLAVE_ADDR_W) CMD_CTRL_BYTE)))
  refine ⟨?_, ?_, ?_⟩
  · simp only [ssd1306_init]
    rw [cb]
    simp only [i2c_stop, hb]
    simp only [i2c_write, i2c_request, i2c_start, initEvents, List.append_assoc,
      List.cons_append, List.nil_append, List.singleton_append]
  · simp only [ssd1306_init]
    rw [cm]
    simp only [i2c_stop, hm]
    simp only [i2c_write, i2c_request, i2c_start]
  · simp only [ssd1306_init]
    rw [cp]
    simp only [i2c_stop, hp]
    simp only [i2c_write, i2c_request, i2c_start]

theorem run_origin_stream_const (d : Display) (c : Nat) :
    ∀ i, i < 1024 →
      (Display.run d (cursorEvents 0 0 ++
        (List.range 1024).flatMap (fun _ => dataWriteEvents c) ++
        [BusEvent.stop])).gddram i = c := by
  intro i hi
  obtain ⟨z, hz⟩ : ∃ z : Nat → Nat, z = fun _ => c := ⟨_, rfl⟩
  have hf : (fun _ : Nat => dataWriteEvents c) = fun k => dataWriteEvents (z k) := by
    rw [hz]
  rw [hf, run_origin_stream d z i hi, hz]

/-- C20 (counterexample): with the memory filled with 0xFF before the call,
shadow byte 0 is still 0xFF after `init()`. -/
theorem init_keeps_shadow_content :
    (ssd1306_init filledDriver).mem 0 = 0xFF ∧ (ssd1306_init filledDriver).mem 0 ≠ 0x00 := by
  have h : (ssd1306_init filledDriver).mem 0 = 0xFF := by
    rw [(init_spec filledDriver).2.1]
    rfl
  exact ⟨h, by rw [h]; decide⟩

/-- C20 (amended): `init()` leaves the shadow buffer (and `p_ram`) unchanged.
After its command transaction it ends with `displayClear`: the cursor command
for column 0, page 0, then 1024 data payloads 0x00 and one stop, so every byte
of the display memory is 0x00 afterwards, whatever the display state was; the
display then equals the shadow buffer when the shadow buffer was all zero
before the call. -/
theorem init_clears_display_only (s : Driver) :
    (ssd1306_init s).mem = s.mem ∧ (ssd1306_init s).p_ram = s.p_ram ∧
    (ssd1306_init s).bus = s.bus ++ initEvents ++ cursorEvents 0 0 ++
      (List.range 1024).flatMap (fun _ => dataWriteEvents 0x00) ++ [BusEvent.stop] ∧
    (∀ (d : Display) (i : Nat), i < 1024 →
      (Display.run d (emitted s (ssd1306_init s))).gddram i = 0x00) ∧
    (∀ d : Display, (∀ i, i < 1024 → s.mem i = 0x00) →
      Lockstep (ssd1306_init s) (Display.run d (emitted s (ssd1306_init s)))) := by
  obtain ⟨hb, hm, hp⟩ := init_spec s
  have hd : ∀ (d : Display) (i : Nat), i < 1024 →
      (Display.run d (emitted s (ssd1306_init s))).gddram i = 0x00 := by
    intro d i hi
    have he : emitted s (ssd1306_init s) = initEvents ++ (cursorEvents 0 0 ++
        (List.range 1024).flatMap (fun _ => dataWriteEvents 0x00) ++ [BusEvent.stop]) := by
      simp [emitted, hb, List.append_assoc]
    rw [he, Display.run_append]
    exact run_origin_stream_const (Display.run d initEvents) 0x00 i hi
  refine ⟨hm, hp, hb, hd, ?_⟩
  intro d hz i hi
  rw [hd d i hi, hm, hz i hi]

/-! ## Burst read -/

theorem Received.refl (s : I2C) : Received s s 0 := by
  refine ⟨rfl, rfl, rfl, fun i => ?_⟩
  simp

theorem Received.emit {s0 s : I2C} {j : Nat} (h : Received s0 s j) (e : RegEvent) :
    Received s0 (s.emit e) j := h

theorem Received.ack_bit {s0 s : I2C} {j : Nat} (h : Received s0 s j) (a : Nat) :
    Received s0 (Reg.i2c_ack_bit s a) j := by
  unfold Reg.i2c_ack_bit
  split
  · exact h.emit _
  · exact h.emit _

theorem Received.stop {s0 s : I2C} {j : Nat} (h : Received s0 s j) :
    Received s0 (Reg.i2c_stop s) j := h.emit _

theorem Received.storeDR {s0 s : I2C} {j : Nat} (h : Received s0 s j)
    (hbytes : ∀ k, s0.dr k < 256) : Received s0 (s.storeDR j) (j + 1) := by
  obtain ⟨h1, h2, h3, h4⟩ := h
  refine ⟨h1, h2, ?_, ?_⟩
  · show s.dr_reads + 1 = _
    omega
  · intro i
    show store s.buf j (s.dr s.dr_reads % 256) i = _
    rw [h2, h3, Nat.mod_eq_of_lt (hbytes _)]
    unfold store
    by_cases hi : i = j
    · subst hi
      simp
    · rw [if_neg hi, h4 i]
      by_cases hlt : i < j
      · have : i < j + 1 := by omega
        simp [hlt, this]
      · have : ¬ i < j + 1 := by omega
        simp [hlt, this]

/-- A status poll whose flag shows up within the budget returns, having read
only the status register. -/
theorem waitFlag_received (mask : Nat) (s0 : I2C) (j : Nat) :
    ∀ (polls : Nat) (s : I2C), Received s0 s j →
      (∃ n, n < polls ∧ s0.sr1 (s.sr1_reads + n) &&& mask ≠ 0) →
      ∃ s', waitFlag polls mask s = Outcome.done s' ∧ Received s0 s' j := by
  intro polls
  induction polls with
  | zero =>
    intro s _ h
    obtain ⟨n, hn, _⟩ := h
    omega
  | succ polls ih =>
    intro s hr h
    by_cases hflag : s.sr1 s.sr1_reads &&& mask ≠ 0
    · refine ⟨s.readSR1.2, ?_, hr⟩
      simp [waitFlag, I2C.readSR1, hflag]
    · obtain ⟨n, hn, hset⟩ := h
      have hn0 : n ≠ 0 := by
        intro h0
        subst h0
        rw [← hr.1] at hset
        exact hflag hset
      obtain ⟨s', hrun, hr'⟩ := ih s.readSR1.2 hr ⟨n - 1, by omega, by
        have : s.readSR1.2.sr1_reads + (n - 1) = s.sr1_reads + n := by
          show s.sr1_reads + 1 + (n - 1) = _
          omega
        rw [this]
        exact hset⟩
      refine ⟨s', ?_, hr'⟩
      rw [waitFlag]
      simp only [I2C.readSR1] at hrun ⊢
      rw [if_neg hflag]
      exact hrun

theorem waitFlag_ready (mask polls : Nat) (s0 s : I2C) (j : Nat) (hr : Received s0 s j)
    (hready : Ready s0 polls mask) :
    ∃ s', waitFlag polls mask s = Outcome.done s' ∧ Received s0 s' j :=
  waitFlag_received mask s0 j polls s hr (hready s.sr1_reads)

/-- The receive loop of `i2c_read_burst` stores one byte per iteration and
exits with three bytes left. -/
theorem read_burst_loop_received (polls : Nat) (s0 : I2C)
    (hrx : Ready s0 polls I2C_SR1_RXNE) (hbytes : ∀ k, s0.dr k < 256) :
    ∀ (fuel i j : Nat) (s : I2C), Received s0 s j → 3 ≤ i → i ≤ 255 → i - 3 < fuel →
      j + (i - 3) ≤ 255 →
      ∃ s', read_burst_loop polls fuel i j s = Outcome.done (s', j + (i - 3)) ∧
        Received s0 s' (j + (i - 3)) := by
  intro fuel
  induction fuel with
  | zero =>
    intro i j s _ _ _ hf _
    omega
  | succ fuel ih =>
    intro i j s hr h3 h255 hf hj
    by_cases hi : i = 3
    · subst hi
      exact ⟨s, by simp [read_burst_loop], by simpa using hr⟩
    · obtain ⟨s1, hw, hr1⟩ := waitFlag_ready I2C_SR1_RXNE polls s0 s j hr hrx
      have hi' : (i + 255) % 256 = i - 1 := by omega
      have hj' : (j + 1) % 256 = j + 1 := by omega
      obtain ⟨s', hrun, hr'⟩ := ih (i - 1) (j + 1) (s1.storeDR j) (hr1.storeDR hbytes)
        (by omega) (by omega) (by omega) (by omega)
      have he : j + 1 + (i - 1 - 3) = j + (i - 3) := by omega
      rw [he] at hrun hr'
      refine ⟨s', ?_, hr'⟩
      rw [read_burst_loop, if_pos hi, hw]
      simp only [Outcome.andThen, hi', hj']
      exact hrun

theorem i2c_read_received (polls : Nat) (s0 s : I2C) (j : Nat) (hr : Received s0 s j)
    (hrx : Ready s0 polls I2C_SR1_RXNE) (hbytes : ∀ k, s0.dr k < 256) :
    ∃ q, Reg.i2c_read polls s = Outcome.done q ∧
      Received s0 { q.1 with buf := store q.1.buf j q.2 } (j + 1) := by
  obtain ⟨s1, hw, hr1⟩ := waitFlag_ready I2C_SR1_RXNE polls s0 _ j
    (((hr.ack_bit NACK).emit RegEvent.clearADDR).stop) hrx
  refine ⟨(s1.readDR.2, s1.readDR.1 % 256), ?_, hr1.storeDR hbytes⟩
  simp only [Reg.i2c_read, hw, Outcome.andThen]

theorem sequentialReads_received (polls : Nat) (s0 : I2C)
    (hrx : Ready s0 polls I2C_SR1_RXNE) (hbytes : ∀ k, s0.dr k < 256) :
    ∀ (n j : Nat) (s : I2C), Received s0 s j →
      ∃ s', sequentialReads polls n j s = Outcome.done s' ∧ Received s0 s' (j + n) := by
  intro n
  induction n with
  | zero =>
    intro j s hr
    exact ⟨s, rfl, hr⟩
  | succ n ih =>
    intro j s hr
    obtain ⟨q, hq, hr1⟩ := i2c_read_received polls s0 s j hr hrx hbytes
    obtain ⟨s', hrun, hr'⟩ := ih (j + 1) _ hr1
    have he : j + 1 + n = j + (n + 1) := by omega
    rw [he] at hr'
    refine ⟨s', ?_, hr'⟩
    rw [sequentialReads, hq]
    simp only [Outcome.andThen]
    exact hrun

theorem read_burst_received (polls count : Nat) (s : I2C)
    (hcount : count = 2 ∨ (3 ≤ count ∧ count ≤ 255))
    (hrx : Ready s polls I2C_SR1_RXNE) (hbtf : Ready s polls I2C_SR1_BTF)
    (hbytes : ∀ k, s.dr k < 256) :
    ∃ s', Reg.i2c_read_burst polls MASTER count s = Outcome.done s' ∧
      Received s s' count := by
  rcases hcount with h2 | ⟨h3, h255⟩
  · subst h2
    obtain ⟨s1, hw, hr1⟩ := waitFlag_ready I2C_SR1_BTF polls s _ 0
      (((((Received.refl s).emit (RegEvent.setCR1 I2C_CR1_POS)).ack_bit ACK).emit
        RegEvent.clearADDR).ack_bit NACK) hbtf
    refine ⟨((Reg.i2c_stop s1).storeDR 0).storeDR 1,
      ?_, (hr1.stop.storeDR hbytes).storeDR hbytes⟩
    simp only [Reg.i2c_read_burst, MASTER, hw, Outcome.andThen]
    simp
  · obtain ⟨s1, hl, hr1⟩ := read_burst_loop_received polls s hrx hbytes 256 count 0 _
      (((Received.refl s).ack_bit ACK).emit RegEvent.clearADDR) h3 h255 (by omega) (by omega)
    rw [Nat.zero_add] at hl hr1
    obtain ⟨s2, hw2, hr2⟩ := waitFlag_ready I2C_SR1_BTF polls s s1 _ hr1 hbtf
    have hr3 := ((hr2.ack_bit NACK).storeDR hbytes).stop
    obtain ⟨s4, hw4, hr4⟩ := waitFlag_ready I2C_SR1_BTF polls s _ _ hr3 hbtf
    have hr5 := (hr4.storeDR hbytes).storeDR hbytes
    have hj1 : (count - 3 + 1) % 256 = count - 3 + 1 := by omega
    have hj2 : (count - 3 + 1 + 1) % 256 = count - 3 + 1 + 1 := by omega
    have hc : count - 3 + 1 + 1 + 1 = count := by omega
    rw [hc] at hr5
    refine ⟨_, ?_, hr5⟩
    have hne2 : count ≠ 2 := by omega
    have hgt : count > 2 := by omega
    simp only [Reg.i2c_read_burst, MASTER, hl, hw2, hw4, Outcome.andThen, hj1, hj2,
      if_neg hne2, if_pos hgt]
    simp

/-- C16: in initiator mode, for `count = 2` and for every `count` in 3..255,
with a peer whose data register yields bytes `b0, b1, ...` on successive reads
and all status polls satisfied within the budget, `readBurst` returns after
exactly `count` data-register reads with `buffer[i] = b_i` for every
`i < count`: the same buffer that `count` sequential single-byte reads
produce. -/
theorem read_burst_matches_sequential (polls count : Nat) (s : I2C)
    (hcount : count = 2 ∨ (3 ≤ count ∧ count ≤ 255))
    (hrx : Ready s polls I2C_SR1_RXNE) (hbtf : Ready s polls I2C_SR1_BTF)
    (hbytes : ∀ k, s.dr k < 256) :
    ∃ s' r, Reg.i2c_read_burst polls MASTER count s = Outcome.done s' ∧
      sequentialReads polls count 0 s = Outcome.done r ∧
      s'.dr_reads = s.dr_reads + count ∧
      (∀ i, i < count → s'.buf i = s.dr (s.dr_reads + i)) ∧
      s'.buf = r.buf := by
  obtain ⟨s', hrun, hr⟩ := read_burst_received polls count s hcount hrx hbtf hbytes
  obtain ⟨r, hseq, hq⟩ := sequentialReads_received polls s hrx hbytes count 0 s (Received.refl s)
  rw [Nat.zero_add] at hq
  refine ⟨s', r, hrun, hseq, hr.2.2.1, ?_, ?_⟩
  · intro i hi
    rw [hr.2.2.2 i, if_pos hi]
  · funext i
    rw [hr.2.2.2 i, hq.2.2.2 i]

/-- Witness for C16: a burst of 5 bytes from a peer that is always ready. -/
theorem read_burst_matches_sequential_witness :
    ∃ s' r, Reg.i2c_read_burst 1 MASTER 5 readyPeer = Outcome.done s' ∧
      sequentialReads 1 5 0 readyPeer = Outcome.done r ∧
      s'.dr_reads = readyPeer.dr_reads + 5 ∧
      (∀ i, i < 5 → s'.buf i = readyPeer.dr (readyPeer.dr_reads + i)) ∧
      s'.buf = r.buf :=
  read_burst_matches_sequential 1 5 readyPeer (Or.inr ⟨by decide, by decide⟩)
    (fun _ => ⟨0, by decide, (by decide : (0xFF : Nat) &&& I2C_SR1_RXNE ≠ 0)⟩)
    (fun _ => ⟨0, by decide, (by decide : (0xFF : Nat) &&& I2C_SR1_BTF ≠ 0)⟩)
    (fun k => Nat.mod_lt (k + 10) (by decide))

/-- C17: in initiator mode, `readBurst` with count 0 or 1 never returns,
whatever the hardware presents and whatever the poll budget: it enters the
endless loop in the state in which it was called, so before blocking it has
made no register access (no control-register write, no data-register read)
and no write to the caller's buffer. -/
theorem read_burst_short_count_blocks (polls mode count : Nat) (s : I2C) (hm : mode ≠ 0)
    (hc : count < 2) :
    Reg.i2c_read_burst polls mode count s = Outcome.hang s ∧
    (∀ s', Reg.i2c_read_burst polls mode count s ≠ Outcome.done s') := by
  have h2 : count ≠ 2 := by omega
  have h3 : ¬ count > 2 := by omega
  have h : Reg.i2c_read_burst polls mode count s = Outcome.hang s := by
    simp only [Reg.i2c_read_burst, hm, h2, h3, ne_eq, not_false_eq_true, if_true, if_false]
  refine ⟨h, fun s' => ?_⟩
  rw [h]
  intro hcontra
  cases hcontra

/-- Witness for C17: a one-byte burst request in initiator mode. -/
theorem read_burst_short_count_blocks_witness :
    Reg.i2c_read_burst 100 MASTER 1 readyPeer = Outcome.hang readyPeer ∧
    (∀ s', Reg.i2c_read_burst 100 MASTER 1 readyPeer ≠ Outcome.done s') :=
  read_burst_short_count_blocks 100 MASTER 1 readyPeer (by decide) (by decide)

/-! ## Clock-control divisor -/

theorem ccr_flags_test (conf : I2C_Init_t)
    (hfast : conf.I2C_FASTMODE = I2C_FASTMODE_ENABLE ∨ conf.I2C_FASTMODE = I2C_FASTMODE_DISABLE)
    (hduty : conf.I2C_DUTY_CYCLE = I2C_DUTY_16_9 ∨ conf.I2C_DUTY_CYCLE = I2C_DUTY_2) :
    (i2c_init_ccr_flags conf 0 &&& I2C_CCR_FS ≠ 0 ∧ i2c_init_ccr_flags conf 0 &&& I2C_CCR_DUTY ≠ 0)
      ↔ (conf.I2C_FASTMODE = I2C_FASTMODE_ENABLE ∧ conf.I2C_DUTY_CYCLE = I2C_DUTY_16_9) := by
  unfold i2c_init_ccr_flags
  rcases hfast with h1 | h1 <;> rcases hduty with h2 | h2 <;> rw [h1, h2] <;> decide

/-- C18: for every peripheral clock, every target speed in 1..400000 Hz and
every fast-mode/duty selection, the divisor `tmp` that `i2c_init` (after its
peripheral reset) ORs into the clock-control register is at least 1 when fast
mode and the 16/9 duty are both selected, and at least 4 in every other
configuration. -/
theorem i2c_init_divisor_minimum (SystemCoreClock : Nat) (conf : I2C_Init_t)
    (_hspeed : 1 ≤ conf.I2C_CLOCK_SPEED ∧ conf.I2C_CLOCK_SPEED ≤ 400000)
    (hfast : conf.I2C_FASTMODE = I2C_FASTMODE_ENABLE ∨ conf.I2C_FASTMODE = I2C_FASTMODE_DISABLE)
    (hduty : conf.I2C_DUTY_CYCLE = I2C_DUTY_16_9 ∨ conf.I2C_DUTY_CYCLE = I2C_DUTY_2) :
    (conf.I2C_FASTMODE = I2C_FASTMODE_ENABLE ∧ conf.I2C_DUTY_CYCLE = I2C_DUTY_16_9 →
      1 ≤ i2c_init_tmp SystemCoreClock conf 0) ∧
    (¬ (conf.I2C_FASTMODE = I2C_FASTMODE_ENABLE ∧ conf.I2C_DUTY_CYCLE = I2C_DUTY_16_9) →
      4 ≤ i2c_init_tmp SystemCoreClock conf 0) := by
  have ht := ccr_flags_test conf hfast hduty
  constructor
  · intro _
    unfold i2c_init_tmp
    simp only []
    split_ifs <;> omega
  · intro hn
    have hn' := fun h => hn (ht.mp h)
    unfold i2c_init_tmp
    simp only []
    split_ifs <;> omega

/-- Witness for C18: 8 MHz peripheral clock, 400 kHz, fast mode with 16/9
duty. -/
theorem i2c_init_divisor_minimum_witness :
    ((clockConf 400000 I2C_FASTMODE_ENABLE I2C_DUTY_16_9).I2C_FASTMODE = I2C_FASTMODE_ENABLE ∧
        (clockConf 400000 I2C_FASTMODE_ENABLE I2C_DUTY_16_9).I2C_DUTY_CYCLE = I2C_DUTY_16_9 →
      1 ≤ i2c_init_tmp 8000000 (clockConf 400000 I2C_FASTMODE_ENABLE I2C_DUTY_16_9) 0) ∧
    (¬ ((clockConf 400000 I2C_FASTMODE_ENABLE I2C_DUTY_16_9).I2C_FASTMODE = I2C_FASTMODE_ENABLE ∧
        (clockConf 400000 I2C_FASTMODE_ENABLE I2C_DUTY_16_9).I2C_DUTY_CYCLE = I2C_DUTY_16_9) →
      4 ≤ i2c_init_tmp 8000000 (clockConf 400000 I2C_FASTMODE_ENABLE I2C_DUTY_16_9) 0) :=
  i2c_init_divisor_minimum 8000000 (clockConf 400000 I2C_FASTMODE_ENABLE I2C_DUTY_16_9)
    ⟨by decide, by decide⟩ (Or.inl rfl) (Or.inl rfl)

/-! ## Axis-parallel lines -/

/-- The counting loop of the axis-parallel lines exits after `dist + 1`
iterations when `dist ≤ 254`, having drawn `pixel i` for `i = 0 .. dist`. -/
theorem axisLine_loop_spec (pixel : Nat → Nat × Nat) (dist : Nat) (hd : dist ≤ 254) :
    ∀ (fuel i : Nat), i ≤ dist + 1 → dist + 1 - i < fuel →
      axisLine_loop pixel dist fuel i = some ((List.range' i (dist + 1 - i)).map pixel) := by
  intro fuel
  induction fuel with
  | zero =>
    intro i _ hf
    omega
  | succ fuel ih =>
    intro i hi hf
    by_cases hle : i ≤ dist
    · have hm : (i + 1) % 256 = i + 1 := by omega
      have hn : dist + 1 - i = (dist + 1 - (i + 1)) + 1 := by omega
      rw [axisLine_loop, if_pos hle, hm, ih (i + 1) (by omega) (by omega), hn,
        List.range'_succ]
      simp
    · have hn : dist + 1 - i = 0 := by omega
      rw [axisLine_loop, if_neg hle, hn]
      simp

theorem axisLine_loop_full (pixel : Nat → Nat × Nat) (dist : Nat) (hd : dist ≤ 254) :
    axisLine_loop pixel dist 257 0 = some ((List.range' 0 (dist + 1)).map pixel) := by
  have h := axisLine_loop_spec pixel dist hd 257 0 (by omega) (by omega)
  rw [Nat.sub_zero] at h
  exact h

theorem drawVerticalLine_pixels_spec (x y1 y2 : Nat) (hy1 : y1 ≤ 63) (hy2 : y2 ≤ 63) :
    ∃ l, drawVerticalLine_pixels x y1 y2 = some l ∧
      ∀ p, p ∈ l ↔ (p.1 = x ∧ min y1 y2 ≤ p.2 ∧ p.2 ≤ max y1 y2) := by
  by_cases h : y2 > y1
  · have e1 : i8 ((y2 : Int) - y1) = (y2 : Int) - y1 := i8_of_range (by omega) (by omega)
    have e2 : u8 ((y2 : Int) - y1) = y2 - y1 := by
      unfold u8
      omega
    refine ⟨(List.range' 0 (y2 - y1 + 1)).map (fun i : Nat => (x, u8 ((y1 : Int) + i))), ?_, ?_⟩
    · rw [drawVerticalLine_pixels, if_pos h]
      simp only [e1, e2]
      exact axisLine_loop_full _ (y2 - y1) (by omega)
    · intro p
      simp only [List.mem_map, List.mem_range'_1]
      constructor
      · rintro ⟨k, ⟨_, hk⟩, rfl⟩
        have : u8 ((y1 : Int) + k) = y1 + k := by
          unfold u8
          omega
        simp only [this]
        refine ⟨trivial, ?_, ?_⟩ <;> omega
      · rintro ⟨hx, hlo, hhi⟩
        refine ⟨p.2 - y1, by omega, ?_⟩
        have : u8 ((y1 : Int) + ((p.2 - y1 : Nat) : Int)) = p.2 := by
          unfold u8
          omega
        rw [this, ← hx]
  · have e1 : i8 ((y1 : Int) - y2) = (y1 : Int) - y2 := i8_of_range (by omega) (by omega)
    have e2 : u8 ((y1 : Int) - y2) = y1 - y2 := by
      unfold u8
      omega
    refine ⟨(List.range' 0 (y1 - y2 + 1)).map (fun i : Nat => (x, u8 ((y1 : Int) - i))), ?_, ?_⟩
    · rw [drawVerticalLine_pixels, if_neg h]
      simp only [e1, e2]
      exact axisLine_loop_full _ (y1 - y2) (by omega)
    · intro p
      simp only [List.mem_map, List.mem_range'_1]
      constructor
      · rintro ⟨k, ⟨_, hk⟩, rfl⟩
        have : u8 ((y1 : Int) - k) = y1 - k := by
          unfold u8
          omega
        simp only [this]
        refine ⟨trivial, ?_, ?_⟩ <;> omega
      · rintro ⟨hx, hlo, hhi⟩
        refine ⟨y1 - p.2, by omega, ?_⟩
        have : u8 ((y1 : Int) - ((y1 - p.2 : Nat) : Int)) = p.2 := by
          unfold u8
          omega
        rw [this, ← hx]

theorem drawHorizontalLine_pixels_spec (y x1 x2 : Nat) (hx1 : x1 ≤ 127) (hx2 : x2 ≤ 127) :
    ∃ l, drawHorizontalLine_pixels y x1 x2 = some l ∧
      ∀ p, p ∈ l ↔ (p.2 = y ∧ min x1 x2 ≤ p.1 ∧ p.1 ≤ max x1 x2) := by
  by_cases h : x2 > x1
  · have e1 : i8 ((x2 : Int) - x1) = (x2 : Int) - x1 := i8_of_range (by omega) (by omega)
    have e2 : u8 ((x2 : Int) - x1) = x2 - x1 := by
      unfold u8
      omega
    refine ⟨(List.range' 0 (x2 - x1 + 1)).map (fun i : Nat => (u8 ((x1 : Int) + i), y)), ?_, ?_⟩
    · rw [drawHorizontalLine_pixels, if_pos h]
      simp only [e1, e2]
      exact axisLine_loop_full _ (x2 - x1) (by omega)
    · intro p
      simp only [List.mem_map, List.mem_range'_1]
      constructor
      · rintro ⟨k, ⟨_, hk⟩, rfl⟩
        have : u8 ((x1 : Int) + k) = x1 + k := by
          unfold u8
          omega
        simp only [this]
        refine ⟨trivial, ?_, ?_⟩ <;> omega
      · rintro ⟨hy, hlo, hhi⟩
        refine ⟨p.1 - x1, by omega, ?_⟩
        have : u8 ((x1 : Int) + ((p.1 - x1 : Nat) : Int)) = p.1 := by
          unfold u8
          omega
        rw [this, ← hy]
  · have e1 : i8 ((x1 : Int) - x2) = (x1 : Int) - x2 := i8_of_range (by omega) (by omega)
    have e2 : u8 ((x1 : Int) - x2) = x1 - x2 := by
      unfold u8
      omega
    refine ⟨(List.range' 0 (x1 - x2 + 1)).map (fun i : Nat => (u8 ((x1 : Int) - i), y)), ?_, ?_⟩
    · rw [drawHorizontalLine_pixels, if_neg h]
      simp only [e1, e2]
      exact axisLine_loop_full _ (x1 - x2) (by omega)
    · intro p
      simp only [List.mem_map, List.mem_range'_1]
      constructor
      · rintro ⟨k, ⟨_, hk⟩, rfl⟩
        have : u8 ((x1 : Int) - k) = x1 - k := by
          unfold u8
          omega
        simp only [this]
        refine ⟨trivial, ?_, ?_⟩ <;> omega
      · rintro ⟨hy, hlo, hhi⟩
        refine ⟨x1 - p.1, by omega, ?_⟩
        have : u8 ((x1 : Int) - ((x1 - p.1 : Nat) : Int)) = p.1 := by
          unfold u8
          omega
        rw [this, ← hy]

/-- On byte-valued memory `drawPixel` keeps the memory byte-valued, and a bit
is set afterwards exactly when it was set before or is the bit of the pixel. -/
theorem drawPixel_testBit (s : Driver) (x y : Nat) (hb : s.bytes) (hx : x ≤ 255)
    (hy : y ≤ 255) :
    (ssd1306_drawPixel s x y).bytes ∧
    ∀ i b, (Nat.testBit ((ssd1306_drawPixel s x y).mem i) b = true ↔
      (Nat.testBit (s.mem i) b = true ∨ (s.p_ram + (x + 128 * (y / 8)) = i ∧ y % 8 = b))) := by
  have hk : y % 8 < 8 := Nat.mod_lt _ (by decide)
  have hv : (s.mem (s.p_ram + (x + 128 * (y / 8))) ||| (1 <<< (y % 8))) % 256
      = s.mem (s.p_ram + (x + 128 * (y / 8))) ||| (1 <<< (y % 8)) :=
    Nat.mod_eq_of_lt (or_bit_lt (hb _) hk)
  have hmem := drawPixel_mem s x y hx hy
  rw [hv] at hmem
  constructor
  · intro i
    rw [hmem]
    unfold store
    split
    · exact or_bit_lt (hb _) hk
    · exact hb i
  · intro i b
    rw [hmem]
    unfold store
    by_cases hi : i = s.p_ram + (x + 128 * (y / 8))
    · subst hi
      rw [if_pos rfl, Nat.testBit_or, Nat.one_shiftLeft, Nat.testBit_two_pow]
      simp
    · rw [if_neg hi]
      constructor
      · intro h
        exact Or.inl h
      · rintro (h | ⟨h, _⟩)
        · exact h
        · exact absurd h.symm hi

/-- After drawing a list of pixels on byte-valued memory, a bit is set exactly
when it was set before or is the bit of one of the pixels. -/
theorem drawPixels_testBit (l : List (Nat × Nat)) :
    ∀ s : Driver, s.bytes → (∀ p ∈ l, p.1 ≤ 255 ∧ p.2 ≤ 255) →
      ∀ i b, (Nat.testBit ((drawPixels s l).mem i) b = true ↔
        (Nat.testBit (s.mem i) b = true ∨
          ∃ p ∈ l, s.p_ram + (p.1 + 128 * (p.2 / 8)) = i ∧ p.2 % 8 = b)) := by
  induction l with
  | nil =>
    intro s _ _ i b
    simp [drawPixels]
  | cons q l ih =>
    intro s hb hl i b
    have hq := hl q (List.mem_cons_self _ _)
    obtain ⟨hb', ht⟩ := drawPixel_testBit s q.1 q.2 hb hq.1 hq.2
    have h := ih (ssd1306_drawPixel s q.1 q.2) hb'
      (fun p hp => hl p (List.mem_cons_of_mem _ hp)) i b
    rw [drawPixel_p_ram] at h
    have e : drawPixels s (q :: l) = drawPixels (ssd1306_drawPixel s q.1 q.2) l := by
      simp [drawPixels]
    rw [e, h, ht i b]
    constructor
    · rintro ((h1 | h1) | ⟨p, hp, h1⟩)
      · exact Or.inl h1
      · exact Or.inr ⟨q, List.mem_cons_self _ _, h1⟩
      · exact Or.inr ⟨p, List.mem_cons_of_mem _ hp, h1⟩
    · rintro (h1 | ⟨p, hp, h1⟩)
      · exact Or.inl (Or.inl h1)
      · rcases List.mem_cons.mp hp with rfl | hp
        · exact Or.inl (Or.inr h1)
        · exact Or.inr ⟨p, hp, h1⟩

/-- The memory after drawing a list of pixels depends only on the set of
pixels drawn, not on their order or multiplicity. -/
theorem drawPixels_mem_congr (s : Driver) (l l' : List (Nat × Nat)) (hb : s.bytes)
    (hl : ∀ p ∈ l, p.1 ≤ 255 ∧ p.2 ≤ 255) (hl' : ∀ p ∈ l', p.1 ≤ 255 ∧ p.2 ≤ 255)
    (hsame : ∀ p, p ∈ l ↔ p ∈ l') :
    (drawPixels s l).mem = (drawPixels s l').mem := by
  funext i
  apply Nat.eq_of_testBit_eq
  intro b
  rw [Bool.eq_iff_iff, drawPixels_testBit l s hb hl i b, drawPixels_testBit l' s hb hl' i b]
  constructor
  · rintro (h | ⟨p, hp, h⟩)
    · exact Or.inl h
    · exact Or.inr ⟨p, (hsame p).mp hp, h⟩
  · rintro (h | ⟨p, hp, h⟩)
    · exact Or.inl h
    · exact Or.inr ⟨p, (hsame p).mpr hp, h⟩

/-- C21: `drawVerticalLine` and `drawHorizontalLine` are direction-agnostic.
For `x ≤ 127` and `y1, y2 ≤ 63`, `drawVerticalLine(x,y1,y2)` terminates and
the pixels it draws are exactly `{(x,y) : min(y1,y2) ≤ y ≤ max(y1,y2)}`, so
swapping `y1` and `y2` gives the same final memory; likewise
`drawHorizontalLine(y,x1,x2)` draws exactly
`{(x,y) : min(x1,x2) ≤ x ≤ max(x1,x2)}` for `x1, x2 ≤ 127`, `y ≤ 63`. -/
theorem axis_lines_direction_agnostic (s : Driver) (x y1 y2 y x1 x2 : Nat) (hb : s.bytes)
    (hx : x ≤ 127) (hy1 : y1 ≤ 63) (hy2 : y2 ≤ 63)
    (hy : y ≤ 63) (hx1 : x1 ≤ 127) (hx2 : x2 ≤ 127) :
    (∃ l s1 s2, drawVerticalLine_pixels x y1 y2 = some l ∧
      ssd1306_drawVerticalLine s x y1 y2 = some s1 ∧
      ssd1306_drawVerticalLine s x y2 y1 = some s2 ∧
      (∀ p, p ∈ l ↔ (p.1 = x ∧ min y1 y2 ≤ p.2 ∧ p.2 ≤ max y1 y2)) ∧
      s1.mem = s2.mem) ∧
    (∃ l s1 s2, drawHorizontalLine_pixels y x1 x2 = some l ∧
      ssd1306_drawHorizontalLine s y x1 x2 = some s1 ∧
      ssd1306_drawHorizontalLine s y x2 x1 = some s2 ∧
      (∀ p, p ∈ l ↔ (p.2 = y ∧ min x1 x2 ≤ p.1 ∧ p.1 ≤ max x1 x2)) ∧
      s1.mem = s2.mem) := by
  constructor
  · obtain ⟨l, hl, hm⟩ := drawVerticalLine_pixels_spec x y1 y2 hy1 hy2
    obtain ⟨l', hl', hm'⟩ := drawVerticalLine_pixels_spec x y2 y1 hy2 hy1
    refine ⟨l, drawPixels s l, drawPixels s l', hl, by simp [ssd1306_drawVerticalLine, hl],
      by simp [ssd1306_drawVerticalLine, hl'], hm, ?_⟩
    refine drawPixels_mem_congr s l l' hb ?_ ?_ ?_
    · intro p hp
      have := (hm p).mp hp
      omega
    · intro p hp
      have := (hm' p).mp hp
      omega
    · intro p
      rw [hm p, hm' p, min_comm y2 y1, max_comm y2 y1]
  · obtain ⟨l, hl, hm⟩ := drawHorizontalLine_pixels_spec y x1 x2 hx1 hx2
    obtain ⟨l', hl', hm'⟩ := drawHorizontalLine_pixels_spec y x2 x1 hx2 hx1
    refine ⟨l, drawPixels s l, drawPixels s l', hl, by simp [ssd1306_drawHorizontalLine, hl],
      by simp [ssd1306_drawHorizontalLine, hl'], hm, ?_⟩
    refine drawPixels_mem_congr s l l' hb ?_ ?_ ?_
    · intro p hp
      have := (hm p).mp hp
      omega
    · intro p hp
      have := (hm' p).mp hp
      omega
    · intro p
      rw [hm p, hm' p, min_comm x2 x1, max_comm x2 x1]

/-- Witness for C21: the column x = 3 between rows 5 and 9 and the row y = 3
between columns 0 and 2, on a blank buffer. -/
theorem axis_lines_direction_agnostic_witness :
    (∃ l s1 s2, drawVerticalLine_pixels 3 5 9 = some l ∧
      ssd1306_drawVerticalLine blankDriver 3 5 9 = some s1 ∧
      ssd1306_drawVerticalLine blankDriver 3 9 5 = some s2 ∧
      (∀ p, p ∈ l ↔ (p.1 = 3 ∧ min 5 9 ≤ p.2 ∧ p.2 ≤ max 5 9)) ∧
      s1.mem = s2.mem) ∧
    (∃ l s1 s2, drawHorizontalLine_pixels 3 0 2 = some l ∧
      ssd1306_drawHorizontalLine blankDriver 3 0 2 = some s1 ∧
      ssd1306_drawHorizontalLine blankDriver 3 2 0 = some s2 ∧
      (∀ p, p ∈ l ↔ (p.2 = 3 ∧ min 0 2 ≤ p.1 ∧ p.1 ≤ max 0 2)) ∧
      s1.mem = s2.mem) :=
  axis_lines_direction_agnostic blankDriver 3 5 9 3 0 2
    (fun _ => (by decide : (0 : Nat) < 256)) (by decide) (by decide) (by decide)
    (by decide) (by decide) (by decide)

/-! ## Configuration defaults -/

/-- C22 (the code at the failing input): after `i2c_structInit` every member
has the value the function assigns, whatever it held before; own address 1 is
0x7C and own address 2 is 0x7A, not the 0xC8 and 0xD8 of the function's doc
comment. -/
theorem structInit_own_addresses :
    (∀ c : I2C_Init_t, i2c_structInit c =
      ⟨0x0000, 400000, 0x8000, 0, 0, 0, 0, 0x7C, 0x7A, 0, 0, 0, 0⟩) ∧
    (i2c_structInit (clockConf 0 0 0)).I2C_OWN_ADDRESS1 = 0x7C ∧
    (i2c_structInit (clockConf 0 0 0)).I2C_OWN_ADDRESS1 ≠ 0xC8 ∧
    (i2c_structInit (clockConf 0 0 0)).I2C_OWN_ADDRESS2 = 0x7A ∧
    (i2c_structInit (clockConf 0 0 0)).I2C_OWN_ADDRESS2 ≠ 0xD8 := by
  refine ⟨fun c => rfl, rfl, by decide, rfl, by decide⟩

/-! ## Text output -/

theorem drawChar_columns_spec (font : Int → Nat → Nat) (c : Nat) (n : Nat) :
    ∀ (k : Nat) (s : Driver),
      (drawChar_columns font c n k s).bus =
        s.bus ++ (List.range n).flatMap
          (fun j => dataWriteEvents (font ((c : Int) - 0x20) (k + j))) ∧
      (drawChar_columns font c n k s).mem = s.mem ∧
      (drawChar_columns font c n k s).p_ram = s.p_ram := by
  induction n with
  | zero =>
    intro k s
    simp [drawChar_columns]
  | succ n ih =>
    intro k s
    obtain ⟨hb, hm, hp⟩ := ih (k + 1)
      (i2c_write (i2c_write (i2c_request (i2c_start s) SSD1306_SLAVE_ADDR_W) DATA_CTRL_BYTE)
        (font ((c : Int) - 0x20) k))
    refine ⟨?_, ?_, ?_⟩
    · rw [drawChar_columns, hb, List.range_succ_eq_map, List.flatMap_cons, List.flatMap_map]
      simp only [i2c_start, i2c_request, i2c_write, dataWriteEvents, Nat.add_zero,
        List.append_assoc, List.cons_append, List.nil_append, List.singleton_append,
        Nat.succ_eq_add_one]
      congr 6
      funext j
      rw [Nat.add_assoc, Nat.add_comm 1 j]
    · rw [drawChar_columns, hm]
      rfl
    · rw [drawChar_columns, hp]
      rfl

/-- The bus trace of `drawChar`: five data writes per character, in order,
then one stop. -/
theorem drawChar_bus (font : Int → Nat → Nat) (ch : List Nat) :
    ∀ s : Driver, (ssd1306_drawChar font s ch).bus =
      s.bus ++ ch.flatMap (fun c => (List.range 5).flatMap
        (fun j => dataWriteEvents (font ((c : Int) - 0x20) j))) ++ [BusEvent.stop] := by
  have h : ∀ (l : List Nat) (s : Driver),
      (l.foldl (fun s c => drawChar_columns font c 5 0 s) s).bus =
        s.bus ++ l.flatMap (fun c => (List.range 5).flatMap
          (fun j => dataWriteEvents (font ((c : Int) - 0x20) j))) := by
    intro l
    induction l with
    | nil =>
      intro s
      simp
    | cons c l ih =>
      intro s
      rw [List.foldl_cons, ih, (drawChar_columns_spec font c 5 0 s).1, List.flatMap_cons,
        List.append_assoc]
      simp only [Nat.zero_add]
  intro s
  simp only [ssd1306_drawChar, i2c_stop, h]

/-- C23 (the code at the failing input): for every text `drawChar` emits five
data writes per character and then one stop; for the empty text the trace is
that single stop, with no start before it. -/
theorem drawChar_empty_text_lone_stop :
    (∀ (font : Int → Nat → Nat) (s : Driver) (ch : List Nat),
      (ssd1306_drawChar font s ch).bus =
        s.bus ++ ch.flatMap (fun c => (List.range 5).flatMap
          (fun j => dataWriteEvents (font ((c : Int) - 0x20) j))) ++ [BusEvent.stop]) ∧
    (∀ font : Int → Nat → Nat, (ssd1306_drawChar font blankDriver []).bus = [BusEvent.stop]) ∧
    BusEvent.start ∉ [BusEvent.stop] := by
  refine ⟨fun font s ch => drawChar_bus font ch s, fun font => ?_, by decide⟩
  rw [drawChar_bus]
  rfl

/-! ## Byte transmit -/

/-- C24 (the code at the failing input): with a status register that shows
only transmit-buffer-empty (0x80) on every read, `writeByte` returns; its final
poll reads the status twice and exits on the second read, a value with the
byte-transfer-finished flag clear; no status value it observed has that flag
set. The data byte is written after a status value with TXE set. -/
theorem i2c_write_returns_without_BTF :
    ∃ s', Reg.i2c_write 8 0x55 txeOnlyPeer = Outcome.done s' ∧
      s'.log = [RegEvent.clearADDR, RegEvent.readSR1 0x80, RegEvent.writeDR 0x55,
        RegEvent.readSR1 0x80, RegEvent.readSR1 0x80] ∧
      (0x80 : Nat) &&& I2C_SR1_TXE ≠ 0 ∧ (0x80 : Nat) &&& I2C_SR1_BTF = 0 := by
  refine ⟨_, rfl, rfl, by decide, by decide⟩

/-! ## Clock configuration -/

/-- C26 (the code at the failing input): with a 4 MHz peripheral clock, a
400 kHz target, fast mode and 16/9 duty the quotient is 2, which fits in 16
bits, and the clamped value `max 2 1` is 2; `i2c_init` programs 1. -/
theorem i2c_init_divisor_lowered :
    4000000 / (4 * 400000) = 2 ∧ max 2 1 = 2 ∧
    i2c_init_tmp 4000000 (clockConf 400000 I2C_FASTMODE_ENABLE I2C_DUTY_16_9) 0 = 1 := by
  decide

/-- C27 (the code at the failing input): for the prescaler field values 4, 5
and 6 the frequency register receives the documented quotient, but for the
value 7 (`cfgr = 0x700`) with a 72 MHz clock, where the quotient is 4, the
register ends as `0xA204`: the raw clock value is ORed in as well. -/
theorem i2c_init_CR2_case7_falls_through :
    i2c_init_CR2 72000000 0x400 0 = 72000000 / 2000000 ∧
    i2c_init_CR2 72000000 0x500 0 = 72000000 / 4000000 ∧
    i2c_init_CR2 72000000 0x600 0 = 72000000 / 8000000 ∧
    72000000 / 16000000 = 4 ∧
    i2c_init_CR2 72000000 0x700 0 = 0xA204 ∧
    i2c_init_CR2 72000000 0x700 0 = (4 ||| 72000000) % 65536 := by
  decide

/-! ## Repeated full-buffer push -/

theorem ramUpdateFull_p_ram (s : Driver) :
    (ssd1306_ramUpdateFull s).p_ram = s.p_ram + 1024 := by
  obtain ⟨_, _, hp⟩ := ramUpdateFull_loop_spec 1024 s
  simp only [ssd1306_ramUpdateFull, i2c_stop, hp]

/-- C28 (the code at the failing input): from a state with `p_ram` at the
buffer base, shadow bytes 0x11 and the memory after the buffer 0x22, the first
`ramUpdateFull` emits 1024 payloads 0x11 and leaves `p_ram` 1024 bytes past
the base; the second emits 1024 payloads 0x22; and `drawPixel(0,0)` after a
push on a blank driver leaves shadow byte 0 unchanged and writes byte 1024. -/
theorem ramUpdateFull_moves_buffer_base :
    (ssd1306_ramUpdateFull markedDriver).p_ram = 1024 ∧
    (ssd1306_ramUpdateFull markedDriver).bus =
      (List.range 1024).flatMap (fun _ => dataWriteEvents 0x11) ++ [BusEvent.stop] ∧
    (ssd1306_ramUpdateFull (ssd1306_ramUpdateFull markedDriver)).bus =
      (List.range 1024).flatMap (fun _ => dataWriteEvents 0x11) ++ [BusEvent.stop] ++
        (List.range 1024).flatMap (fun _ => dataWriteEvents 0x22) ++ [BusEvent.stop] ∧
    (ssd1306_drawPixel (ssd1306_ramUpdateFull blankDriver) 0 0).mem 0 = 0 ∧
    (ssd1306_drawPixel (ssd1306_ramUpdateFull blankDriver) 0 0).mem 1024 = 1 := by
  have hp : (ssd1306_ramUpdateFull markedDriver).p_ram = 1024 := by
    rw [ramUpdateFull_p_ram]
    rfl
  have hf1 : (fun k => dataWriteEvents (markedDriver.mem (markedDriver.p_ram + k))) =
      fun k => dataWriteEvents (if k < 1024 then 0x11 else 0x22) := by
    funext k
    simp [markedDriver]
  have hr : ∀ (f g : Nat → List BusEvent) (n : Nat), (∀ k, k < n → f k = g k) →
      (List.range n).flatMap f = (List.range n).flatMap g := by
    intro f g n h
    induction n with
    | zero => rfl
    | succ n ih =>
      rw [List.range_succ, List.flatMap_append, List.flatMap_append,
        ih (fun k hk => h k (by omega))]
      simp [h n (by omega)]
  have hb1 : (ssd1306_ramUpdateFull markedDriver).bus =
      (List.range 1024).flatMap (fun _ => dataWriteEvents 0x11) ++ [BusEvent.stop] := by
    have hb0 : markedDriver.bus = [] := rfl
    rw [ramUpdateFull_bus, hf1,
      hr _ (fun _ => dataWriteEvents 0x11) 1024 (fun k hk => by simp [hk]), hb0,
      List.nil_append]
  refine ⟨hp, hb1, ?_, ?_, ?_⟩
  · have hf2 : (fun k => dataWriteEvents ((ssd1306_ramUpdateFull markedDriver).mem
        ((ssd1306_ramUpdateFull markedDriver).p_ram + k))) =
        fun _ => dataWriteEvents 0x22 := by
      funext k
      rw [ramUpdateFull_mem, hp]
      simp [markedDriver]
    rw [ramUpdateFull_bus, hf2, hb1]
  · have h1 : (ssd1306_drawPixel (ssd1306_ramUpdateFull blankDriver) 0 0).mem 0 =
        store blankDriver.mem (blankDriver.p_ram + 1024 + (0 + 128 * (0 / 8)))
          ((blankDriver.mem (blankDriver.p_ram + 1024 + (0 + 128 * (0 / 8))) |||
            (1 <<< (0 % 8))) % 256) 0 := by
      rw [drawPixel_mem _ 0 0 (by decide) (by decide), ramUpdateFull_p_ram, ramUpdateFull_mem]
    have h2 : store blankDriver.mem (blankDriver.p_ram + 1024 + (0 + 128 * (0 / 8)))
          ((blankDriver.mem (blankDriver.p_ram + 1024 + (0 + 128 * (0 / 8))) |||
            (1 <<< (0 % 8))) % 256) 0 = 0 := by
      simp [blankDriver, store]
    exact h1.trans h2
  · have h1 : (ssd1306_drawPixel (ssd1306_ramUpdateFull blankDriver) 0 0).mem 1024 =
        store blankDriver.mem (blankDriver.p_ram + 1024 + (0 + 128 * (0 / 8)))
          ((blankDriver.mem (blankDriver.p_ram + 1024 + (0 + 128 * (0 / 8))) |||
            (1 <<< (0 % 8))) % 256) 1024 := by
      rw [drawPixel_mem _ 0 0 (by decide) (by decide), ramUpdateFull_p_ram, ramUpdateFull_mem]
    have h2 : store blankDriver.mem (blankDriver.p_ram + 1024 + (0 + 128 * (0 / 8)))
          ((blankDriver.mem (blankDriver.p_ram + 1024 + (0 + 128 * (0 / 8))) |||
            (1 <<< (0 % 8))) % 256) 1024 = 1 := by
      simp [blankDriver, store]
    exact h1.trans h2

/-! ## Event order of the burst read -/

theorem IsWait.mem {mask : Nat} {w : List RegEvent} (h : IsWait mask w) :
    ∀ e ∈ w, ∃ v, e = RegEvent.readSR1 v := by
  obtain ⟨vs, v, rfl, _, _⟩ := h
  intro e he
  rw [List.mem_append, List.mem_map, List.mem_singleton] at he
  rcases he with ⟨u, _, rfl⟩ | rfl
  · exact ⟨u, rfl⟩
  · exact ⟨v, rfl⟩

theorem IsWait.countP_readDR {mask : Nat} {w : List RegEvent} (h : IsWait mask w) :
    w.countP RegEvent.isReadDR = 0 := by
  rw [List.countP_eq_zero]
  intro e he
  obtain ⟨v, rfl⟩ := h.mem e he
  simp [RegEvent.isReadDR]

theorem IsWait.no_CR1_write {mask : Nat} {w : List RegEvent} (h : IsWait mask w) :
    ∀ e ∈ w, e.isCR1Write = false := by
  intro e he
  obtain ⟨v, rfl⟩ := h.mem e he
  rfl

theorem isReceive_counts (dr : Nat → Nat) :
    ∀ (k start : Nat) (l : List RegEvent), IsReceive dr start k l →
      l.countP RegEvent.isReadDR = k ∧ ∀ e ∈ l, e.isCR1Write = false := by
  intro k
  induction k with
  | zero =>
    intro start l h
    simp only [IsReceive] at h
    subst h
    simp
  | succ k ih =>
    intro start l h
    obtain ⟨w, rest, hw, rfl, hrest⟩ := h
    obtain ⟨hc, hn⟩ := ih (start + 1) rest hrest
    refine ⟨?_, ?_⟩
    · rw [List.countP_append, List.countP_append, hw.countP_readDR, hc]
      simp [RegEvent.isReadDR]
      omega
    · intro e he
      rw [List.mem_append, List.mem_append, List.mem_singleton] at he
      rcases he with (he | rfl) | he
      · exact hw.no_CR1_write e he
      · rfl
      · exact hn e he

theorem waitFlag_trace (mask : Nat) (s0 : I2C) (j : Nat) :
    ∀ (polls : Nat) (s : I2C), SameEnv s0 s j →
      (∃ n, n < polls ∧ s0.sr1 (s.sr1_reads + n) &&& mask ≠ 0) →
      ∃ s' w, waitFlag polls mask s = Outcome.done s' ∧ SameEnv s0 s' j ∧
        s'.log = s.log ++ w ∧ IsWait mask w := by
  intro polls
  induction polls with
  | zero =>
    intro s _ h
    obtain ⟨n, hn, _⟩ := h
    omega
  | succ polls ih =>
    intro s hr h
    by_cases hflag : s.sr1 s.sr1_reads &&& mask ≠ 0
    · refine ⟨s.readSR1.2, [RegEvent.readSR1 (s.sr1 s.sr1_reads)], ?_, hr, rfl,
        ⟨[], s.sr1 s.sr1_reads, rfl, hflag, fun u hu => by cases hu⟩⟩
      simp [waitFlag, I2C.readSR1, hflag]
    · obtain ⟨n, hn, hset⟩ := h
      have hn0 : n ≠ 0 := by
        intro h0
        subst h0
        rw [← hr.1] at hset
        exact hflag hset
      obtain ⟨s', w, hrun, hr', hlog, vs, v, hw, hv, hvs⟩ := ih s.readSR1.2 hr ⟨n - 1, by omega, by
        have : s.readSR1.2.sr1_reads + (n - 1) = s.sr1_reads + n := by
          show s.sr1_reads + 1 + (n - 1) = _
          omega
        rw [this]
        exact hset⟩
      refine ⟨s', RegEvent.readSR1 (s.sr1 s.sr1_reads) :: w, ?_, hr', ?_,
        ⟨s.sr1 s.sr1_reads :: vs, v, ?_, hv, ?_⟩⟩
      · rw [waitFlag]
        simp only [I2C.readSR1] at hrun ⊢
        rw [if_neg hflag]
        exact hrun
      · rw [hlog]
        simp [I2C.readSR1]
      · rw [hw]
        rfl
      · intro u hu
        rcases List.mem_cons.1 hu with rfl | hu
        · simpa using hflag
        · exact hvs u hu

theorem sameEnv_storeDR {s0 s : I2C} {j : Nat} (h : SameEnv s0 s j) (k : Nat) :
    SameEnv s0 (s.storeDR k) (j + 1) := by
  obtain ⟨h1, h2, h3⟩ := h
  refine ⟨h1, h2, ?_⟩
  show s.dr_reads + 1 = _
  omega

theorem storeDR_log {s0 s : I2C} {j : Nat} (h : SameEnv s0 s j) (k : Nat) :
    (s.storeDR k).log = s.log ++ [RegEvent.readDR (s0.dr (s0.dr_reads + j))] := by
  obtain ⟨_, h2, h3⟩ := h
  show s.log ++ [RegEvent.readDR (s.dr s.dr_reads)] = _
  rw [h2, h3]

theorem read_burst_loop_trace (polls : Nat) (s0 : I2C) (hrx : Ready s0 polls I2C_SR1_RXNE) :
    ∀ (fuel i j : Nat) (s : I2C), SameEnv s0 s j → 3 ≤ i → i ≤ 255 → i - 3 < fuel →
      j + (i - 3) ≤ 255 →
      ∃ s' L, read_burst_loop polls fuel i j s = Outcome.done (s', j + (i - 3)) ∧
        SameEnv s0 s' (j + (i - 3)) ∧ s'.log = s.log ++ L ∧
        IsReceive s0.dr (s0.dr_reads + j) (i - 3) L := by
  intro fuel
  induction fuel with
  | zero =>
    intro i j s _ _ _ hf _
    omega
  | succ fuel ih =>
    intro i j s hr h3 h255 hf hj
    by_cases hi : i = 3
    · subst hi
      refine ⟨s, [], by simp [read_burst_loop], by simpa using hr, by simp, ?_⟩
      simp [IsReceive]
    · obtain ⟨s1, w, hw, hr1, hlog1, hisw⟩ :=
        waitFlag_trace I2C_SR1_RXNE s0 j polls s hr (hrx s.sr1_reads)
      have hi' : (i + 255) % 256 = i - 1 := by omega
      have hj' : (j + 1) % 256 = j + 1 := by omega
      obtain ⟨s', L, hrun, hr', hlog', hrec⟩ := ih (i - 1) (j + 1) (s1.storeDR j)
        (sameEnv_storeDR hr1 j) (by omega) (by omega) (by omega) (by omega)
      have he : j + 1 + (i - 1 - 3) = j + (i - 3) := by omega
      rw [he] at hrun hr'
      refine ⟨s', w ++ [RegEvent.readDR (s0.dr (s0.dr_reads + j))] ++ L, ?_, hr', ?_, ?_⟩
      · rw [read_burst_loop, if_pos hi, hw]
        simp only [Outcome.andThen, hi', hj']
        exact hrun
      · rw [hlog', storeDR_log hr1, hlog1]
        simp
      · have hk : i - 3 = (i - 1 - 3) + 1 := by omega
        rw [hk]
        exact ⟨w, L, hisw, rfl, hrec⟩

/-- C25: in initiator mode, for every count `N` in 3..255 and a peer that
satisfies every status poll within the budget, `readBurst` returns and the
register accesses it appends to the trace are, in order: set ACK, clear ADDR,
`N-3` receive iterations (`L`: each a poll for RXNE and one `DR` read), a
completed poll for BTF (`W1`), clear ACK, the `DR` read number `N-2`, the one
stop, a second completed poll for BTF (`W2`), and the last two `DR` reads.
`L` holds exactly `N-3` `DR` reads, and `L`, `W1`, `W2` hold no write to
control register 1, so the stop is the only one and nothing is written to
the control register after it. -/
theorem read_burst_tail_order (polls count : Nat) (s : I2C) (h3 : 3 ≤ count)
    (h255 : count ≤ 255) (hrx : Ready s polls I2C_SR1_RXNE)
    (hbtf : Ready s polls I2C_SR1_BTF) :
    ∃ s' L W1 W2, Reg.i2c_read_burst polls MASTER count s = Outcome.done s' ∧
      s'.log = s.log ++ [RegEvent.setCR1 I2C_CR1_ACK, RegEvent.clearADDR] ++ L ++ W1 ++
        [RegEvent.clearCR1 I2C_CR1_ACK, RegEvent.readDR (s.dr (s.dr_reads + (count - 3))),
          RegEvent.setCR1 I2C_CR1_STOP] ++ W2 ++
        [RegEvent.readDR (s.dr (s.dr_reads + (count - 2))),
          RegEvent.readDR (s.dr (s.dr_reads + (count - 1)))] ∧
      IsReceive s.dr s.dr_reads (count - 3) L ∧
      IsWait I2C_SR1_BTF W1 ∧ IsWait I2C_SR1_BTF W2 ∧
      L.countP RegEvent.isReadDR = count - 3 ∧
      (∀ e ∈ L ++ W1 ++ W2, e.isCR1Write = false) := by
  have hr0 : SameEnv s ((Reg.i2c_ack_bit s ACK).emit RegEvent.clearADDR) 0 :=
    ⟨rfl, rfl, rfl⟩
  obtain ⟨s1, L, hl, hr1, hlog1, hrec⟩ := read_burst_loop_trace polls s hrx 256 count 0 _
    hr0 h3 h255 (by omega) (by omega)
  rw [Nat.zero_add] at hl hr1
  rw [Nat.add_zero] at hrec
  obtain ⟨s2, W1, hw2, hr2, hlog2, hW1⟩ :=
    waitFlag_trace I2C_SR1_BTF s (count - 3) polls s1 hr1 (hbtf s1.sr1_reads)
  have hr2a : SameEnv s (Reg.i2c_ack_bit s2 NACK) (count - 3) := hr2
  have hr3 : SameEnv s (Reg.i2c_stop ((Reg.i2c_ack_bit s2 NACK).storeDR (count - 3)))
      (count - 3 + 1) := sameEnv_storeDR hr2a (count - 3)
  obtain ⟨s4, W2, hw4, hr4, hlog4, hW2⟩ :=
    waitFlag_trace I2C_SR1_BTF s (count - 3 + 1) polls _ hr3 (hbtf _)
  have hr5 := sameEnv_storeDR hr4 (count - 3 + 1)
  have hj1 : (count - 3 + 1) % 256 = count - 3 + 1 := by omega
  have hj2 : (count - 3 + 1 + 1) % 256 = count - 3 + 1 + 1 := by omega
  have hc2 : count - 3 + 1 = count - 2 := by omega
  have hc1 : count - 3 + 1 + 1 = count - 1 := by omega
  have hne2 : count ≠ 2 := by omega
  have hgt : count > 2 := by omega
  obtain ⟨hcount, hnoL⟩ := isReceive_counts s.dr (count - 3) s.dr_reads L hrec
  refine ⟨(s4.storeDR (count - 3 + 1)).storeDR (count - 3 + 1 + 1), L, W1, W2, ?_, ?_,
    hrec, hW1, hW2, hcount, ?_⟩
  · simp only [Reg.i2c_read_burst, MASTER, hl, hw2, hw4, Outcome.andThen, hj1, hj2,
      if_neg hne2, if_pos hgt]
    simp
  · rw [storeDR_log hr5, storeDR_log hr4, hlog4]
    have h3log : (Reg.i2c_stop ((Reg.i2c_ack_bit s2 NACK).storeDR (count - 3))).log =
        s2.log ++ [RegEvent.clearCR1 I2C_CR1_ACK,
          RegEvent.readDR (s.dr (s.dr_reads + (count - 3))),
          RegEvent.setCR1 I2C_CR1_STOP] := by
      show ((Reg.i2c_ack_bit s2 NACK).storeDR (count - 3)).log ++ _ = _
      rw [storeDR_log hr2a]
      simp [Reg.i2c_ack_bit, NACK, I2C.emit]
    have h0log : ((Reg.i2c_ack_bit s ACK).emit RegEvent.clearADDR).log =
        s.log ++ [RegEvent.setCR1 I2C_CR1_ACK, RegEvent.clearADDR] := by
      simp [Reg.i2c_ack_bit, ACK, I2C.emit]
    rw [h3log, hlog2, hlog1, h0log, hc1, hc2]
    simp
  · intro e he
    rw [List.mem_append, List.mem_append] at he
    rcases he with (he | he) | he
    · exact hnoL e he
    · exact hW1.no_CR1_write e he
    · exact hW2.no_CR1_write e he

/-- Witness for C25: a burst of 5 bytes from a peer that is always ready. -/
theorem read_burst_tail_order_witness :
    ∃ s' L W1 W2, Reg.i2c_read_burst 1 MASTER 5 readyPeer = Outcome.done s' ∧
      s'.log = readyPeer.log ++ [RegEvent.setCR1 I2C_CR1_ACK, RegEvent.clearADDR] ++ L ++ W1 ++
        [RegEvent.clearCR1 I2C_CR1_ACK,
          RegEvent.readDR (readyPeer.dr (readyPeer.dr_reads + (5 - 3))),
          RegEvent.setCR1 I2C_CR1_STOP] ++ W2 ++
        [RegEvent.readDR (readyPeer.dr (readyPeer.dr_reads + (5 - 2))),
          RegEvent.readDR (readyPeer.dr (readyPeer.dr_reads + (5 - 1)))] ∧
      IsReceive readyPeer.dr readyPeer.dr_reads (5 - 3) L ∧
      IsWait I2C_SR1_BTF W1 ∧ IsWait I2C_SR1_BTF W2 ∧
      L.countP RegEvent.isReadDR = 5 - 3 ∧
      (∀ e ∈ L ++ W1 ++ W2, e.isCR1Write = false) :=
  read_burst_tail_order 1 5 readyPeer (by decide) (by decide)
    (fun _ => ⟨0, by decide, (by decide : (0xFF : Nat) &&& I2C_SR1_RXNE ≠ 0)⟩)
    (fun _ => ⟨0, by decide, (by decide : (0xFF : Nat) &&& I2C_SR1_BTF ≠ 0)⟩)

/-! ## Circle drawing: distance from the circle -/

theorem drawCircle_octants_offsets (cx cy : Nat) (x0 y0 : Int) (hcx : cx ≤ 127)
    (hcy : cy ≤ 63) (hx0 : 0 ≤ x0) (hy0 : 0 ≤ y0) :
    ∀ p ∈ drawCircle_octants cx cy x0 y0,
      ((p.1 : Int) - cx) ^ 2 + ((p.2 : Int) - cy) ^ 2 = x0 ^ 2 + y0 ^ 2 := by
  intro p hp
  simp only [drawCircle_octants, List.mem_append] at hp
  rcases hp with ((((((hp | hp) | hp) | hp) | hp) | hp) | hp) | hp <;>
    · split at hp
      · next hg =>
        have hpe : p = _ := List.mem_singleton.mp hp
        subst hpe
        dsimp only
        rw [u8_of_lt, u8_of_lt]
        · ring
        all_goals omega
      · cases hp

theorem drawCircle_axes_offsets (cx cy r : Nat) (hcx : cx ≤ 127) (hcy : cy ≤ 63) :
    ∀ p ∈ drawCircle_axes cx cy r,
      ((p.1 : Int) - cx) ^ 2 + ((p.2 : Int) - cy) ^ 2 = (r : Int) ^ 2 := by
  intro p hp
  have hw : u8 ((SSD1306_WIDTH : Int) - 1) = 127 := by decide
  have hh : u8 ((SSD1306_HEIGHT : Int) - 1) = 63 := by decide
  simp only [drawCircle_axes, List.mem_append, hw, hh] at hp
  rcases hp with ((hp | hp) | hp) | hp <;>
    · split at hp
      · next hg =>
        have hpe : p = _ := List.mem_singleton.mp hp
        subst hpe
        push_cast at hg
        dsimp only
        rw [u8_of_lt]
        · ring
        all_goals omega
      · cases hp

/-- The loop of `ssd1306_drawCircle` for a radius up to 32: with
`e = x0² + y0² - r²` the decision variable is `e + 2*x0 + 1 - y0`, every
plotted point has `|e| ≤ r`, and every value assigned to `d0` fits `int8_t`. -/
theorem drawCircle_loop_on_circle (cx cy r : Nat) (hr : r ≤ 32) (hcx : cx ≤ 127)
    (hcy : cy ≤ 63) :
    ∀ (fuel : Nat) (x0 y0 d0 e : Int), 0 ≤ x0 → y0 ≤ r →
      e = x0 ^ 2 + y0 ^ 2 - (r : Int) ^ 2 → d0 = e + 2 * x0 + 1 - y0 → -y0 ≤ e →
      (x0 < y0 → e ≤ y0 - 1) → y0 - x0 < fuel → 0 < fuel →
      ∃ ps, drawCircle_loop fuel cx cy x0 y0 d0 = some ps ∧
        (∀ p ∈ ps,
          |((p.1 : Int) - cx) ^ 2 + ((p.2 : Int) - cy) ^ 2 - (r : Int) ^ 2| ≤ r) ∧
        ∀ v ∈ drawCircle_d0_assigned fuel x0 y0 d0, -128 ≤ v ∧ v ≤ 127 := by
  intro fuel
  induction fuel with
  | zero =>
    intro x0 y0 d0 e _ _ _ _ _ _ _ hpos
    omega
  | succ fuel ih =>
    intro x0 y0 d0 e hx0 hy0 he hd0 hlo hhi hf _
    by_cases hlt : x0 < y0
    · have hup := hhi hlt
      have ex : i8 (x0 + 1) = x0 + 1 := i8_of_range (by omega) (by omega)
      have ey : i8 (y0 - 1) = y0 - 1 := i8_of_range (by omega) (by omega)
      by_cases hd : d0 < 0
      · have he' : e + 2 * x0 + 1 = (x0 + 1) ^ 2 + y0 ^ 2 - (r : Int) ^ 2 := by
          rw [he]
          ring
        have ed : i8 (d0 + 2 * (x0 + 1) + 1) = d0 + 2 * (x0 + 1) + 1 :=
          i8_of_range (by omega) (by omega)
        obtain ⟨ps, hrun, hps, hvs⟩ := ih (x0 + 1) y0 (i8 (d0 + 2 * (x0 + 1) + 1))
          (e + 2 * x0 + 1) (by omega) hy0 he' (by rw [ed]; omega) (by omega)
          (fun _ => by omega) (by omega) (by omega)
        have hlist : drawCircle_d0_assigned (fuel + 1) x0 y0 d0 =
            (d0 + 2 * (x0 + 1) + 1) ::
              drawCircle_d0_assigned fuel (x0 + 1) y0 (i8 (d0 + 2 * (x0 + 1) + 1)) := by
          simp [drawCircle_d0_assigned, hlt, hd, ex]
        refine ⟨drawCircle_octants cx cy (x0 + 1) y0 ++ ps, ?_, ?_, ?_⟩
        · simp [drawCircle_loop, hlt, hd, ex, hrun]
        · intro p hp
          rcases List.mem_append.mp hp with hp | hp
          · rw [drawCircle_octants_offsets cx cy _ _ hcx hcy (by omega) (by omega) p hp,
              ← he']
            exact abs_le.2 ⟨by omega, by omega⟩
          · exact hps p hp
        · intro v hv
          rw [hlist] at hv
          rcases List.mem_cons.1 hv with rfl | hv
          · omega
          · exact hvs v hv
      · have he' : e + 2 * x0 - 2 * y0 + 2 = (x0 + 1) ^ 2 + (y0 - 1) ^ 2 - (r : Int) ^ 2 := by
          rw [he]
          ring
        have ed : i8 (d0 + 2 * (x0 + 1 - (y0 - 1)) + 1) = d0 + 2 * (x0 + 1 - (y0 - 1)) + 1 :=
          i8_of_range (by omega) (by omega)
        obtain ⟨ps, hrun, hps, hvs⟩ := ih (x0 + 1) (y0 - 1)
          (i8 (d0 + 2 * (x0 + 1 - (y0 - 1)) + 1)) (e + 2 * x0 - 2 * y0 + 2)
          (by omega) (by omega) he' (by rw [ed]; omega) (by omega)
          (fun _ => by omega) (by omega) (by omega)
        have hlist : drawCircle_d0_assigned (fuel + 1) x0 y0 d0 =
            (d0 + 2 * (x0 + 1 - (y0 - 1)) + 1) ::
              drawCircle_d0_assigned fuel (x0 + 1) (y0 - 1)
                (i8 (d0 + 2 * (x0 + 1 - (y0 - 1)) + 1)) := by
          simp [drawCircle_d0_assigned, hlt, hd, ex, ey]
        refine ⟨drawCircle_octants cx cy (x0 + 1) (y0 - 1) ++ ps, ?_, ?_, ?_⟩
        · simp [drawCircle_loop, hlt, hd, ex, ey, hrun]
        · intro p hp
          rcases List.mem_append.mp hp with hp | hp
          · rw [drawCircle_octants_offsets cx cy _ _ hcx hcy (by omega) (by omega) p hp,
              ← he']
            exact abs_le.2 ⟨by omega, by omega⟩
          · exact hps p hp
        · intro v hv
          rw [hlist] at hv
          rcases List.mem_cons.1 hv with rfl | hv
          · omega
          · exact hvs v hv
    · exact ⟨[], by simp [drawCircle_loop, hlt], by simp,
        by simp [drawCircle_d0_assigned, hlt]⟩

/-- C29: for every radius `r ≤ 32` and every centre on the display,
`drawCircle` terminates, every pixel `(x, y)` it passes to `drawPixel`
satisfies `|(x-cx)² + (y-cy)² - r²| ≤ r`, and every value assigned to the
`int8_t` decision variable `d0` lies in -128..127 before the conversion, so
no assignment wraps. -/
theorem drawCircle_on_circle (cx cy r : Nat) (hr : r ≤ 32) (hcx : cx ≤ 127) (hcy : cy ≤ 63) :
    ∃ ps, drawCircle_pixels cx cy r = some ps ∧
      (∀ p ∈ ps,
        |((p.1 : Int) - cx) ^ 2 + ((p.2 : Int) - cy) ^ 2 - (r : Int) ^ 2| ≤ r) ∧
      ∀ v ∈ drawCircle_d0_values r, -128 ≤ v ∧ v ≤ 127 := by
  have er : i8 (r : Int) = r := i8_of_range (by omega) (by omega)
  have ed : i8 (1 - (r : Int)) = 1 - r := i8_of_range (by omega) (by omega)
  obtain ⟨ps, hrun, hps, hvs⟩ := drawCircle_loop_on_circle cx cy r hr hcx hcy 128 0 r
    (1 - (r : Int)) 0 (le_refl _) (le_refl _) (by ring) (by ring) (by omega)
    (fun _ => by omega) (by omega) (by decide)
  refine ⟨ps ++ drawCircle_axes cx cy r, by simp [drawCircle_pixels, er, ed, hrun], ?_, ?_⟩
  · intro p hp
    rcases List.mem_append.mp hp with hp | hp
    · exact hps p hp
    · rw [drawCircle_axes_offsets cx cy r hcx hcy p hp, sub_self, abs_zero]
      exact Int.ofNat_nonneg r
  · intro v hv
    rw [drawCircle_d0_values, er, ed] at hv
    rcases List.mem_cons.1 hv with rfl | hv
    · omega
    · exact hvs v hv

/-- Witness for C29: centre (10, 10), radius 5. -/
theorem drawCircle_on_circle_witness :
    ∃ ps, drawCircle_pixels 10 10 5 = some ps ∧
      (∀ p ∈ ps, |((p.1 : Int) - (10 : Nat)) ^ 2 + ((p.2 : Int) - (10 : Nat)) ^ 2 -
        ((5 : Nat) : Int) ^ 2| ≤ (5 : Nat)) ∧
      ∀ v ∈ drawCircle_d0_values 5, -128 ≤ v ∧ v ≤ 127 :=
  drawCircle_on_circle 10 10 5 (by decide) (by decide) (by decide)

end SSD1306
